import Mathlib

/-!
Array store compatibility and primitive widening (mono `icall.c`)

A shallow embedding of the array store engine (`array_set_value_impl`,
`ves_icall_System_Array_GetValueImpl`), of the primitive widening
classification (`ves_icall_System_Array_CanChangePrimitive`,
`can_primitive_widen`) and of the icall registry and resolver
(`add_internal_call_with_flags`, `mono_lookup_internal_call_full_with_flags`)
of `src/mono/mono/metadata/icall.c`, together with the properties of the
specification that hold, or fail, on that code.

Conventions of the embedding:
* a `MonoTypeEnum` is its ECMA-335 element type code, a natural number;
* memory is a list of bytes (`List Nat`), multi-byte scalars are little endian;
* the host is a 64 bit one (`SIZEOF_VOID_P = 8`);
* `G_STMT_START` / `G_STMT_END` are glib's `do` / `while (0)`, so a `break`
  written inside one of the conversion macros leaves that macro only;
* a C string is the list of its bytes before the terminator, and a call of the
  resolver yields, besides its result, the list of what it did (`IcallEvent`).
-/

set_option autoImplicit false

namespace Icall

/-! ## Element type codes -/

/-- The element type tag of a `MonoType` (ECMA-335 II.23.1.16 codes). -/
abbrev MonoTypeEnum := Nat

abbrev MONO_TYPE_END : MonoTypeEnum := 0x00
abbrev MONO_TYPE_VOID : MonoTypeEnum := 0x01
abbrev MONO_TYPE_BOOLEAN : MonoTypeEnum := 0x02
abbrev MONO_TYPE_CHAR : MonoTypeEnum := 0x03
abbrev MONO_TYPE_I1 : MonoTypeEnum := 0x04
abbrev MONO_TYPE_U1 : MonoTypeEnum := 0x05
abbrev MONO_TYPE_I2 : MonoTypeEnum := 0x06
abbrev MONO_TYPE_U2 : MonoTypeEnum := 0x07
abbrev MONO_TYPE_I4 : MonoTypeEnum := 0x08
abbrev MONO_TYPE_U4 : MonoTypeEnum := 0x09
abbrev MONO_TYPE_I8 : MonoTypeEnum := 0x0a
abbrev MONO_TYPE_U8 : MonoTypeEnum := 0x0b
abbrev MONO_TYPE_R4 : MonoTypeEnum := 0x0c
abbrev MONO_TYPE_R8 : MonoTypeEnum := 0x0d
abbrev MONO_TYPE_STRING : MonoTypeEnum := 0x0e
abbrev MONO_TYPE_PTR : MonoTypeEnum := 0x0f
abbrev MONO_TYPE_VALUETYPE : MonoTypeEnum := 0x11
abbrev MONO_TYPE_CLASS : MonoTypeEnum := 0x12
abbrev MONO_TYPE_I : MonoTypeEnum := 0x18
abbrev MONO_TYPE_U : MonoTypeEnum := 0x19
abbrev MONO_TYPE_OBJECT : MonoTypeEnum := 0x1c
abbrev MONO_TYPE_SZARRAY : MonoTypeEnum := 0x1d

/-- Modelled from the spec: `mono_type_is_primitive` is declared outside the
sources at hand; the primitive kinds are Boolean, Char, Int8/16/32/64,
UInt8/16/32/64, Float32/64 and the native-width Int/UInt. -/
def mono_type_is_primitive (t : MonoTypeEnum) : Bool :=
  (t ≥ MONO_TYPE_BOOLEAN && t ≤ MONO_TYPE_R8) || t == MONO_TYPE_I || t == MONO_TYPE_U

/-! ## Primitive widening table -/

abbrev PT_Primitive : Nat := 0x01000000

/-- The table `primitive_conversions`, indexed by the source element type. -/
def primitive_conversions : List Nat :=
  [ 0x00,                    -- MONO_TYPE_END
    0x00,                    -- MONO_TYPE_VOID
    PT_Primitive ||| 0x0004, -- MONO_TYPE_BOOLEAN
    PT_Primitive ||| 0x3F88, -- MONO_TYPE_CHAR
    PT_Primitive ||| 0x3550, -- MONO_TYPE_I1
    PT_Primitive ||| 0x3FE8, -- MONO_TYPE_U1
    PT_Primitive ||| 0x3540, -- MONO_TYPE_I2
    PT_Primitive ||| 0x3F88, -- MONO_TYPE_U2
    PT_Primitive ||| 0x3500, -- MONO_TYPE_I4
    PT_Primitive ||| 0x3E00, -- MONO_TYPE_U4
    PT_Primitive ||| 0x3400, -- MONO_TYPE_I8
    PT_Primitive ||| 0x3800, -- MONO_TYPE_U8
    PT_Primitive ||| 0x3000, -- MONO_TYPE_R4
    PT_Primitive ||| 0x2000  -- MONO_TYPE_R8
  ]

/-- The function `can_primitive_widen`. -/
def can_primitive_widen (src_type dest_type : MonoTypeEnum) : Bool :=
  if dest_type > MONO_TYPE_R8 || src_type > MONO_TYPE_R8 then
    (MONO_TYPE_I == dest_type && MONO_TYPE_I == src_type)
      || (MONO_TYPE_U == dest_type && MONO_TYPE_U == src_type)
  else
    ((1 <<< dest_type) &&& primitive_conversions.getD src_type 0) != 0

/-- The function `get_normalized_integral_array_element_type`. -/
def get_normalized_integral_array_element_type (elementType : MonoTypeEnum) : MonoTypeEnum :=
  if elementType == MONO_TYPE_U1 || elementType == MONO_TYPE_U2 || elementType == MONO_TYPE_U4
      || elementType == MONO_TYPE_U8 || elementType == MONO_TYPE_U then
    elementType - 1 -- normalize to signed type
  else
    elementType

/-- The function `ves_icall_System_Array_CanChangePrimitive`, on the element type
tags of the two reflection types. `none` stands for a failed `g_assert`. -/
def ves_icall_System_Array_CanChangePrimitive (src_type dst_type : MonoTypeEnum)
    (reliable : Bool) : Option Bool :=
  if !mono_type_is_primitive src_type then none
  else if !mono_type_is_primitive dst_type then none
  else
    let normalized_src_type := get_normalized_integral_array_element_type src_type
    let normalized_dst_type := get_normalized_integral_array_element_type dst_type
    -- Allow conversions like int <-> uint
    if normalized_src_type == normalized_dst_type then some true
    -- Widening is not allowed if reliable is true.
    else if reliable then some false
    -- NOTE we don't use normalized types here so int -> ulong will be false
    else some (can_primitive_widen src_type dst_type)

/-- The signed/unsigned integer kinds of one width: `I1/U1`, `I2/U2`, `I4/U4`,
`I8/U8` and `I/U`, in either order. -/
def same_width_pair (a b : MonoTypeEnum) : Bool :=
  [(MONO_TYPE_I1, MONO_TYPE_U1), (MONO_TYPE_I2, MONO_TYPE_U2), (MONO_TYPE_I4, MONO_TYPE_U4),
   (MONO_TYPE_I8, MONO_TYPE_U8), (MONO_TYPE_I, MONO_TYPE_U)].any
    (fun p => (a == p.1 && b == p.2) || (a == p.2 && b == p.1))

/-- The primitive kinds, listed. -/
def primitive_kinds : List MonoTypeEnum :=
  [MONO_TYPE_BOOLEAN, MONO_TYPE_CHAR, MONO_TYPE_I1, MONO_TYPE_U1, MONO_TYPE_I2, MONO_TYPE_U2,
   MONO_TYPE_I4, MONO_TYPE_U4, MONO_TYPE_I8, MONO_TYPE_U8, MONO_TYPE_R4, MONO_TYPE_R8,
   MONO_TYPE_I, MONO_TYPE_U]

/-! ## Memory

Pointers into a block of memory are byte offsets; a block is a list of bytes. -/

/-- The size of a pointer on the host. -/
abbrev SIZEOF_VOID_P : Nat := 8

/-- The little endian value of a byte string. -/
def le_decode : List Nat → Nat
  | [] => 0
  | b :: bs => b + 256 * le_decode bs

/-- The `n` low bytes of `v`, little endian. -/
def le_encode : Nat → Nat → List Nat
  | 0, _ => []
  | n + 1, v => (v % 256) :: le_encode n (v / 256)

/-- The value of the `n` byte two's complement pattern `u`. -/
def sign_extend (n : Nat) (u : Nat) : Int :=
  if u < 2 ^ (8 * n - 1) then (u : Int) else (u : Int) - 2 ^ (8 * n)

/-- The `n` bytes read at offset `addr`. -/
def mem_read (mem : List Nat) (addr n : Nat) : List Nat :=
  (mem.drop addr).take n

/-- The block `mem` with the bytes `bs` written at offset `addr`. -/
def mem_write (mem : List Nat) (addr : Nat) (bs : List Nat) : List Nat :=
  mem.take addr ++ bs ++ mem.drop (addr + bs.length)

/-- The store `*(etype *) ea = (etype) v` for an integer type of `size` bytes: the
conversion keeps the value modulo `2 ^ (8 * size)`. -/
def store_scalar (mem : List Nat) (ea size : Nat) (v : Int) : List Nat :=
  mem_write mem ea (le_encode size (v % 2 ^ (8 * size)).toNat)

/-- The call `mono_gc_bzero_atomic (dest, size)`. -/
def mono_gc_bzero_atomic (mem : List Nat) (dest size : Nat) : List Nat :=
  mem_write mem dest (List.replicate size 0)

/-- The call `mono_gc_memmove_atomic (dest, src, size)`, the source being the bytes
that start at the source pointer. -/
def mono_gc_memmove_atomic (mem : List Nat) (dest : Nat) (src : List Nat) (size : Nat) :
    List Nat :=
  mem_write mem dest (src.take size)

/-! ## Classes, objects and arrays -/

/-- The fields of a `MonoClass` that the array store engine reads. -/
structure MonoClassDef where
  /-- The metadata token, which tells classes apart. -/
  type_token : Nat
  /-- The tag `m_class_get_byval_arg (klass)->type`. -/
  byval_type : MonoTypeEnum
  /-- The flag `m_class_is_valuetype (klass)`. -/
  valuetype : Bool
  /-- The flag `m_class_is_enumtype (klass)`. -/
  enumtype : Bool
  /-- The tag `mono_class_enum_basetype_internal (klass)->type`. -/
  enum_basetype : MonoTypeEnum
  /-- The flag `m_class_is_primitive (klass)`. -/
  primitive : Bool
  /-- The flag `m_class_has_references (klass)`. -/
  has_references : Bool
  /-- The flag `mono_class_is_pointer (klass)`. -/
  is_pointer : Bool
  /-- The size `mono_class_value_size (klass, NULL)`. -/
  value_size : Nat
deriving DecidableEq, Repr

/-- A class: an ordinary one, or the instance `Nullable<elem>`. Classes are interned,
so pointer equality of `MonoClass *` is equality here. -/
inductive MonoClass where
  | plain (d : MonoClassDef)
  | nullable (d : MonoClassDef) (elem : MonoClass)
deriving DecidableEq, Repr

/-- The fields of a class. -/
def MonoClass.d : MonoClass → MonoClassDef
  | .plain d => d
  | .nullable d _ => d

def mono_class_is_nullable : MonoClass → Bool
  | .plain _ => false
  | .nullable _ _ => true

/-- The accessor `m_class_get_nullable_elem_class`, which reads the cast class: the
parameter class of a nullable, the class itself otherwise. -/
def m_class_get_nullable_elem_class : MonoClass → MonoClass
  | .plain d => .plain d
  | .nullable _ elem => elem

def m_class_is_valuetype (klass : MonoClass) : Bool := klass.d.valuetype

def m_class_is_enumtype (klass : MonoClass) : Bool := klass.d.enumtype

def m_class_is_primitive (klass : MonoClass) : Bool := klass.d.primitive

def m_class_has_references (klass : MonoClass) : Bool := klass.d.has_references

def mono_class_is_pointer (klass : MonoClass) : Bool := klass.d.is_pointer

def mono_class_value_size (klass : MonoClass) : Nat := klass.d.value_size

/-- A managed object: its address (the reference), its class and the bytes that
follow the object header (`mono_object_unbox_internal`). -/
structure MonoObject where
  addr : Nat
  klass : MonoClass
  payload : List Nat
deriving DecidableEq, Repr

/-- A managed array: the element class and element size of its array class, its
length and its contiguous storage. -/
structure MonoArray where
  /-- The class `m_class_get_element_class (mono_object_class (arr))`. -/
  element_class : MonoClass
  /-- The size `mono_array_element_size (mono_object_class (arr))`. -/
  element_size : Nat
  max_length : Nat
  vector : List Nat
deriving DecidableEq, Repr

/-- The state of a `MonoError`: no error, the invalid cast error of
`mono_error_set_invalid_cast`, the argument error of `mono_error_set_argument`. -/
inductive MonoError where
  | ok
  | invalid_cast
  | argument
deriving DecidableEq, Repr

def is_ok (error : MonoError) : Bool := error == MonoError.ok

/-- The collaborators of the store engine that live outside `icall.c`, taken as
parameters: the type system's assignability check and the C conversions from and to
floating point, a floating point number being given by its bit pattern. -/
structure MonoRuntime where
  /-- The check `mono_object_handle_isinst_mbyref_raw (value, klass, error)`. -/
  isinst : MonoObject → MonoClass → Bool
  /-- The conversion `(gdouble)` of a `gfloat`. -/
  r4_to_r8 : Nat → Nat
  /-- The conversion `(gfloat)` of a `gdouble`. -/
  r8_to_r4 : Nat → Nat
  /-- The conversion `(gfloat)` of a `gint64`. -/
  i64_to_r4 : Int → Nat
  /-- The conversion `(gdouble)` of a `gint64`. -/
  i64_to_r8 : Int → Nat
  /-- The conversion `(gfloat)` of a `guint64`. -/
  u64_to_r4 : Nat → Nat
  /-- The conversion `(gdouble)` of a `guint64`. -/
  u64_to_r8 : Nat → Nat

/-- Modelled from the spec: `mono_nullable_init_unboxed` lives outside the sources at
hand. A null value zeroes the slot (section 4.1, step 1); a value is boxed into the
nullable representation (step 2), here the has-value byte, zero bytes, and last the
payload of the parameter class. -/
def mono_nullable_init_unboxed (mem : List Nat) (buf : Nat) (value : Option (List Nat))
    (klass : MonoClass) : List Nat :=
  let size := mono_class_value_size klass
  let psize := mono_class_value_size (m_class_get_nullable_elem_class klass)
  match value with
  | none => mono_gc_bzero_atomic mem buf size
  | some va => mem_write mem buf (1 :: List.replicate (size - 1 - psize) 0 ++ va.take psize)

/-- The copy `mono_value_copy_internal (dest, src, klass)` of one value of `klass`. -/
def mono_value_copy_internal (mem : List Nat) (dest : Nat) (src : List Nat)
    (klass : MonoClass) : List Nat :=
  mem_write mem dest (src.take (mono_class_value_size klass))

/-- The macro `mono_array_setref_fast (arr, pos, value)`: the slots of a reference
array are pointers. -/
def mono_array_setref_fast (arr : MonoArray) (pos : Nat) (value : Nat) : MonoArray :=
  { arr with vector := store_scalar arr.vector (SIZEOF_VOID_P * pos) SIZEOF_VOID_P value }

/-! ## Reading an array element -/

/-- What `ves_icall_System_Array_GetValueImpl` leaves in the result handle: a reference
read from the array (0 is null), or a freshly made box. -/
inductive ObjectHandle where
  | ref (addr : Nat)
  | box (klass : MonoClass) (payload : List Nat)
deriving DecidableEq, Repr

/-- Modelled from the spec: `mono_value_box_checked` lives outside the sources at hand.
A boxed value is a type descriptor and the raw bytes of the value (section 3); a
nullable without a value boxes to null, one with a value to a box of its payload. -/
def mono_value_box_checked (klass : MonoClass) (mem : List Nat) (addr : Nat) : ObjectHandle :=
  let size := mono_class_value_size klass
  if mono_class_is_nullable klass then
    let elem := m_class_get_nullable_elem_class klass
    let psize := mono_class_value_size elem
    if mem_read mem addr 1 == [0] then ObjectHandle.ref 0
    else ObjectHandle.box elem (mem_read mem (addr + (size - psize)) psize)
  else ObjectHandle.box klass (mem_read mem addr size)

/-- The function `ves_icall_System_Array_GetValueImpl`. -/
def ves_icall_System_Array_GetValueImpl (array : MonoArray) (pos : Nat) : ObjectHandle :=
  let element_class := array.element_class
  if m_class_is_valuetype element_class || mono_class_is_pointer element_class then
    let element_size := array.element_size
    let element_address := element_size * pos
    mono_value_box_checked element_class array.vector element_address
  else
    ObjectHandle.ref (le_decode (mem_read array.vector (SIZEOF_VOID_P * pos) SIZEOF_VOID_P))

/-! ## Storing into an array element -/

/-- The source kinds `U1`, `U2`, `U4`, `U8` and `CHAR`, which are loaded into `u64`. -/
def is_unsigned_kind (vt : MonoTypeEnum) : Bool :=
  vt == MONO_TYPE_U1 || vt == MONO_TYPE_U2 || vt == MONO_TYPE_U4 || vt == MONO_TYPE_U8
    || vt == MONO_TYPE_CHAR

/-- The source kinds `I1`, `I2`, `I4` and `I8`, which are loaded into `i64`. -/
def is_signed_kind (vt : MonoTypeEnum) : Bool :=
  vt == MONO_TYPE_I1 || vt == MONO_TYPE_I2 || vt == MONO_TYPE_I4 || vt == MONO_TYPE_I8

/-- The source kinds `R4` and `R8`, which are loaded into `r64`. -/
def is_real_kind (vt : MonoTypeEnum) : Bool :=
  vt == MONO_TYPE_R4 || vt == MONO_TYPE_R8

/-- The macro `CHECK_WIDENING_CONVERSION (extra)`, as the error it leaves. Its `break`
ends the macro's own `do ... while (0)`: the statement that follows the macro runs
whether the check passes or not. -/
def CHECK_WIDENING_CONVERSION (esize vsize extra : Nat) : MonoError :=
  if esize < vsize + extra then MonoError.argument else MonoError.ok

/-- The first `switch (et)`: the check of the destination type against the type of
the value, before any conversion. -/
def check_element_type (et vt : MonoTypeEnum) : MonoError :=
  if et == MONO_TYPE_STRING then
    if vt == MONO_TYPE_STRING then MonoError.ok else MonoError.invalid_cast
  else if et == MONO_TYPE_BOOLEAN then
    if vt == MONO_TYPE_BOOLEAN then MonoError.ok
    else if vt == MONO_TYPE_CHAR || vt == MONO_TYPE_U1 || vt == MONO_TYPE_U2
        || vt == MONO_TYPE_U4 || vt == MONO_TYPE_U8 || vt == MONO_TYPE_I1
        || vt == MONO_TYPE_I2 || vt == MONO_TYPE_I4 || vt == MONO_TYPE_I8
        || vt == MONO_TYPE_R4 || vt == MONO_TYPE_R8 then MonoError.argument
    else MonoError.invalid_cast
  else MonoError.ok

/-- The accumulators `u64`, `i64` and `r64` (the last as the bit pattern of a double). -/
structure Accumulators where
  u64 : Nat
  i64 : Int
  r64 : Nat
deriving DecidableEq, Repr

/-- The `switch (vt)` that loads the value at `va` into the accumulator of its kind;
a Boolean value is compatible with no other kind, which is an error. -/
def load_value (rt : MonoRuntime) (vt et : MonoTypeEnum) (va : List Nat) :
    Accumulators × MonoError :=
  let zero : Accumulators := { u64 := 0, i64 := 0, r64 := 0 }
  if vt == MONO_TYPE_U1 then ({ zero with u64 := le_decode (va.take 1) }, MonoError.ok)
  else if vt == MONO_TYPE_U2 then ({ zero with u64 := le_decode (va.take 2) }, MonoError.ok)
  else if vt == MONO_TYPE_U4 then ({ zero with u64 := le_decode (va.take 4) }, MonoError.ok)
  else if vt == MONO_TYPE_U8 then ({ zero with u64 := le_decode (va.take 8) }, MonoError.ok)
  else if vt == MONO_TYPE_I1 then
    ({ zero with i64 := sign_extend 1 (le_decode (va.take 1)) }, MonoError.ok)
  else if vt == MONO_TYPE_I2 then
    ({ zero with i64 := sign_extend 2 (le_decode (va.take 2)) }, MonoError.ok)
  else if vt == MONO_TYPE_I4 then
    ({ zero with i64 := sign_extend 4 (le_decode (va.take 4)) }, MonoError.ok)
  else if vt == MONO_TYPE_I8 then
    ({ zero with i64 := sign_extend 8 (le_decode (va.take 8)) }, MonoError.ok)
  else if vt == MONO_TYPE_R4 then
    ({ zero with r64 := rt.r4_to_r8 (le_decode (va.take 4)) }, MonoError.ok)
  else if vt == MONO_TYPE_R8 then ({ zero with r64 := le_decode (va.take 8) }, MonoError.ok)
  else if vt == MONO_TYPE_CHAR then ({ zero with u64 := le_decode (va.take 2) }, MonoError.ok)
  else if vt == MONO_TYPE_BOOLEAN then
    -- Boolean is only compatible with itself.
    if et == MONO_TYPE_CHAR || et == MONO_TYPE_U1 || et == MONO_TYPE_U2
        || et == MONO_TYPE_U4 || et == MONO_TYPE_U8 || et == MONO_TYPE_I1
        || et == MONO_TYPE_I2 || et == MONO_TYPE_I4 || et == MONO_TYPE_I8
        || et == MONO_TYPE_R4 || et == MONO_TYPE_R8 then (zero, MonoError.argument)
    else (zero, MonoError.invalid_cast)
  else (zero, MonoError.ok)

/-- The macro `ASSIGN_UNSIGNED (etype)` for an `etype` of `size` bytes. -/
def ASSIGN_UNSIGNED (size : Nat) (vt : MonoTypeEnum) (esize vsize : Nat) (strict_signs : Bool)
    (acc : Accumulators) (mem : List Nat) (ea : Nat) : MonoError × List Nat :=
  if is_unsigned_kind vt then
    (CHECK_WIDENING_CONVERSION esize vsize 0, store_scalar mem ea size acc.u64)
  -- You can't assign a signed value to an unsigned array.
  else if is_signed_kind vt && !strict_signs then
    (CHECK_WIDENING_CONVERSION esize vsize 0, store_scalar mem ea size acc.i64)
  -- You can't assign a floating point number to an integer array.
  else if is_signed_kind vt || is_real_kind vt then (MonoError.argument, mem)
  else (MonoError.invalid_cast, mem)

/-- The macro `ASSIGN_SIGNED (etype)` for an `etype` of `size` bytes. -/
def ASSIGN_SIGNED (size : Nat) (vt : MonoTypeEnum) (esize vsize : Nat) (strict_signs : Bool)
    (acc : Accumulators) (mem : List Nat) (ea : Nat) : MonoError × List Nat :=
  if is_signed_kind vt then
    (CHECK_WIDENING_CONVERSION esize vsize 0, store_scalar mem ea size acc.i64)
  -- You can assign an unsigned value to a signed array if the array's
  -- element size is larger than the value size.
  else if is_unsigned_kind vt then
    (CHECK_WIDENING_CONVERSION esize vsize (if strict_signs then 1 else 0),
      store_scalar mem ea size acc.u64)
  -- You can't assign a floating point number to an integer array.
  else if is_real_kind vt then (MonoError.argument, mem)
  else (MonoError.invalid_cast, mem)

/-- The macro `ASSIGN_REAL (etype)`, `gfloat` for `size = 4` and `gdouble` otherwise. -/
def ASSIGN_REAL (rt : MonoRuntime) (size : Nat) (vt : MonoTypeEnum) (esize vsize : Nat)
    (acc : Accumulators) (mem : List Nat) (ea : Nat) : MonoError × List Nat :=
  if is_real_kind vt then
    (CHECK_WIDENING_CONVERSION esize vsize 0,
      mem_write mem ea (le_encode size (if size == 4 then rt.r8_to_r4 acc.r64 else acc.r64)))
  -- All integer values fit into a floating point array, so we don't
  -- need to CHECK_WIDENING_CONVERSION here.
  else if is_signed_kind vt then
    (MonoError.ok,
      mem_write mem ea
        (le_encode size (if size == 4 then rt.i64_to_r4 acc.i64 else rt.i64_to_r8 acc.i64)))
  else if is_unsigned_kind vt then
    (MonoError.ok,
      mem_write mem ea
        (le_encode size (if size == 4 then rt.u64_to_r4 acc.u64 else rt.u64_to_r8 acc.u64)))
  else (MonoError.invalid_cast, mem)

/-- The last `switch (et)`: the widening conversion into the slot at `ea`. -/
def assign_element (rt : MonoRuntime) (et vt : MonoTypeEnum) (esize vsize : Nat)
    (strict_signs : Bool) (acc : Accumulators) (mem : List Nat) (ea : Nat) :
    MonoError × List Nat :=
  if et == MONO_TYPE_CHAR then ASSIGN_UNSIGNED 2 vt esize vsize strict_signs acc mem ea
  else if et == MONO_TYPE_U1 then ASSIGN_UNSIGNED 1 vt esize vsize strict_signs acc mem ea
  else if et == MONO_TYPE_U2 then ASSIGN_UNSIGNED 2 vt esize vsize strict_signs acc mem ea
  else if et == MONO_TYPE_U4 then ASSIGN_UNSIGNED 4 vt esize vsize strict_signs acc mem ea
  else if et == MONO_TYPE_U8 then ASSIGN_UNSIGNED 8 vt esize vsize strict_signs acc mem ea
  else if et == MONO_TYPE_I1 then ASSIGN_SIGNED 1 vt esize vsize strict_signs acc mem ea
  else if et == MONO_TYPE_I2 then ASSIGN_SIGNED 2 vt esize vsize strict_signs acc mem ea
  else if et == MONO_TYPE_I4 then ASSIGN_SIGNED 4 vt esize vsize strict_signs acc mem ea
  else if et == MONO_TYPE_I8 then ASSIGN_SIGNED 8 vt esize vsize strict_signs acc mem ea
  else if et == MONO_TYPE_R4 then ASSIGN_REAL rt 4 vt esize vsize acc mem ea
  else if et == MONO_TYPE_R8 then ASSIGN_REAL rt 8 vt esize vsize acc mem ea
  else (MonoError.invalid_cast, mem)

/-- The folding of `MONO_TYPE_U` / `MONO_TYPE_I` into `MONO_TYPE_U8` / `MONO_TYPE_I8`
(`SIZEOF_VOID_P == 8`). -/
def fold_native (t : MonoTypeEnum) : MonoTypeEnum :=
  if t == MONO_TYPE_U then MONO_TYPE_U8 else if t == MONO_TYPE_I then MONO_TYPE_I8 else t

/-- The function `array_set_value_impl`: the error it leaves (starting from no error)
and the array after the call. A null `value_handle` is `none`. -/
def array_set_value_impl (rt : MonoRuntime) (arr : MonoArray) (value_handle : Option MonoObject)
    (pos : Nat) (strict_enums strict_signs : Bool) : MonoError × MonoArray :=
  let ec := arr.element_class
  let esize := arr.element_size
  let ea := esize * pos
  if mono_class_is_nullable ec then
    match value_handle with
    | some value =>
      if m_class_is_primitive value.klass
          && value.klass != m_class_get_nullable_elem_class ec then
        -- T -> Nullable<T>  T must be exact
        (MonoError.invalid_cast, arr)
      else
        (MonoError.ok,
          { arr with vector := mono_nullable_init_unboxed arr.vector ea (some value.payload) ec })
    | none =>
      (MonoError.ok, { arr with vector := mono_nullable_init_unboxed arr.vector ea none ec })
  else
    match value_handle with
    | none => (MonoError.ok, { arr with vector := mono_gc_bzero_atomic arr.vector ea esize })
    | some value =>
      let vc := value.klass
      let et := ec.d.byval_type
      let vt := vc.d.byval_type
      -- Check element (destination) type.
      let error := check_element_type et vt
      if !is_ok error then (error, arr)
      else
        let castOk := rt.isinst value ec
        if !m_class_is_valuetype ec then
          if !castOk then (MonoError.invalid_cast, arr)
          else (MonoError.ok, mono_array_setref_fast arr pos value.addr)
        else if castOk then
          let va := value.payload
          if m_class_has_references ec then
            (MonoError.ok, { arr with vector := mono_value_copy_internal arr.vector ea va ec })
          else
            (MonoError.ok, { arr with vector := mono_gc_memmove_atomic arr.vector ea va esize })
        else if !m_class_is_valuetype vc then (MonoError.invalid_cast, arr)
        else
          let vsize := mono_class_value_size vc
          let et_isenum := et == MONO_TYPE_VALUETYPE && m_class_is_enumtype ec
          let vt_isenum := vt == MONO_TYPE_VALUETYPE && m_class_is_enumtype vc
          if strict_enums && et_isenum && !vt_isenum then (MonoError.invalid_cast, arr)
          else
            let et := if et_isenum then ec.d.enum_basetype else et
            let vt := if vt_isenum then vc.d.enum_basetype else vt
            -- Treat MONO_TYPE_U/I as MONO_TYPE_U8/I8/U4/I4
            let vt := fold_native vt
            let et := fold_native et
            let va := value.payload
            let loaded := load_value rt vt et va
            -- If we can't do a direct copy, let's try a widening conversion.
            if is_ok loaded.2 then
              let stored := assign_element rt et vt esize vsize strict_signs loaded.1 arr.vector ea
              (stored.1, { arr with vector := stored.2 })
            else (loaded.2, arr)

/-- The function `ves_icall_System_Array_SetValueImpl`: the strict store. -/
def ves_icall_System_Array_SetValueImpl (rt : MonoRuntime) (arr : MonoArray)
    (value_handle : Option MonoObject) (pos : Nat) : MonoError × MonoArray :=
  array_set_value_impl rt arr value_handle pos true true

/-- The function `ves_icall_System_Array_SetValueRelaxedImpl`: the relaxed store. -/
def ves_icall_System_Array_SetValueRelaxedImpl (rt : MonoRuntime) (arr : MonoArray)
    (value_handle : Option MonoObject) (pos : Nat) : MonoError × MonoArray :=
  array_set_value_impl rt arr value_handle pos false false

/-! ## Vocabulary of the statements and concrete inputs -/

/-- The slot `i` of an array: the `element_size` bytes at its address. -/
def MonoArray.slot (arr : MonoArray) (i : Nat) : List Nat :=
  mem_read arr.vector (arr.element_size * i) arr.element_size

/-- A runtime whose assignability check accepts exactly the objects of the class asked
for, and whose floating point conversions are not looked at. -/
def exact_runtime : MonoRuntime :=
  { isinst := fun o c => decide (o.klass = c),
    r4_to_r8 := fun _ => 0, r8_to_r4 := fun _ => 0, i64_to_r4 := fun _ => 0,
    i64_to_r8 := fun _ => 0, u64_to_r4 := fun _ => 0, u64_to_r8 := fun _ => 0 }

/-- The class of a primitive value type of kind `t` and `size` bytes. -/
def primitive_class (token : Nat) (t : MonoTypeEnum) (size : Nat) : MonoClass :=
  MonoClass.plain
    { type_token := token, byval_type := t, valuetype := true, enumtype := false,
      enum_basetype := MONO_TYPE_END, primitive := true, has_references := false,
      is_pointer := false, value_size := size }

/-- The class of an enum type over the integral kind `base`, of `size` bytes. -/
def enum_class (token : Nat) (base : MonoTypeEnum) (size : Nat) : MonoClass :=
  MonoClass.plain
    { type_token := token, byval_type := MONO_TYPE_VALUETYPE, valuetype := true,
      enumtype := true, enum_basetype := base, primitive := false, has_references := false,
      is_pointer := false, value_size := size }

/-- The class of a reference type of kind `t`. -/
def reference_class (token : Nat) (t : MonoTypeEnum) : MonoClass :=
  MonoClass.plain
    { type_token := token, byval_type := t, valuetype := false, enumtype := false,
      enum_basetype := MONO_TYPE_END, primitive := false, has_references := false,
      is_pointer := false, value_size := SIZEOF_VOID_P }

/-- The class `Nullable<elem>`, of `size` bytes. -/
def nullable_class (token : Nat) (elem : MonoClass) (size : Nat) : MonoClass :=
  MonoClass.nullable
    { type_token := token, byval_type := 0x15, valuetype := true, enumtype := false,
      enum_basetype := MONO_TYPE_END, primitive := false, has_references := false,
      is_pointer := false, value_size := size } elem

def int32_class : MonoClass := primitive_class 1 MONO_TYPE_I4 4

def boolean_class : MonoClass := primitive_class 2 MONO_TYPE_BOOLEAN 1

def intptr_class : MonoClass := primitive_class 3 MONO_TYPE_I 8

def string_class : MonoClass := reference_class 4 MONO_TYPE_STRING

def object_class : MonoClass := reference_class 5 MONO_TYPE_OBJECT

def uri_class : MonoClass := reference_class 6 MONO_TYPE_CLASS

def color_enum_class : MonoClass := enum_class 7 MONO_TYPE_I4 4

def shape_enum_class : MonoClass := enum_class 8 MONO_TYPE_I4 4

def nullable_int32_class : MonoClass := nullable_class 9 int32_class 8

/-- An `int[2]` holding `0x04030201` and `0x08070605`. -/
def int32_array : MonoArray :=
  { element_class := int32_class, element_size := 4, max_length := 2,
    vector := [1, 2, 3, 4, 5, 6, 7, 8] }

/-- A `string[2]` holding two references. -/
def string_array : MonoArray :=
  { element_class := string_class, element_size := 8, max_length := 2,
    vector := [0x10, 0x20, 0, 0, 0, 0, 0, 0, 0x30, 0x40, 0, 0, 0, 0, 0, 0] }

/-- A `bool[2]` holding `true` and `false`. -/
def boolean_array : MonoArray :=
  { element_class := boolean_class, element_size := 1, max_length := 2, vector := [1, 0] }

/-- An `int?[2]` holding `7` and `9`. -/
def nullable_int32_array : MonoArray :=
  { element_class := nullable_int32_class, element_size := 8, max_length := 2,
    vector := [1, 0, 0, 0, 7, 0, 0, 0, 1, 0, 0, 0, 9, 0, 0, 0] }

/-- A `Shape[2]`, an array of an enum type over `int`. -/
def shape_array : MonoArray :=
  { element_class := shape_enum_class, element_size := 4, max_length := 2,
    vector := [1, 0, 0, 0, 2, 0, 0, 0] }

/-- A boxed `int`, `0x0d0c0b0a`. -/
def boxed_int32 : MonoObject :=
  { addr := 0x1000, klass := int32_class, payload := [0x0a, 0x0b, 0x0c, 0x0d] }

/-- A boxed `Color`, an enum over `int`, of value `0x0d0c0b0a`. -/
def boxed_color : MonoObject :=
  { addr := 0x2000, klass := color_enum_class, payload := [0x0a, 0x0b, 0x0c, 0x0d] }

/-- A boxed `IntPtr`. -/
def boxed_intptr : MonoObject :=
  { addr := 0x3000, klass := intptr_class, payload := [5, 0, 0, 0, 0, 0, 0, 0] }

/-- A string object. -/
def a_string : MonoObject :=
  { addr := 0x4000, klass := string_class, payload := [3, 0, 0, 0, 97, 0, 98, 0, 99, 0] }

/-- An object of a class unrelated to `String`. -/
def a_uri : MonoObject :=
  { addr := 0x5000, klass := uri_class, payload := [0, 0, 0, 0, 0, 0, 0, 0] }

def intptr_array : MonoArray :=
  { element_class := intptr_class, element_size := 8, max_length := 1,
    vector := [9, 0, 0, 0, 0, 0, 0, 0] }

/-- A boxed `bool`, `true`. -/
def boxed_boolean : MonoObject :=
  { addr := 0x6000, klass := boolean_class, payload := [1] }

/-- The integral kinds an enum type is built over: the fixed width integers, `Char`
and the native width integers. -/
def integral_kinds : List MonoTypeEnum :=
  [MONO_TYPE_I1, MONO_TYPE_U1, MONO_TYPE_I2, MONO_TYPE_U2, MONO_TYPE_I4, MONO_TYPE_U4,
   MONO_TYPE_I8, MONO_TYPE_U8, MONO_TYPE_CHAR, MONO_TYPE_I, MONO_TYPE_U]

/-- The size in bytes of a value of a primitive kind: the width of the C type the
engine reads and writes it with, a pointer for the native width integers. -/
def kind_size (t : MonoTypeEnum) : Nat :=
  if t == MONO_TYPE_BOOLEAN || t == MONO_TYPE_I1 || t == MONO_TYPE_U1 then 1
  else if t == MONO_TYPE_CHAR || t == MONO_TYPE_I2 || t == MONO_TYPE_U2 then 2
  else if t == MONO_TYPE_I4 || t == MONO_TYPE_U4 || t == MONO_TYPE_R4 then 4
  else if t == MONO_TYPE_I8 || t == MONO_TYPE_U8 || t == MONO_TYPE_R8 then 8
  else if t == MONO_TYPE_I || t == MONO_TYPE_U then SIZEOF_VOID_P
  else 0

/-- An enum type over the kind `base`: a value type that is not nullable, tagged
`MONO_TYPE_VALUETYPE`, flagged as enum, whose values have the size of `base`. -/
def is_enum_over (klass : MonoClass) (base : MonoTypeEnum) : Bool :=
  !mono_class_is_nullable klass && klass.d.byval_type == MONO_TYPE_VALUETYPE
    && m_class_is_valuetype klass && m_class_is_enumtype klass
    && klass.d.enum_basetype == base && mono_class_value_size klass == kind_size base

/-- The signed integer kinds, of fixed and of native width. -/
def signed_kinds : List MonoTypeEnum :=
  [MONO_TYPE_I1, MONO_TYPE_I2, MONO_TYPE_I4, MONO_TYPE_I8, MONO_TYPE_I]

/-- The unsigned integer kinds, of fixed and of native width, and `Char`. -/
def unsigned_kinds : List MonoTypeEnum :=
  [MONO_TYPE_U1, MONO_TYPE_U2, MONO_TYPE_U4, MONO_TYPE_U8, MONO_TYPE_CHAR, MONO_TYPE_U]

/-- The floating point kinds. -/
def real_kinds : List MonoTypeEnum := [MONO_TYPE_R4, MONO_TYPE_R8]

/-- A primitive value type of kind `t`: a value type that is not nullable, tagged `t`,
whose values have the size of `t`. -/
def is_primitive_of (klass : MonoClass) (t : MonoTypeEnum) : Bool :=
  !mono_class_is_nullable klass && klass.d.byval_type == t && m_class_is_valuetype klass
    && mono_class_value_size klass == kind_size t

def int16_class : MonoClass := primitive_class 10 MONO_TYPE_I2 2

def uint16_class : MonoClass := primitive_class 11 MONO_TYPE_U2 2

def int64_class : MonoClass := primitive_class 12 MONO_TYPE_I8 8

def single_class : MonoClass := primitive_class 13 MONO_TYPE_R4 4

def double_class : MonoClass := primitive_class 14 MONO_TYPE_R8 8

def uint32_class : MonoClass := primitive_class 15 MONO_TYPE_U4 4

/-- A boxed `short`, `-5`. -/
def boxed_int16 : MonoObject :=
  { addr := 0x7000, klass := int16_class, payload := [0xfb, 0xff] }

/-- A boxed `ushort`, `5`. -/
def boxed_uint16 : MonoObject :=
  { addr := 0x7100, klass := uint16_class, payload := [5, 0] }

/-- A boxed `long`, `0x0807060504030201`. -/
def boxed_int64 : MonoObject :=
  { addr := 0x7200, klass := int64_class, payload := [1, 2, 3, 4, 5, 6, 7, 8] }

/-- A boxed `float`. -/
def boxed_single : MonoObject :=
  { addr := 0x7300, klass := single_class, payload := [0, 0, 0x80, 0x3f] }

/-- A boxed `double`. -/
def boxed_double : MonoObject :=
  { addr := 0x7400, klass := double_class, payload := [0, 0, 0, 0, 0, 0, 0xf0, 0x3f] }

/-- A `short[2]` holding `1` and `2`. -/
def int16_array : MonoArray :=
  { element_class := int16_class, element_size := 2, max_length := 2, vector := [1, 0, 2, 0] }

/-- A `uint[2]` holding `1` and `2`. -/
def uint32_array : MonoArray :=
  { element_class := uint32_class, element_size := 4, max_length := 2,
    vector := [1, 0, 0, 0, 2, 0, 0, 0] }

/-- A `float[2]`. -/
def single_array : MonoArray :=
  { element_class := single_class, element_size := 4, max_length := 2,
    vector := [0, 0, 0x80, 0x3f, 0, 0, 0, 0x40] }

/-- A `double[1]`. -/
def double_array : MonoArray :=
  { element_class := double_class, element_size := 8, max_length := 1,
    vector := [0, 0, 0, 0, 0, 0, 0, 0x40] }

/-! ## The icall registry and the resolver

A C string is the list of its bytes before the terminating NUL. -/

/-- The bytes of a string literal (ASCII). -/
def c_str (s : String) : List Nat := s.toList.map Char.toNat

/-- The C function `strlen`, on the bytes of a string. -/
def strlen (s : List Nat) : Nat := s.length

/-- The C string that starts at offset `off` of a buffer: the bytes up to the first
NUL. -/
def c_string_at (buf : List Nat) (off : Nat) : List Nat :=
  (buf.drop off).takeWhile (fun b => b != 0)

/-- A native code address: null, the address of `no_icall_table`, of
`ves_icall_System_String_ctor_RedirectToCreateString`, or of another function. -/
inductive IcallPointer where
  | NULL
  | no_icall_table
  | ves_icall_System_String_ctor_RedirectToCreateString
  | code (addr : Nat)
deriving DecidableEq, Repr

/-- The struct `MonoIcallHashTableValue`. -/
structure MonoIcallHashTableValue where
  method : IcallPointer
  flags : Nat
deriving DecidableEq, Repr

/-- Modelled from the spec: the hash table `icall_hash` is glib's `GHashTable` over
strings, outside the sources at hand. It is a mapping from key to entry (section 3):
the entries, each key once. -/
abbrev GHashTable := List (List Nat × MonoIcallHashTableValue)

/-- Modelled from the spec: `g_hash_table_lookup`, the entry under `key` if there is
one. -/
def g_hash_table_lookup : GHashTable → List Nat → Option MonoIcallHashTableValue
  | [], _ => none
  | (k, v) :: t, key => if k = key then some v else g_hash_table_lookup t key

/-- Modelled from the spec: `g_hash_table_insert`, which inserts the entry or overwrites
the one under the same key (section 4.3, last write wins). -/
def g_hash_table_insert (t : GHashTable) (key : List Nat) (value : MonoIcallHashTableValue) :
    GHashTable :=
  (key, value) :: t.filter (fun e => e.1 != key)

/-- The name space and the name of a class. -/
structure MonoClassName where
  name_space : List Nat
  name : List Nat
deriving DecidableEq, Repr

/-- The fields of `method->klass` that the resolver reads: its name space and name, the
class it is nested in, and whether it is `mono_defaults.string_class`. -/
structure MonoMethodClass where
  name_space : List Nat
  name : List Nat
  nested_in : Option MonoClassName
  is_string_class : Bool
deriving DecidableEq, Repr

/-- The fields of a `MonoMethod` that the resolver reads; `signature_desc` is the string
`mono_signature_get_desc (mono_method_signature_internal (method), TRUE)`. -/
structure MonoMethodDef where
  klass : MonoMethodClass
  name : List Nat
  signature_desc : List Nat
deriving DecidableEq, Repr

/-- A method, or an inflated method with its declaring method. -/
inductive MonoMethod where
  | method (m : MonoMethodDef)
  | inflated (declaring : MonoMethodDef)
deriving DecidableEq, Repr

/-- The callbacks `MonoIcallTableCallbacks` of the secondary table: `lookup` receives the
method, the class name, the method name, the bytes at `sigstart`, and answers an address
and flags. -/
structure MonoIcallTableCallbacks where
  lookup : MonoMethodDef → List Nat → List Nat → List Nat → IcallPointer × Nat

/-- The globals `icall_hash` and `icall_table`. -/
structure IcallState where
  icall_hash : GHashTable
  icall_table : Option MonoIcallTableCallbacks

/-- What a call does besides computing its result: taking and releasing `icall_mutex`,
writing `len` bytes of the buffer `mname` from `index` on, reading or writing the hash
table under a key, calling into the secondary table, printing the warning. -/
inductive IcallEvent where
  | lock
  | unlock
  | write (index len : Nat)
  | probe (key : List Nat)
  | insert (key : List Nat)
  | table_lookup
  | warning
deriving DecidableEq, Repr

/-- The function `add_internal_call_with_flags`, for a name that is not null: the state
after the call and what the call did. -/
def add_internal_call_with_flags (st : IcallState) (name : List Nat) (method : IcallPointer)
    (flags : Nat) : IcallState × List IcallEvent :=
  let key := name
  let value : MonoIcallHashTableValue := { method := method, flags := flags }
  ({ st with icall_hash := g_hash_table_insert st.icall_hash key value },
    [IcallEvent.lock, IcallEvent.insert key, IcallEvent.unlock])

/-- The buffer `mname` of the resolver and what the call did so far. -/
structure Frame where
  mname : List Nat
  events : List IcallEvent
deriving DecidableEq, Repr

/-- A write of `bytes` into the buffer from `index` on. -/
def Frame.store (f : Frame) (index : Nat) (bytes : List Nat) : Frame :=
  { mname := mem_write f.mname index bytes,
    events := f.events ++ [IcallEvent.write index bytes.length] }

def Frame.log (f : Frame) (e : IcallEvent) : Frame :=
  { f with events := f.events ++ [e] }

/-- The function `concat_class_name`, writing at offset `buf` of the buffer: the frame
after the call and the number of chars written. -/
def concat_class_name (f : Frame) (buf bufsize : Nat) (name_space name : List Nat) :
    Frame × Nat :=
  let nspacelen := strlen name_space
  let cnamelen := strlen name
  if nspacelen + cnamelen + 2 > bufsize then (f, 0)
  else
    let f1 := if nspacelen != 0 then (f.store buf name_space).store (buf + nspacelen) [46] else f
    let nspacelen := if nspacelen != 0 then nspacelen + 1 else nspacelen
    let f2 := f1.store (buf + nspacelen) name
    let f3 := f2.store (buf + nspacelen + cnamelen) [0]
    (f3, nspacelen + cnamelen)

/-- What `mono_lookup_internal_call_full_with_flags` returns and leaves: the address,
the word at `flags` (if `flags` is not null), what the call did, and the buffer. -/
structure LookupResult where
  res : IcallPointer
  flags : Option Nat
  events : List IcallEvent
  mname : List Nat
deriving DecidableEq, Repr

/-- The label `exit` of the resolver: the mutex is released if it is held. -/
def icall_exit (f : Frame) (locked : Bool) (res : IcallPointer) (flags : Option Nat) :
    LookupResult :=
  { res := res, flags := flags,
    events := if locked then f.events ++ [IcallEvent.unlock] else f.events,
    mname := f.mname }

/-- The size of the buffer `mname`. -/
abbrev MNAME_SIZE : Nat := 2048

/-- The first part of the resolver: the name of the declaring type written into `mname`,
with the frame after it and `typelen`, 0 when the name does not fit. -/
def icall_type_name_into (f : Frame) (klass : MonoMethodClass) : Frame × Nat :=
  match klass.nested_in with
  | some outer =>
    let r1 := concat_class_name f 0 (MNAME_SIZE - 2) outer.name_space outer.name
    let pos := r1.2
    if pos == 0 then (r1.1, 0)
    else
      let f2 := (r1.1.store pos [47]).store (pos + 1) [0]
      let pos := pos + 1
      let r3 := concat_class_name f2 pos (MNAME_SIZE - pos - 1) klass.name_space klass.name
      let typelen := r3.2
      if typelen == 0 then (r3.1, 0) else (r3.1, typelen + pos)
  | none => concat_class_name f 0 MNAME_SIZE klass.name_space klass.name

/-- The second part of the resolver: two colons, the method name and a terminator
written after the type name; `sigstart` is then `typelen + 2 + mlen`. -/
def icall_method_name_into (f : Frame) (typelen : Nat) (name : List Nat) : Frame :=
  let f := (f.store typelen [58]).store (typelen + 1) [58]
  let mlen := strlen name
  let f := f.store (typelen + 2) name
  let sigstart := typelen + 2 + mlen
  f.store sigstart [0]

/-- The third part of the resolver: the signature description in parentheses and a
terminator written at `sigstart`. -/
def icall_signature_into (f : Frame) (sigstart : Nat) (tmpsig : List Nat) : Frame :=
  let siglen := strlen tmpsig
  let f := f.store sigstart [40]
  let f := f.store (sigstart + 1) tmpsig
  let f := f.store (sigstart + siglen + 1) [41]
  f.store (sigstart + siglen + 2) [0]

/-- The last part of the resolver, from `mono_icall_lock ()` on: the probe of the hash
table under the key in `mname`, the probe without the signature, the secondary table. -/
def icall_probe (st : IcallState) (f : Frame) (method : MonoMethodDef) (classname : List Nat)
    (sigstart mlen siglen : Nat) (warn_on_missing : Bool) (flags : Option Nat) :
    LookupResult :=
  let f := f.log IcallEvent.lock
  let f := f.log (IcallEvent.probe (c_string_at f.mname 0))
  match g_hash_table_lookup st.icall_hash (c_string_at f.mname 0) with
  | some value => icall_exit f true value.method (flags.map (fun _ => value.flags))
  | none =>
    -- try without signature
    let f := f.store sigstart [0]
    let f := f.log (IcallEvent.probe (c_string_at f.mname 0))
    match g_hash_table_lookup st.icall_hash (c_string_at f.mname 0) with
    | some value => icall_exit f true value.method (flags.map (fun _ => value.flags))
    | none =>
      match st.icall_table with
      | none =>
        -- Fail only when the result is actually used
        icall_exit f true IcallPointer.no_icall_table flags
      | some table =>
        let found := table.lookup method classname (c_string_at f.mname (sigstart - mlen))
          (mem_read f.mname sigstart (siglen + 3))
        let f := f.log IcallEvent.table_lookup
        let res := found.1
        let flags :=
          if res != IcallPointer.NULL then flags.map (fun w => w ||| found.2) else flags
        let f := f.log IcallEvent.unlock
        if res != IcallPointer.NULL then icall_exit f false res flags
        else
          let f := if warn_on_missing then f.log IcallEvent.warning else f
          icall_exit f false IcallPointer.NULL flags

/-- The function `mono_lookup_internal_call_full_with_flags`. The argument `mname` is the
buffer as the function finds it (it is not initialised); `flags` is `none` for a null
pointer and the word it points to otherwise. -/
def mono_lookup_internal_call_full_with_flags (st : IcallState) (mname : List Nat)
    (method : MonoMethod) (warn_on_missing : Bool) (flags : Option Nat) : LookupResult :=
  let method : MonoMethodDef :=
    match method with
    | MonoMethod.method m => m
    | MonoMethod.inflated declaring => declaring
  let r := icall_type_name_into { mname := mname, events := [] } method.klass
  let typelen := r.2
  if typelen == 0 then icall_exit r.1 false IcallPointer.NULL flags
  else
    let classname := c_string_at r.1.mname 0
    let mlen := strlen method.name
    let f := icall_method_name_into r.1 typelen method.name
    let sigstart := typelen + 2 + mlen
    let tmpsig := method.signature_desc
    let siglen := strlen tmpsig
    if typelen + mlen + siglen + 6 > MNAME_SIZE then icall_exit f false IcallPointer.NULL flags
    else
      let f := icall_signature_into f sigstart tmpsig
      -- mono_marshal_get_native_wrapper () depends on this
      if method.klass.is_string_class && method.name == c_str ".ctor" then
        icall_exit f false IcallPointer.ves_icall_System_String_ctor_RedirectToCreateString flags
      else
        icall_probe st f method classname sigstart mlen siglen warn_on_missing flags

/-- The events of a call other than the writes into its buffer. -/
def control_events (events : List IcallEvent) : List IcallEvent :=
  events.filter (fun e => match e with
    | IcallEvent.write _ _ => false
    | _ => true)

/-! ### The keys of a method, as the specification words them -/

/-- The name of a class: its name space, a dot and its name, the name alone when the
name space is empty. -/
def class_display_name (name_space name : List Nat) : List Nat :=
  if name_space = [] then name else name_space ++ [46] ++ name

/-- The name of the declaring type of a method: for a nested type, the name of the
enclosing class, a slash and the name of the type. -/
def icall_type_name (klass : MonoMethodClass) : List Nat :=
  match klass.nested_in with
  | some outer =>
    class_display_name outer.name_space outer.name ++ [47]
      ++ class_display_name klass.name_space klass.name
  | none => class_display_name klass.name_space klass.name

/-- The key without a signature: the type name, two colons and the method name. -/
def icall_key_unqualified (m : MonoMethodDef) : List Nat :=
  icall_type_name m.klass ++ [58, 58] ++ m.name

/-- The key with the signature: the key without it, then the signature description in
parentheses. -/
def icall_key_qualified (m : MonoMethodDef) : List Nat :=
  icall_key_unqualified m ++ [40] ++ m.signature_desc ++ [41]

/-- The names of a method are C strings, no byte of which is NUL, and the classes
involved have a name. -/
def icall_names_wf (m : MonoMethodDef) : Bool :=
  m.klass.name_space.all (fun b => b != 0) && m.klass.name.all (fun b => b != 0)
    && m.name.all (fun b => b != 0) && m.signature_desc.all (fun b => b != 0)
    && m.klass.name != []
    && (match m.klass.nested_in with
        | some outer =>
          outer.name_space.all (fun b => b != 0) && outer.name.all (fun b => b != 0)
            && outer.name != []
        | none => true)

/-- The resolver's test that the key fits its buffer. -/
def icall_key_fits (m : MonoMethodDef) : Bool :=
  decide ((icall_type_name m.klass).length + m.name.length + m.signature_desc.length + 6
    ≤ MNAME_SIZE)

/-- The test for the constructor of `String`. -/
def is_string_ctor (m : MonoMethodDef) : Bool :=
  m.klass.is_string_class && m.name == c_str ".ctor"

/-- The method the resolver works on: the declaring method of an inflated method, the
method itself otherwise. -/
def mono_method_declaring (method : MonoMethod) : MonoMethodDef :=
  match method with
  | MonoMethod.method m => m
  | MonoMethod.inflated declaring => declaring

/-- The registry with nothing registered and no secondary table installed. -/
def empty_icall_state : IcallState := { icall_hash := [], icall_table := none }

/-- A buffer as the resolver may find it on its stack: 2048 bytes of no meaning. -/
def stack_garbage : List Nat := List.replicate MNAME_SIZE 0xcc

/-- The class `System.Math`. -/
def math_class : MonoMethodClass :=
  { name_space := c_str "System", name := c_str "Math", nested_in := none,
    is_string_class := false }

/-- The method `System.Math.Sqrt (double)`. -/
def sqrt_method : MonoMethodDef :=
  { klass := math_class, name := c_str "Sqrt", signature_desc := c_str "double" }

/-- The class `N.T`. -/
def n_t_class : MonoMethodClass :=
  { name_space := c_str "N", name := c_str "T", nested_in := none, is_string_class := false }

/-- The method `N.T.M (int)`. -/
def m_int_method : MonoMethodDef :=
  { klass := n_t_class, name := c_str "M", signature_desc := c_str "int" }

/-- The class `System.String`, which is `mono_defaults.string_class`. -/
def string_method_class : MonoMethodClass :=
  { name_space := c_str "System", name := c_str "String", nested_in := none,
    is_string_class := true }

/-- The constructor `System.String..ctor (char[])`. -/
def string_ctor_method : MonoMethodDef :=
  { klass := string_method_class, name := c_str ".ctor", signature_desc := c_str "char[]" }

/-- The constructor `System.String..ctor (char,int)`. -/
def string_ctor_char_int_method : MonoMethodDef :=
  { klass := string_method_class, name := c_str ".ctor", signature_desc := c_str "char,int" }

/-- The registry after `N.T::M(int)` alone was registered. -/
def m_int_registered : IcallState :=
  (add_internal_call_with_flags empty_icall_state (c_str "N.T::M(int)")
    (IcallPointer.code 0x1111) 2).1

/-- The registry after `N.T::M(int)` was registered, then `N.T::M` twice. -/
def m_overloads_registered : IcallState :=
  (add_internal_call_with_flags
    (add_internal_call_with_flags
      (add_internal_call_with_flags empty_icall_state (c_str "N.T::M(int)")
        (IcallPointer.code 0x3333) 2).1
      (c_str "N.T::M") (IcallPointer.code 0x1111) 2).1
    (c_str "N.T::M") (IcallPointer.code 0x2222) 8).1

/-- The registry after `System.Math::Sqrt` alone was registered. -/
def sqrt_unqualified_registered : IcallState :=
  (add_internal_call_with_flags empty_icall_state (c_str "System.Math::Sqrt")
    (IcallPointer.code 0x5a17) 2).1

/-- The registry after `System.String::.ctor(char[])` was registered. -/
def string_ctor_registered : IcallState :=
  (add_internal_call_with_flags empty_icall_state (c_str "System.String::.ctor(char[])")
    (IcallPointer.code 0x9999) 2).1

/-- The registry after `System.String::.ctor` was registered. -/
def string_ctor_unqualified_registered : IcallState :=
  (add_internal_call_with_flags empty_icall_state (c_str "System.String::.ctor")
    (IcallPointer.code 0x8888) 2).1

/-- The registry after `System.String::.ctor` was registered twice. -/
def string_ctor_twice_registered : IcallState :=
  (add_internal_call_with_flags
    (add_internal_call_with_flags empty_icall_state (c_str "System.String::.ctor")
      (IcallPointer.code 0x7777) 2).1
    (c_str "System.String::.ctor") (IcallPointer.code 0x6666) 8).1

/-- A method of `N.T` whose name has 2040 chars: its key does not fit the buffer. -/
def long_method : MonoMethodDef :=
  { klass := n_t_class, name := List.replicate 2040 97, signature_desc := c_str "int" }

/-- The registry after the key of `long_method` was registered. -/
def long_registered : IcallState :=
  (add_internal_call_with_flags empty_icall_state (icall_key_qualified long_method)
    (IcallPointer.code 0x5555) 2).1

/-- The registry after the key of `long_method` without signature was registered. -/
def long_unqualified_registered : IcallState :=
  (add_internal_call_with_flags empty_icall_state (icall_key_unqualified long_method)
    (IcallPointer.code 0x4444) 2).1

/-! ## Registration entry points and the lookup with out arguments -/

/-- The constants of the enum `MonoInternalCallFlags`, which is declared outside the
sources at hand: they are parameters of the model. -/
structure MonoInternalCallFlags where
  MONO_ICALL_FLAGS_NONE : Nat
  MONO_ICALL_FLAGS_FOREIGN : Nat
  MONO_ICALL_FLAGS_USES_HANDLES : Nat
  MONO_ICALL_FLAGS_COOPERATIVE : Nat
  MONO_ICALL_FLAGS_NO_WRAPPER : Nat
deriving DecidableEq, Repr

/-- The function `mono_install_icall_table_callbacks`. -/
def mono_install_icall_table_callbacks (st : IcallState) (cb : MonoIcallTableCallbacks) :
    IcallState :=
  { st with icall_table := some cb }

/-- The function `mono_dangerous_add_internal_call_coop`. -/
def mono_dangerous_add_internal_call_coop (K : MonoInternalCallFlags) (st : IcallState)
    (name : List Nat) (method : IcallPointer) : IcallState × List IcallEvent :=
  add_internal_call_with_flags st name method K.MONO_ICALL_FLAGS_COOPERATIVE

/-- The function `mono_dangerous_add_internal_call_no_wrapper`. -/
def mono_dangerous_add_internal_call_no_wrapper (K : MonoInternalCallFlags) (st : IcallState)
    (name : List Nat) (method : IcallPointer) : IcallState × List IcallEvent :=
  add_internal_call_with_flags st name method K.MONO_ICALL_FLAGS_NO_WRAPPER

/-- The function `mono_add_internal_call`. -/
def mono_add_internal_call (K : MonoInternalCallFlags) (st : IcallState)
    (name : List Nat) (method : IcallPointer) : IcallState × List IcallEvent :=
  add_internal_call_with_flags st name method K.MONO_ICALL_FLAGS_FOREIGN

/-- The function `mono_dangerous_add_raw_internal_call`. -/
def mono_dangerous_add_raw_internal_call (K : MonoInternalCallFlags) (st : IcallState)
    (name : List Nat) (method : IcallPointer) : IcallState × List IcallEvent :=
  add_internal_call_with_flags st name method K.MONO_ICALL_FLAGS_COOPERATIVE

/-- The function `mono_add_internal_call_with_flags`. -/
def mono_add_internal_call_with_flags (K : MonoInternalCallFlags) (st : IcallState)
    (name : List Nat) (method : IcallPointer) (cooperative : Bool) :
    IcallState × List IcallEvent :=
  add_internal_call_with_flags st name method
    (if cooperative then K.MONO_ICALL_FLAGS_COOPERATIVE else K.MONO_ICALL_FLAGS_FOREIGN)

/-- The function `mono_add_internal_call_internal`. -/
def mono_add_internal_call_internal (K : MonoInternalCallFlags) (st : IcallState)
    (name : List Nat) (method : IcallPointer) : IcallState × List IcallEvent :=
  add_internal_call_with_flags st name method K.MONO_ICALL_FLAGS_COOPERATIVE

/-- The function `mono_is_missing_icall_addr`. -/
def mono_is_missing_icall_addr (addr : IcallPointer) : Bool :=
  addr == IcallPointer.NULL || addr == IcallPointer.no_icall_table

/-- What `mono_lookup_internal_call_full` returns and leaves: the address, the words at
`uses_handles` and at `foreign` (for the pointers that are not null), and what the call
did. -/
structure FullLookupResult where
  addr : IcallPointer
  uses_handles : Option Bool
  foreign : Option Bool
  events : List IcallEvent
deriving DecidableEq, Repr

/-- The function `mono_lookup_internal_call_full`. The arguments `uses_handles` and
`foreign` are `none` for a null pointer and the word pointed to otherwise. -/
def mono_lookup_internal_call_full (K : MonoInternalCallFlags) (st : IcallState)
    (mname : List Nat) (method : MonoMethod) (warn_on_missing : Bool)
    (uses_handles foreign : Option Bool) : FullLookupResult :=
  let uses_handles := uses_handles.map (fun _ => false)
  let foreign := foreign.map (fun _ => false)
  let flags := K.MONO_ICALL_FLAGS_NONE
  let r := mono_lookup_internal_call_full_with_flags st mname method warn_on_missing (some flags)
  let flags := match r.flags with
    | some w => w
    | none => flags
  let uses_handles :=
    if (flags &&& K.MONO_ICALL_FLAGS_USES_HANDLES) != 0 then uses_handles.map (fun _ => true)
    else uses_handles
  let foreign :=
    if (flags &&& K.MONO_ICALL_FLAGS_FOREIGN) != 0 then foreign.map (fun _ => true)
    else foreign
  { addr := r.res, uses_handles := uses_handles, foreign := foreign, events := r.events }

/-! ### Vocabulary of the statements on the resolver -/

/-- Whether a set of flags contains the flag `flag`: `flags & flag` is not zero. -/
def flags_contain (flags flag : Nat) : Bool := (flags &&& flag) != 0

/-- The state of `icall_mutex` after an event, from whether it was held before; `none`
when the event breaks the discipline: taking the mutex while it is held, releasing it
while it is not, reading or writing the hash table or calling into the secondary table
without holding it. -/
def lock_step (held : Bool) (e : IcallEvent) : Option Bool :=
  match e with
  | IcallEvent.lock => if held then none else some true
  | IcallEvent.unlock => if held then some false else none
  | IcallEvent.probe _ => if held then some true else none
  | IcallEvent.insert _ => if held then some true else none
  | IcallEvent.table_lookup => if held then some true else none
  | IcallEvent.write _ _ => some held
  | IcallEvent.warning => some held

/-- The state of `icall_mutex` after a run of events, `none` when one of them breaks the
discipline. -/
def lock_run (held : Bool) : List IcallEvent → Option Bool
  | [] => some held
  | e :: es =>
    match lock_step held e with
    | none => none
    | some h => lock_run h es

/-- The keys under which a call probed the hash table, in order. -/
def probe_keys : List IcallEvent → List (List Nat)
  | [] => []
  | IcallEvent.probe key :: es => key :: probe_keys es
  | _ :: es => probe_keys es

/-- Whether every write of a call stays inside the buffer `mname`: a write of `len` bytes
from `index` on touches the indices `index` to `index + len - 1`. -/
def writes_in_bounds (events : List IcallEvent) : Bool :=
  events.all (fun e => match e with
    | IcallEvent.write index len => len == 0 || decide (index + len ≤ MNAME_SIZE)
    | _ => true)

/-- A choice of the constants of `MonoInternalCallFlags`: distinct bits. -/
def icall_flag_bits : MonoInternalCallFlags :=
  { MONO_ICALL_FLAGS_NONE := 0, MONO_ICALL_FLAGS_FOREIGN := 2,
    MONO_ICALL_FLAGS_USES_HANDLES := 4, MONO_ICALL_FLAGS_COOPERATIVE := 8,
    MONO_ICALL_FLAGS_NO_WRAPPER := 16 }

/-- A secondary table that has no entry. -/
def empty_icall_table : MonoIcallTableCallbacks :=
  { lookup := fun _ _ _ _ => (IcallPointer.NULL, 0) }

/-- The registry with nothing registered and a secondary table without entry installed. -/
def table_installed_state : IcallState :=
  mono_install_icall_table_callbacks empty_icall_state empty_icall_table

/-- The class `MyApp.Services.ScriptService` of the documentation of
`mono_add_internal_call`. -/
def script_service_class : MonoMethodClass :=
  { name_space := c_str "MyApp.Services", name := c_str "ScriptService", nested_in := none,
    is_string_class := false }

/-- The method `MyApp.Services.ScriptService.Accelerate ()`. -/
def accelerate_method : MonoMethodDef :=
  { klass := script_service_class, name := c_str "Accelerate", signature_desc := c_str "" }

/-- The method `MyApp.Services.ScriptService.Slowdown (int,bool)`. -/
def slowdown_method : MonoMethodDef :=
  { klass := script_service_class, name := c_str "Slowdown",
    signature_desc := c_str "int,bool" }

/-- The registry after the two registrations that the documentation of
`mono_add_internal_call` gives as examples. -/
def script_service_registered : IcallState :=
  (mono_add_internal_call icall_flag_bits
    (mono_add_internal_call icall_flag_bits empty_icall_state
      (c_str "MyApp.Services.ScriptService:Accelerate") (IcallPointer.code 0xacce)).1
    (c_str "MyApp.Services.ScriptService:Slowdown(int,bool)") (IcallPointer.code 0x510d)).1

/-- The registry after the same two functions were registered under the keys that the
resolver builds, with two colons. -/
def script_service_registered_two_colons : IcallState :=
  (mono_add_internal_call icall_flag_bits
    (mono_add_internal_call icall_flag_bits empty_icall_state
      (c_str "MyApp.Services.ScriptService::Accelerate") (IcallPointer.code 0xacce)).1
    (c_str "MyApp.Services.ScriptService::Slowdown(int,bool)") (IcallPointer.code 0x510d)).1

/-- A method of `N.T` whose name has 3000 chars. -/
def huge_method : MonoMethodDef :=
  { klass := n_t_class, name := List.replicate 3000 97, signature_desc := c_str "int" }

/-- A class without name space whose name has 2046 chars: the longest type name that
`concat_class_name` accepts for the buffer. -/
def wide_class : MonoMethodClass :=
  { name_space := [], name := List.replicate 2046 97, nested_in := none,
    is_string_class := false }

/-- The method `M (int)` of `wide_class`. -/
def wide_class_method : MonoMethodDef :=
  { klass := wide_class, name := c_str "M", signature_desc := c_str "int" }

/-- A nested class `N.Outer/Inner`. -/
def nested_class : MonoMethodClass :=
  { name_space := [], name := c_str "Inner",
    nested_in := some { name_space := c_str "N", name := c_str "Outer" },
    is_string_class := false }

/-- The method `N.Outer/Inner.M (int)`. -/
def nested_method : MonoMethodDef :=
  { klass := nested_class, name := c_str "M", signature_desc := c_str "int" }

/-! ## Vocabulary for the widening table -/

/-- The integer kinds of the widening table: `Char` and the fixed width integers. -/
def table_integer_kinds : List MonoTypeEnum :=
  [MONO_TYPE_CHAR, MONO_TYPE_I1, MONO_TYPE_U1, MONO_TYPE_I2, MONO_TYPE_U2, MONO_TYPE_I4,
   MONO_TYPE_U4, MONO_TYPE_I8, MONO_TYPE_U8]

/-- The least integer a value of an integer kind holds. -/
def kind_min (t : MonoTypeEnum) : Int :=
  if is_signed_kind t then -(2 ^ (8 * kind_size t - 1)) else 0

/-- The greatest integer a value of an integer kind holds. -/
def kind_max (t : MonoTypeEnum) : Int :=
  if is_signed_kind t then 2 ^ (8 * kind_size t - 1) - 1 else 2 ^ (8 * kind_size t) - 1

/-- The kinds of the rows of `primitive_conversions` that widen: Boolean to R8. -/
def table_kinds : List MonoTypeEnum :=
  [MONO_TYPE_BOOLEAN, MONO_TYPE_CHAR, MONO_TYPE_I1, MONO_TYPE_U1, MONO_TYPE_I2, MONO_TYPE_U2,
   MONO_TYPE_I4, MONO_TYPE_U4, MONO_TYPE_I8, MONO_TYPE_U8, MONO_TYPE_R4, MONO_TYPE_R8]

/-- The comment `W = ...` on each row of `primitive_conversions`; the row of Boolean has
no such comment, its mask being the bit of Boolean alone. -/
def primitive_conversions_comment (src : MonoTypeEnum) : List MonoTypeEnum :=
  if src == MONO_TYPE_BOOLEAN then [MONO_TYPE_BOOLEAN]
  else if src == MONO_TYPE_CHAR then
    [MONO_TYPE_U2, MONO_TYPE_CHAR, MONO_TYPE_I4, MONO_TYPE_U4, MONO_TYPE_I8, MONO_TYPE_U8,
     MONO_TYPE_R4, MONO_TYPE_R8]
  else if src == MONO_TYPE_I1 then
    [MONO_TYPE_I1, MONO_TYPE_I2, MONO_TYPE_I4, MONO_TYPE_I8, MONO_TYPE_R4, MONO_TYPE_R8]
  else if src == MONO_TYPE_U1 then
    [MONO_TYPE_CHAR, MONO_TYPE_U1, MONO_TYPE_I2, MONO_TYPE_U2, MONO_TYPE_I4, MONO_TYPE_U4,
     MONO_TYPE_I8, MONO_TYPE_U8, MONO_TYPE_R4, MONO_TYPE_R8]
  else if src == MONO_TYPE_I2 then
    [MONO_TYPE_I2, MONO_TYPE_I4, MONO_TYPE_I8, MONO_TYPE_R4, MONO_TYPE_R8]
  else if src == MONO_TYPE_U2 then
    [MONO_TYPE_U2, MONO_TYPE_CHAR, MONO_TYPE_I4, MONO_TYPE_U4, MONO_TYPE_I8, MONO_TYPE_U8,
     MONO_TYPE_R4, MONO_TYPE_R8]
  else if src == MONO_TYPE_I4 then [MONO_TYPE_I4, MONO_TYPE_I8, MONO_TYPE_R4, MONO_TYPE_R8]
  else if src == MONO_TYPE_U4 then [MONO_TYPE_U4, MONO_TYPE_I8, MONO_TYPE_R4, MONO_TYPE_R8]
  else if src == MONO_TYPE_I8 then [MONO_TYPE_I8, MONO_TYPE_R4, MONO_TYPE_R8]
  else if src == MONO_TYPE_U8 then [MONO_TYPE_U8, MONO_TYPE_R4, MONO_TYPE_R8]
  else if src == MONO_TYPE_R4 then [MONO_TYPE_R4, MONO_TYPE_R8]
  else if src == MONO_TYPE_R8 then [MONO_TYPE_R8]
  else []

/-- The destination kinds, Boolean to R8, that `can_primitive_widen` accepts for `src`. -/
def widening_targets (src : MonoTypeEnum) : List MonoTypeEnum :=
  table_kinds.filter (fun dst => can_primitive_widen src dst)

theorem mem_primitive_kinds (t : Nat) (h : mono_type_is_primitive t = true) :
    t ∈ primitive_kinds := by
  simp only [mono_type_is_primitive, Bool.or_eq_true, Bool.and_eq_true, decide_eq_true_eq,
    beq_iff_eq, MONO_TYPE_BOOLEAN, MONO_TYPE_R8, MONO_TYPE_I, MONO_TYPE_U] at h
  have h' : (2 ≤ t ∧ t ≤ 13 ∨ t = 24) ∨ t = 25 := h
  have : t = 2 ∨ t = 3 ∨ t = 4 ∨ t = 5 ∨ t = 6 ∨ t = 7 ∨ t = 8 ∨ t = 9 ∨ t = 10 ∨ t = 11
      ∨ t = 12 ∨ t = 13 ∨ t = 24 ∨ t = 25 := by omega
  simp only [primitive_kinds, List.mem_cons, List.mem_singleton]
  simpa using this

/-! ## Lemmas on memory -/

theorem le_encode_length (n v : Nat) : (le_encode n v).length = n := by
  induction n generalizing v with
  | zero => rfl
  | succ n ih => simp [le_encode, ih]

theorem le_encode_le_decode (bs : List Nat) (h : ∀ b ∈ bs, b < 256) :
    le_encode bs.length (le_decode bs) = bs := by
  induction bs with
  | nil => rfl
  | cons b bs ih =>
    have hb : b < 256 := h b (List.mem_cons_self b bs)
    have hbs : ∀ c ∈ bs, c < 256 := fun c hc => h c (List.mem_cons_of_mem b hc)
    have h1 : (b + 256 * le_decode bs) % 256 = b := by omega
    have h2 : (b + 256 * le_decode bs) / 256 = le_decode bs := by omega
    simp [le_encode, le_decode, h1, h2, ih hbs]

theorem le_decode_le_encode (n v : Nat) : le_decode (le_encode n v) = v % 2 ^ (8 * n) := by
  induction n generalizing v with
  | zero => simp [le_encode, le_decode, Nat.mod_one]
  | succ n ih =>
    simp only [le_encode, le_decode, ih]
    have h : 2 ^ (8 * (n + 1)) = 256 * 2 ^ (8 * n) := by
      rw [Nat.mul_succ, Nat.pow_add]; norm_num [Nat.mul_comm]
    rw [h, Nat.mod_mul]

theorem le_encode_mod (n v : Nat) : le_encode n (v % 2 ^ (8 * n)) = le_encode n v := by
  induction n generalizing v with
  | zero => rfl
  | succ n ih =>
    have h : 2 ^ (8 * (n + 1)) = 256 * 2 ^ (8 * n) := by
      rw [Nat.mul_succ, Nat.pow_add]; norm_num [Nat.mul_comm]
    simp only [le_encode]
    rw [h, Nat.mod_mul_right_mod, Nat.mod_mul_right_div_self, ih]

theorem le_decode_lt (bs : List Nat) (h : ∀ b ∈ bs, b < 256) :
    le_decode bs < 2 ^ (8 * bs.length) := by
  induction bs with
  | nil => simp [le_decode]
  | cons b bs ih =>
    have hb : b < 256 := h b (List.mem_cons_self b bs)
    have hbs := ih (fun c hc => h c (List.mem_cons_of_mem b hc))
    have h2 : 2 ^ (8 * (bs.length + 1)) = 256 * 2 ^ (8 * bs.length) := by
      rw [Nat.mul_succ, Nat.pow_add]; norm_num [Nat.mul_comm]
    simp only [le_decode, List.length_cons, h2]
    omega

theorem sign_extend_mod (n u : Nat) (hu : u < 2 ^ (8 * n)) :
    ((sign_extend n u) % 2 ^ (8 * n)).toNat = u := by
  unfold sign_extend
  have hpos : (0 : Int) < 2 ^ (8 * n) := by positivity
  have hu' : (u : Int) < 2 ^ (8 * n) := by exact_mod_cast hu
  split
  · rw [Int.emod_eq_of_lt (by omega) hu']; simp
  · rw [Int.sub_emod, Int.emod_self, sub_zero, Int.emod_emod_of_dvd _ (dvd_refl _),
      Int.emod_eq_of_lt (by omega) hu']
    simp

theorem mem_write_length (mem : List Nat) (addr : Nat) (bs : List Nat)
    (h : addr + bs.length ≤ mem.length) : (mem_write mem addr bs).length = mem.length := by
  simp only [mem_write, List.length_append, List.length_take, List.length_drop]
  omega

theorem mem_read_mem_write_same (mem : List Nat) (addr : Nat) (bs : List Nat)
    (h : addr + bs.length ≤ mem.length) :
    mem_read (mem_write mem addr bs) addr bs.length = bs := by
  have h1 : (mem.take addr).length = addr := by simp; omega
  simp only [mem_read, mem_write, List.append_assoc]
  rw [List.drop_append_of_le_length (by omega)]
  rw [List.drop_of_length_le (by omega)]
  simp

theorem mem_read_mem_write_disjoint (mem : List Nat) (addr : Nat) (bs : List Nat) (a n : Nat)
    (h : addr + bs.length ≤ mem.length) (hd : a + n ≤ addr ∨ addr + bs.length ≤ a) :
    mem_read (mem_write mem addr bs) a n = mem_read mem a n := by
  apply List.ext_getElem?
  intro i
  simp only [mem_read, mem_write, List.getElem?_take, List.getElem?_drop, List.getElem?_append,
    List.length_take, List.length_append]
  by_cases hi : i < n
  · simp only [hi, if_true]
    rcases hd with hd | hd
    · have h1 : a + i < min addr mem.length := by omega
      have h2 : a + i < addr := by omega
      have h3 : a + i < min addr mem.length + bs.length := by omega
      simp [h1, h2, h3]
    · have h1 : ¬ (a + i < min addr mem.length + bs.length) := by omega
      simp only [h1, if_false]
      congr 1
      omega
  · simp [hi]

theorem slot_in_bounds (esize pos n : Nat) (h : pos < n) :
    esize * pos + esize ≤ n * esize := by
  have h1 : esize * (pos + 1) ≤ esize * n := Nat.mul_le_mul_left esize h
  rw [Nat.mul_succ] at h1
  rw [Nat.mul_comm n esize]
  exact h1

theorem slot_disjoint (esize p q : Nat) (h : q ≠ p) :
    esize * q + esize ≤ esize * p ∨ esize * p + esize ≤ esize * q := by
  rcases Nat.lt_or_gt_of_ne h with h1 | h1
  · left
    have h2 : esize * (q + 1) ≤ esize * p := Nat.mul_le_mul_left esize h1
    rw [Nat.mul_succ] at h2
    exact h2
  · right
    have h2 : esize * (p + 1) ≤ esize * q := Nat.mul_le_mul_left esize h1
    rw [Nat.mul_succ] at h2
    exact h2

/-- Writing `esize` bytes into the slot `pos` of a block of `n` slots: the slot reads
back what was written, the other slots and the length of the block are unchanged. -/
theorem write_slot (mem : List Nat) (esize n pos : Nat) (bs : List Nat)
    (hlen : mem.length = n * esize) (hpos : pos < n) (hbs : bs.length = esize) :
    mem_read (mem_write mem (esize * pos) bs) (esize * pos) esize = bs
    ∧ (∀ q, q ≠ pos →
        mem_read (mem_write mem (esize * pos) bs) (esize * q) esize
          = mem_read mem (esize * q) esize)
    ∧ (mem_write mem (esize * pos) bs).length = mem.length := by
  have hb : esize * pos + bs.length ≤ mem.length := by
    rw [hbs, hlen]; exact slot_in_bounds esize pos n hpos
  refine ⟨?_, ?_, mem_write_length mem _ bs hb⟩
  · have h1 := mem_read_mem_write_same mem (esize * pos) bs hb
    rw [hbs] at h1
    exact h1
  · intro q hq
    apply mem_read_mem_write_disjoint mem (esize * pos) bs (esize * q) esize hb
    rw [hbs]
    exact slot_disjoint esize pos q hq

theorem check_element_type_self (t : Nat) : check_element_type t t = MonoError.ok := by
  unfold check_element_type
  split
  · simp_all
  · split
    · simp
    · rfl

theorem le_decode_store_pointer (mem : List Nat) (n pos addr : Nat)
    (hlen : mem.length = n * SIZEOF_VOID_P) (hpos : pos < n)
    (haddr : addr < 2 ^ (8 * SIZEOF_VOID_P)) :
    le_decode (mem_read (store_scalar mem (SIZEOF_VOID_P * pos) SIZEOF_VOID_P addr)
      (SIZEOF_VOID_P * pos) SIZEOF_VOID_P) = addr := by
  unfold store_scalar
  rw [(write_slot mem SIZEOF_VOID_P n pos _ hlen hpos (le_encode_length _ _)).1]
  rw [le_decode_le_encode]
  have h1 : ((addr : Int) % 2 ^ (8 * SIZEOF_VOID_P)).toNat = addr := by
    have h2 : ((addr : Int) % 2 ^ (8 * SIZEOF_VOID_P)) = ((addr % 2 ^ (8 * SIZEOF_VOID_P) : Nat) : Int) := by
      push_cast; rfl
    rw [h2, Int.toNat_ofNat, Nat.mod_eq_of_lt haddr]
  rw [h1, Nat.mod_eq_of_lt haddr]

theorem store_unsigned_same (mem : List Nat) (ea n : Nat) (va : List Nat)
    (hlen : va.length = n) (hbytes : ∀ b ∈ va, b < 256) :
    store_scalar mem ea n ((le_decode (va.take n) : Nat) : Int) = mem_write mem ea va := by
  have htake : va.take n = va := by rw [← hlen]; exact List.take_length va
  have hlt : le_decode va < 2 ^ (8 * n) := by rw [← hlen]; exact le_decode_lt va hbytes
  have h1 : (((le_decode va : Nat) : Int) % 2 ^ (8 * n)).toNat = le_decode va := by
    have h2 : ((le_decode va : Nat) : Int) % 2 ^ (8 * n)
        = ((le_decode va % 2 ^ (8 * n) : Nat) : Int) := by
      push_cast; rfl
    rw [h2, Int.toNat_ofNat, Nat.mod_eq_of_lt hlt]
  unfold store_scalar
  rw [htake, h1]
  have h3 := le_encode_le_decode va hbytes
  rw [hlen] at h3
  rw [h3]

theorem store_signed_same (mem : List Nat) (ea n : Nat) (va : List Nat)
    (hlen : va.length = n) (hbytes : ∀ b ∈ va, b < 256) :
    store_scalar mem ea n (sign_extend n (le_decode (va.take n))) = mem_write mem ea va := by
  have htake : va.take n = va := by rw [← hlen]; exact List.take_length va
  have hlt : le_decode va < 2 ^ (8 * n) := by rw [← hlen]; exact le_decode_lt va hbytes
  unfold store_scalar
  rw [htake, sign_extend_mod n _ hlt]
  have h3 := le_encode_le_decode va hbytes
  rw [hlen] at h3
  rw [h3]

/-- A value of an integral kind converted into a slot of the same kind: the load and the
widening conversion leave no error and write the bytes of the value. -/
theorem assign_same_kind (rt : MonoRuntime) (U : Nat) (hU : U ∈ integral_kinds)
    (strict_signs : Bool) (va : List Nat) (hlen : va.length = kind_size U)
    (hbytes : ∀ b ∈ va, b < 256) (mem : List Nat) (ea : Nat) :
    (load_value rt (fold_native U) (fold_native U) va).2 = MonoError.ok
    ∧ assign_element rt (fold_native U) (fold_native U) (kind_size U) (kind_size U)
        strict_signs (load_value rt (fold_native U) (fold_native U) va).1 mem ea
      = (MonoError.ok, mem_write mem ea va) := by
  simp only [integral_kinds, List.mem_cons, List.mem_singleton, List.mem_nil_iff,
    or_false] at hU
  rcases hU with h | h | h | h | h | h | h | h | h | h | h <;> subst h
  · have hs := store_signed_same mem ea 1 va hlen hbytes
    simp [fold_native, load_value, assign_element, ASSIGN_SIGNED, is_signed_kind,
      CHECK_WIDENING_CONVERSION, kind_size, hs]
  · have hs := store_unsigned_same mem ea 1 va hlen hbytes
    simp [fold_native, load_value, assign_element, ASSIGN_UNSIGNED, is_unsigned_kind,
      CHECK_WIDENING_CONVERSION, kind_size, hs]
  · have hs := store_signed_same mem ea 2 va hlen hbytes
    simp [fold_native, load_value, assign_element, ASSIGN_SIGNED, is_signed_kind,
      CHECK_WIDENING_CONVERSION, kind_size, hs]
  · have hs := store_unsigned_same mem ea 2 va hlen hbytes
    simp [fold_native, load_value, assign_element, ASSIGN_UNSIGNED, is_unsigned_kind,
      CHECK_WIDENING_CONVERSION, kind_size, hs]
  · have hs := store_signed_same mem ea 4 va hlen hbytes
    simp [fold_native, load_value, assign_element, ASSIGN_SIGNED, is_signed_kind,
      CHECK_WIDENING_CONVERSION, kind_size, hs]
  · have hs := store_unsigned_same mem ea 4 va hlen hbytes
    simp [fold_native, load_value, assign_element, ASSIGN_UNSIGNED, is_unsigned_kind,
      CHECK_WIDENING_CONVERSION, kind_size, hs]
  · have hs := store_signed_same mem ea 8 va hlen hbytes
    simp [fold_native, load_value, assign_element, ASSIGN_SIGNED, is_signed_kind,
      CHECK_WIDENING_CONVERSION, kind_size, hs]
  · have hs := store_unsigned_same mem ea 8 va hlen hbytes
    simp [fold_native, load_value, assign_element, ASSIGN_UNSIGNED, is_unsigned_kind,
      CHECK_WIDENING_CONVERSION, kind_size, hs]
  · have hs := store_unsigned_same mem ea 2 va hlen hbytes
    simp [fold_native, load_value, assign_element, ASSIGN_UNSIGNED, is_unsigned_kind,
      CHECK_WIDENING_CONVERSION, kind_size, hs]
  · have hs := store_signed_same mem ea 8 va hlen hbytes
    simp [fold_native, load_value, assign_element, ASSIGN_SIGNED, is_signed_kind,
      CHECK_WIDENING_CONVERSION, kind_size, hs]
  · have hs := store_unsigned_same mem ea 8 va hlen hbytes
    simp [fold_native, load_value, assign_element, ASSIGN_UNSIGNED, is_unsigned_kind,
      CHECK_WIDENING_CONVERSION, kind_size, hs]

/-! ## Lemmas on the conversion path -/

/-- The parts of `is_primitive_of`. -/
theorem is_primitive_of_iff (klass : MonoClass) (t : Nat) :
    is_primitive_of klass t = true ↔
      mono_class_is_nullable klass = false ∧ klass.d.byval_type = t
        ∧ m_class_is_valuetype klass = true ∧ mono_class_value_size klass = kind_size t := by
  simp only [is_primitive_of, Bool.and_eq_true, Bool.not_eq_true', beq_iff_eq]
  tauto

/-- A value of a primitive kind `S` stored into an array of another primitive kind `D`,
the assignability check having refused the direct copy: the store is the load of the
value followed, when the load left no error, by the widening conversion. -/
theorem array_set_value_impl_convert (rt : MonoRuntime) (arr : MonoArray) (value : MonoObject)
    (pos : Nat) (strict_enums strict_signs : Bool) (S D : Nat)
    (hS : is_primitive_of value.klass S = true)
    (hD : is_primitive_of arr.element_class D = true)
    (hDs : D ≠ MONO_TYPE_STRING) (hDb : D ≠ MONO_TYPE_BOOLEAN) (hDv : D ≠ MONO_TYPE_VALUETYPE)
    (hSv : S ≠ MONO_TYPE_VALUETYPE)
    (hi : rt.isinst value arr.element_class = false) :
    array_set_value_impl rt arr (some value) pos strict_enums strict_signs
      = if is_ok (load_value rt (fold_native S) (fold_native D) value.payload).2 then
          ((assign_element rt (fold_native D) (fold_native S) arr.element_size (kind_size S)
              strict_signs (load_value rt (fold_native S) (fold_native D) value.payload).1
              arr.vector (arr.element_size * pos)).1,
            { arr with vector :=
                (assign_element rt (fold_native D) (fold_native S) arr.element_size (kind_size S)
                  strict_signs (load_value rt (fold_native S) (fold_native D) value.payload).1
                  arr.vector (arr.element_size * pos)).2 })
        else ((load_value rt (fold_native S) (fold_native D) value.payload).2, arr) := by
  obtain ⟨hSn, hSt, hSvt, hSs⟩ := (is_primitive_of_iff _ _).1 hS
  obtain ⟨hDn, hDt, hDvt, hDs'⟩ := (is_primitive_of_iff _ _).1 hD
  have hcheck : check_element_type D S = MonoError.ok := by
    simp [check_element_type, hDs, hDb]
  simp only [array_set_value_impl, hDn, hDt, hSt, hcheck, is_ok, hi, hDvt, hSvt, hSs]
  simp [hDv, hSv]

theorem load_value_signed (rt : MonoRuntime) (S : Nat) (hS : S ∈ signed_kinds) (et : Nat)
    (va : List Nat) :
    load_value rt (fold_native S) et va
      = ({ u64 := 0, i64 := sign_extend (kind_size S) (le_decode (va.take (kind_size S))),
           r64 := 0 }, MonoError.ok) := by
  simp only [signed_kinds, List.mem_cons, List.mem_singleton, List.mem_nil_iff, or_false] at hS
  rcases hS with h | h | h | h | h <;> subst h <;> simp [fold_native, load_value, kind_size]

theorem load_value_unsigned (rt : MonoRuntime) (S : Nat) (hS : S ∈ unsigned_kinds) (et : Nat)
    (va : List Nat) :
    load_value rt (fold_native S) et va
      = ({ u64 := le_decode (va.take (kind_size S)), i64 := 0, r64 := 0 }, MonoError.ok) := by
  simp only [unsigned_kinds, List.mem_cons, List.mem_singleton, List.mem_nil_iff,
    or_false] at hS
  rcases hS with h | h | h | h | h | h <;> subst h <;>
    simp [fold_native, load_value, kind_size]

theorem load_value_real (rt : MonoRuntime) (S : Nat) (hS : S ∈ real_kinds) (et : Nat)
    (va : List Nat) :
    (load_value rt (fold_native S) et va).2 = MonoError.ok := by
  simp only [real_kinds, List.mem_cons, List.mem_singleton, List.mem_nil_iff, or_false] at hS
  rcases hS with h | h <;> subst h <;> simp [fold_native, load_value]

theorem assign_element_signed (rt : MonoRuntime) (D : Nat) (hD : D ∈ signed_kinds)
    (vt esize vsize : Nat) (strict_signs : Bool) (acc : Accumulators) (mem : List Nat)
    (ea : Nat) :
    assign_element rt (fold_native D) vt esize vsize strict_signs acc mem ea
      = ASSIGN_SIGNED (kind_size D) vt esize vsize strict_signs acc mem ea := by
  simp only [signed_kinds, List.mem_cons, List.mem_singleton, List.mem_nil_iff, or_false] at hD
  rcases hD with h | h | h | h | h <;> subst h <;> simp [fold_native, assign_element, kind_size]

theorem assign_element_unsigned (rt : MonoRuntime) (D : Nat) (hD : D ∈ unsigned_kinds)
    (vt esize vsize : Nat) (strict_signs : Bool) (acc : Accumulators) (mem : List Nat)
    (ea : Nat) :
    assign_element rt (fold_native D) vt esize vsize strict_signs acc mem ea
      = ASSIGN_UNSIGNED (kind_size D) vt esize vsize strict_signs acc mem ea := by
  simp only [unsigned_kinds, List.mem_cons, List.mem_singleton, List.mem_nil_iff,
    or_false] at hD
  rcases hD with h | h | h | h | h | h <;> subst h <;>
    simp [fold_native, assign_element, kind_size]

theorem assign_element_real (rt : MonoRuntime) (D : Nat) (hD : D ∈ real_kinds)
    (vt esize vsize : Nat) (strict_signs : Bool) (acc : Accumulators) (mem : List Nat)
    (ea : Nat) :
    assign_element rt (fold_native D) vt esize vsize strict_signs acc mem ea
      = ASSIGN_REAL rt (kind_size D) vt esize vsize acc mem ea := by
  simp only [real_kinds, List.mem_cons, List.mem_singleton, List.mem_nil_iff, or_false] at hD
  rcases hD with h | h <;> subst h <;> simp [fold_native, assign_element, kind_size]

/-- How the folded kinds of the three families are classified by the macros. -/
theorem kind_classes_signed (S : Nat) (hS : S ∈ signed_kinds) :
    is_signed_kind (fold_native S) = true ∧ is_unsigned_kind (fold_native S) = false
      ∧ is_real_kind (fold_native S) = false ∧ 0 < kind_size S := by
  simp only [signed_kinds, List.mem_cons, List.mem_singleton, List.mem_nil_iff, or_false] at hS
  rcases hS with h | h | h | h | h <;> subst h <;> decide

theorem kind_classes_unsigned (S : Nat) (hS : S ∈ unsigned_kinds) :
    is_signed_kind (fold_native S) = false ∧ is_unsigned_kind (fold_native S) = true
      ∧ is_real_kind (fold_native S) = false ∧ 0 < kind_size S := by
  simp only [unsigned_kinds, List.mem_cons, List.mem_singleton, List.mem_nil_iff,
    or_false] at hS
  rcases hS with h | h | h | h | h | h <;> subst h <;> decide

theorem kind_classes_real (S : Nat) (hS : S ∈ real_kinds) :
    is_signed_kind (fold_native S) = false ∧ is_unsigned_kind (fold_native S) = false
      ∧ is_real_kind (fold_native S) = true ∧ 0 < kind_size S := by
  simp only [real_kinds, List.mem_cons, List.mem_singleton, List.mem_nil_iff, or_false] at hS
  rcases hS with h | h <;> subst h <;> decide

/-- None of the numeric kinds is `String`, `Boolean` or `ValueType`. -/
theorem numeric_kind_tags (t : Nat)
    (h : t ∈ signed_kinds ∨ t ∈ unsigned_kinds ∨ t ∈ real_kinds) :
    t ≠ MONO_TYPE_STRING ∧ t ≠ MONO_TYPE_BOOLEAN ∧ t ≠ MONO_TYPE_VALUETYPE := by
  simp only [signed_kinds, unsigned_kinds, real_kinds, List.mem_cons, List.mem_singleton,
    List.mem_nil_iff, or_false] at h
  rcases h with (h | h | h | h | h) | (h | h | h | h | h | h) | (h | h) <;> subst h <;> decide

/-! ## Lemmas on stored scalars -/

theorem two_pow_bytes (e : Nat) (he : 0 < e) : (2 : Nat) ^ (8 * e) = 2 * 2 ^ (8 * e - 1) := by
  have h : 8 * e = (8 * e - 1) + 1 := by omega
  conv_lhs => rw [h]
  rw [pow_succ]
  omega

theorem int_emod_toNat_lt (e : Nat) (v : Int) : (v % 2 ^ (8 * e)).toNat < 2 ^ (8 * e) := by
  have hpos : (0 : Int) < 2 ^ (8 * e) := by positivity
  have h1 := Int.emod_nonneg v (ne_of_gt hpos)
  have h2 := Int.emod_lt_of_pos v hpos
  have h3 : ((v % 2 ^ (8 * e)).toNat : Int) = v % 2 ^ (8 * e) := Int.toNat_of_nonneg h1
  have h4 : ((v % 2 ^ (8 * e)).toNat : Int) < ((2 ^ (8 * e) : Nat) : Int) := by
    rw [h3]; push_cast; exact h2
  exact_mod_cast h4

/-- The slot after `*(etype *) ea = (etype) v`: it holds the value modulo `2 ^ (8 * e)`,
the other slots and the length of the storage are as before. -/
theorem slot_store_scalar (mem : List Nat) (e n pos : Nat) (v : Int)
    (hlen : mem.length = n * e) (hpos : pos < n) :
    le_decode (mem_read (store_scalar mem (e * pos) e v) (e * pos) e)
        = (v % 2 ^ (8 * e)).toNat
    ∧ (∀ q, q ≠ pos →
        mem_read (store_scalar mem (e * pos) e v) (e * q) e = mem_read mem (e * q) e)
    ∧ (store_scalar mem (e * pos) e v).length = mem.length := by
  have hw := write_slot mem e n pos (le_encode e (v % 2 ^ (8 * e)).toNat) hlen hpos
    (le_encode_length _ _)
  unfold store_scalar
  refine ⟨?_, hw.2.1, hw.2.2⟩
  rw [hw.1, le_decode_le_encode, Nat.mod_eq_of_lt (int_emod_toNat_lt e v)]

theorem sign_extend_range (n u : Nat) (hn : 0 < n) (hu : u < 2 ^ (8 * n)) :
    -((2 ^ (8 * n - 1) : Nat) : Int) ≤ sign_extend n u
      ∧ sign_extend n u < ((2 ^ (8 * n - 1) : Nat) : Int) := by
  have hM := two_pow_bytes n hn
  have hI : (2 : Int) ^ (8 * n) = ((2 ^ (8 * n) : Nat) : Int) := by push_cast; rfl
  unfold sign_extend
  rw [hI]
  generalize (2 : Nat) ^ (8 * n - 1) = H at *
  generalize (2 : Nat) ^ (8 * n) = M at *
  split <;> omega

/-- The two's complement pattern of an integer that fits `e` bytes reads back as that
integer. -/
theorem sign_extend_emod (e : Nat) (v : Int) (he : 0 < e)
    (hlo : -((2 ^ (8 * e - 1) : Nat) : Int) ≤ v) (hhi : v < ((2 ^ (8 * e - 1) : Nat) : Int)) :
    sign_extend e (v % 2 ^ (8 * e)).toNat = v := by
  have hM := two_pow_bytes e he
  have hI : (2 : Int) ^ (8 * e) = ((2 ^ (8 * e) : Nat) : Int) := by push_cast; rfl
  unfold sign_extend
  rw [hI]
  generalize (2 : Nat) ^ (8 * e - 1) = H at *
  generalize (2 : Nat) ^ (8 * e) = M at *
  subst hM
  by_cases hv : 0 ≤ v
  · have h1 : v % ((2 * H : Nat) : Int) = v := Int.emod_eq_of_lt hv (by push_cast; omega)
    rw [h1]
    have h2 : (v.toNat : Int) = v := Int.toNat_of_nonneg hv
    split <;> omega
  · have h1 : v % ((2 * H : Nat) : Int) = v + ((2 * H : Nat) : Int) := by
      rw [← Int.add_mul_emod_self_left v ((2 * H : Nat) : Int) 1, mul_one]
      exact Int.emod_eq_of_lt (by push_cast; omega) (by push_cast; omega)
    rw [h1]
    have h2 : ((v + ((2 * H : Nat) : Int)).toNat : Int) = v + ((2 * H : Nat) : Int) :=
      Int.toNat_of_nonneg (by push_cast; omega)
    split <;> push_cast at * <;> omega

theorem two_pow_bytes_mono (n m : Nat) (h : n ≤ m) :
    (2 : Nat) ^ (8 * n - 1) ≤ 2 ^ (8 * m - 1) :=
  Nat.pow_le_pow_right (by decide) (by omega)

/-- The direct copy: a value that the assignability check accepts for a value type
element class is copied into the slot, whatever the strictness. -/
theorem array_set_value_impl_direct_copy (rt : MonoRuntime) (arr : MonoArray)
    (value : MonoObject) (pos : Nat) (strict_enums strict_signs : Bool)
    (hnn : mono_class_is_nullable arr.element_class = false)
    (hv : m_class_is_valuetype arr.element_class = true)
    (hcheck : check_element_type arr.element_class.d.byval_type value.klass.d.byval_type
      = MonoError.ok)
    (hi : rt.isinst value arr.element_class = true)
    (hesize : arr.element_size = mono_class_value_size arr.element_class)
    (hpl : value.payload.length = arr.element_size) :
    array_set_value_impl rt arr (some value) pos strict_enums strict_signs
      = (MonoError.ok,
          { arr with vector := mem_write arr.vector (arr.element_size * pos) value.payload }) := by
  have htake : value.payload.take arr.element_size = value.payload := by
    rw [← hpl]; exact List.take_length value.payload
  simp only [array_set_value_impl, hnn, hcheck, hi, hv, is_ok, mono_value_copy_internal,
    mono_gc_memmove_atomic, ← hesize, htake]
  simp

/-- The store of a primitive value into an array of its own primitive class, when the
assignability check accepts it. -/
theorem array_set_value_impl_same_class (rt : MonoRuntime) (arr : MonoArray)
    (value : MonoObject) (pos : Nat) (strict_enums strict_signs : Bool) (S D : Nat)
    (hvc : is_primitive_of value.klass S = true)
    (hec : is_primitive_of arr.element_class D = true)
    (hclass : value.klass = arr.element_class)
    (hi : rt.isinst value arr.element_class = true)
    (hesize : arr.element_size = mono_class_value_size arr.element_class)
    (hpayload : value.payload.length = mono_class_value_size value.klass) :
    S = D
    ∧ array_set_value_impl rt arr (some value) pos strict_enums strict_signs
      = (MonoError.ok,
          { arr with vector := mem_write arr.vector (arr.element_size * pos) value.payload }) := by
  obtain ⟨_, hSt, _, _⟩ := (is_primitive_of_iff _ _).1 hvc
  obtain ⟨hDn, hDt, hDvt, _⟩ := (is_primitive_of_iff _ _).1 hec
  refine ⟨by rw [← hSt, ← hDt, hclass], ?_⟩
  apply array_set_value_impl_direct_copy rt arr value pos strict_enums strict_signs hDn hDvt
    ?_ hi hesize
  · rw [hpayload, hclass, hesize]
  · rw [hclass]; exact check_element_type_self _

/-- The three families of numeric kinds are disjoint. -/
theorem kind_families_disjoint (t : Nat) :
    (t ∈ signed_kinds → t ∉ unsigned_kinds ∧ t ∉ real_kinds)
    ∧ (t ∈ unsigned_kinds → t ∉ real_kinds) := by
  constructor
  · intro h
    simp only [signed_kinds, List.mem_cons, List.mem_singleton, List.mem_nil_iff, or_false] at h
    rcases h with h | h | h | h | h <;> subst h <;> decide
  · intro h
    simp only [unsigned_kinds, List.mem_cons, List.mem_singleton, List.mem_nil_iff,
      or_false] at h
    rcases h with h | h | h | h | h | h <;> subst h <;> decide

/-- An assignability check that accepts, for this element class, only values of the
class itself refuses a value of another primitive kind. -/
theorem isinst_false_of_kind_ne (rt : MonoRuntime) (arr : MonoArray) (value : MonoObject)
    (S D : Nat)
    (hvc : is_primitive_of value.klass S = true)
    (hec : is_primitive_of arr.element_class D = true)
    (hinst : rt.isinst value arr.element_class = true → value.klass = arr.element_class)
    (hne : S ≠ D) : rt.isinst value arr.element_class = false := by
  cases hi : rt.isinst value arr.element_class
  · rfl
  · exfalso
    obtain ⟨_, hSt, _, _⟩ := (is_primitive_of_iff _ _).1 hvc
    obtain ⟨_, hDt, _, _⟩ := (is_primitive_of_iff _ _).1 hec
    apply hne
    rw [← hSt, ← hDt, hinst hi]

/-- An unsigned value converted into a slot of a signed kind: the error of the size check
with the given headroom, and the value written into the slot. -/
theorem array_set_value_impl_unsigned_into_signed (rt : MonoRuntime) (arr : MonoArray)
    (value : MonoObject) (pos : Nat) (strict_enums strict_signs : Bool) (S D : Nat)
    (hS : S ∈ unsigned_kinds) (hD : D ∈ signed_kinds)
    (hvc : is_primitive_of value.klass S = true)
    (hec : is_primitive_of arr.element_class D = true)
    (hinst : rt.isinst value arr.element_class = true → value.klass = arr.element_class)
    (hesize : arr.element_size = mono_class_value_size arr.element_class)
    (hpayload : value.payload.length = mono_class_value_size value.klass) :
    array_set_value_impl rt arr (some value) pos strict_enums strict_signs
      = (CHECK_WIDENING_CONVERSION (kind_size D) (kind_size S) (if strict_signs then 1 else 0),
          { arr with vector := (store_scalar arr.vector (kind_size D * pos) (kind_size D)
              ((le_decode value.payload : Nat) : Int)) }) := by
  obtain ⟨_, _, _, hSs⟩ := (is_primitive_of_iff _ _).1 hvc
  obtain ⟨_, _, _, hDs⟩ := (is_primitive_of_iff _ _).1 hec
  have hes : arr.element_size = kind_size D := by rw [hesize, hDs]
  have hpl : value.payload.length = kind_size S := by rw [hpayload, hSs]
  have hne : S ≠ D := fun h => ((kind_families_disjoint D).1 hD).1 (h ▸ hS)
  have hi := isinst_false_of_kind_ne rt arr value S D hvc hec hinst hne
  obtain ⟨hDstr, hDbool, hDval⟩ := numeric_kind_tags D (Or.inl hD)
  obtain ⟨_, _, hSval⟩ := numeric_kind_tags S (Or.inr (Or.inl hS))
  obtain ⟨hsig, huns, _, _⟩ := kind_classes_unsigned S hS
  have htake : value.payload.take (kind_size S) = value.payload := by
    rw [← hpl]; exact List.take_length value.payload
  rw [array_set_value_impl_convert rt arr value pos strict_enums strict_signs S D hvc hec
    hDstr hDbool hDval hSval hi, load_value_unsigned rt S hS, assign_element_signed rt D hD]
  simp [is_ok, ASSIGN_SIGNED, hsig, huns, hes, htake]

/-- A signed value converted into a slot of an unsigned kind: refused without a write when
the signs are strict, else the error of the size check and the value written into the
slot. -/
theorem array_set_value_impl_signed_into_unsigned (rt : MonoRuntime) (arr : MonoArray)
    (value : MonoObject) (pos : Nat) (strict_enums strict_signs : Bool) (S D : Nat)
    (hS : S ∈ signed_kinds) (hD : D ∈ unsigned_kinds)
    (hvc : is_primitive_of value.klass S = true)
    (hec : is_primitive_of arr.element_class D = true)
    (hinst : rt.isinst value arr.element_class = true → value.klass = arr.element_class)
    (hesize : arr.element_size = mono_class_value_size arr.element_class)
    (hpayload : value.payload.length = mono_class_value_size value.klass) :
    array_set_value_impl rt arr (some value) pos strict_enums strict_signs
      = if strict_signs then (MonoError.argument, arr)
        else (CHECK_WIDENING_CONVERSION (kind_size D) (kind_size S) 0,
          { arr with vector := (store_scalar arr.vector (kind_size D * pos) (kind_size D)
              (sign_extend (kind_size S) (le_decode value.payload))) }) := by
  obtain ⟨_, _, _, hSs⟩ := (is_primitive_of_iff _ _).1 hvc
  obtain ⟨_, _, _, hDs⟩ := (is_primitive_of_iff _ _).1 hec
  have hes : arr.element_size = kind_size D := by rw [hesize, hDs]
  have hpl : value.payload.length = kind_size S := by rw [hpayload, hSs]
  have hne : S ≠ D := fun h => ((kind_families_disjoint S).1 hS).1 (h ▸ hD)
  have hi := isinst_false_of_kind_ne rt arr value S D hvc hec hinst hne
  obtain ⟨hDstr, hDbool, hDval⟩ := numeric_kind_tags D (Or.inr (Or.inl hD))
  obtain ⟨_, _, hSval⟩ := numeric_kind_tags S (Or.inl hS)
  obtain ⟨hsig, huns, _, _⟩ := kind_classes_signed S hS
  have htake : value.payload.take (kind_size S) = value.payload := by
    rw [← hpl]; exact List.take_length value.payload
  rw [array_set_value_impl_convert rt arr value pos strict_enums strict_signs S D hvc hec
    hDstr hDbool hDval hSval hi, load_value_signed rt S hS, assign_element_unsigned rt D hD]
  cases strict_signs
  · simp [is_ok, ASSIGN_UNSIGNED, hsig, huns, hes, htake]
  · simp [is_ok, ASSIGN_UNSIGNED, hsig, huns, htake]

theorem int_cast_emod_toNat (u e : Nat) (h : u < 2 ^ (8 * e)) :
    (((u : Nat) : Int) % 2 ^ (8 * e)).toNat = u := by
  have h2 : ((u : Nat) : Int) % 2 ^ (8 * e) = ((u % 2 ^ (8 * e) : Nat) : Int) := by
    push_cast; rfl
  rw [h2, Int.toNat_ofNat, Nat.mod_eq_of_lt h]

theorem two_pow_bytes_le (n m : Nat) (h : n ≤ m) : (2 : Nat) ^ (8 * n) ≤ 2 ^ (8 * m) :=
  Nat.pow_le_pow_right (by decide) (by omega)

/-! ## Lemmas on the buffer of the resolver -/

theorem control_events_append (xs ys : List IcallEvent) :
    control_events (xs ++ ys) = control_events xs ++ control_events ys := by
  simp [control_events, List.filter_append]

theorem store_mname (f : Frame) (i : Nat) (bs : List Nat) :
    (f.store i bs).mname = mem_write f.mname i bs := rfl

theorem store_control_events (f : Frame) (i : Nat) (bs : List Nat) :
    control_events (f.store i bs).events = control_events f.events := by
  simp [Frame.store, control_events, List.filter_append]

theorem log_mname (f : Frame) (e : IcallEvent) : (f.log e).mname = f.mname := rfl

theorem log_events (f : Frame) (e : IcallEvent) : (f.log e).events = f.events ++ [e] := rfl

/-- A write that starts inside what is known of the buffer: what is known then is the
part before the write followed by the bytes written. -/
theorem prefix_store (f : Frame) (P bs : List Nat) (i : Nat) (hP : P <+: f.mname)
    (hi : i ≤ P.length) : (P.take i ++ bs) <+: (f.store i bs).mname := by
  obtain ⟨R, hR⟩ := hP
  rw [store_mname, ← hR]
  unfold mem_write
  rw [List.take_append_of_le_length hi]
  exact List.prefix_append _ _

/-- A write that starts right after what is known of the buffer. -/
theorem prefix_store_end (f : Frame) (P bs : List Nat) (i : Nat) (hP : P <+: f.mname)
    (hi : i = P.length) : (P ++ bs) <+: (f.store i bs).mname := by
  subst hi
  have h := prefix_store f P bs P.length hP (le_refl _)
  rw [List.take_length] at h
  exact h

theorem c_string_at_prefix (mem K : List Nat) (h : (K ++ [0]) <+: mem)
    (hz : ∀ b ∈ K, b ≠ 0) : c_string_at mem 0 = K := by
  obtain ⟨R, hR⟩ := h
  rw [← hR]
  unfold c_string_at
  rw [List.drop_zero, List.append_assoc, List.takeWhile_append_of_pos]
  · simp
  · intro b hb
    simpa using hz b hb

theorem class_display_name_length (name_space name : List Nat) :
    (class_display_name name_space name).length
      = (if name_space.length != 0 then name_space.length + 1 else name_space.length)
          + name.length := by
  unfold class_display_name
  cases name_space with
  | nil => simp
  | cons a t => simp; omega

/-- The function `concat_class_name` when the name fits: it returns the length of the
class name, and the buffer then holds, from `buf` on, the class name and a terminator. -/
theorem concat_class_name_fits (f : Frame) (Q : List Nat) (buf bufsize : Nat)
    (name_space name : List Nat)
    (hQ : Q <+: f.mname) (hbuf : buf = Q.length)
    (hfit : name_space.length + name.length + 2 ≤ bufsize) :
    (concat_class_name f buf bufsize name_space name).2
        = (class_display_name name_space name).length
    ∧ (Q ++ class_display_name name_space name ++ [0])
        <+: (concat_class_name f buf bufsize name_space name).1.mname
    ∧ control_events (concat_class_name f buf bufsize name_space name).1.events
        = control_events f.events := by
  cases name_space with
  | nil =>
    have h1 := prefix_store_end f Q name buf hQ hbuf
    have h2 := prefix_store_end (f.store buf name) (Q ++ name) [0] (buf + name.length) h1
      (by simp [hbuf])
    have hdef : concat_class_name f buf bufsize [] name
        = ((f.store buf name).store (buf + name.length) [0], name.length) := by
      unfold concat_class_name
      simp only [strlen, List.length_nil]
      rw [if_neg (by simp at hfit; omega)]
      simp
    rw [hdef]
    refine ⟨by simp [class_display_name], by simpa [class_display_name] using h2, ?_⟩
    simp only [store_control_events]
  | cons a t =>
    have h1 := prefix_store_end f Q (a :: t) buf hQ hbuf
    have h2 := prefix_store_end (f.store buf (a :: t)) (Q ++ (a :: t)) [46]
      (buf + (a :: t).length) h1 (by simp [hbuf])
    have h3 := prefix_store_end ((f.store buf (a :: t)).store (buf + (a :: t).length) [46])
      (Q ++ (a :: t) ++ [46]) name (buf + ((a :: t).length + 1)) h2
      (by simp [hbuf])
    have h4 := prefix_store_end
      (((f.store buf (a :: t)).store (buf + (a :: t).length) [46]).store
        (buf + ((a :: t).length + 1)) name)
      (Q ++ (a :: t) ++ [46] ++ name) [0] (buf + ((a :: t).length + 1) + name.length) h3
      (by simp [hbuf]; omega)
    have hdef : concat_class_name f buf bufsize (a :: t) name
        = ((((f.store buf (a :: t)).store (buf + (a :: t).length) [46]).store
              (buf + ((a :: t).length + 1)) name).store
              (buf + ((a :: t).length + 1) + name.length) [0],
            (a :: t).length + 1 + name.length) := by
      unfold concat_class_name
      simp only [strlen]
      rw [if_neg (by omega)]
      simp
    rw [hdef]
    refine ⟨by simp [class_display_name]; omega, ?_, ?_⟩
    · simpa [class_display_name, List.append_assoc] using h4
    · simp only [store_control_events]

theorem class_display_name_bounds (name_space name : List Nat) (hname : name ≠ []) :
    (class_display_name name_space name).length ≠ 0
    ∧ name_space.length + name.length ≤ (class_display_name name_space name).length := by
  have hl : name.length ≠ 0 := by
    intro h; exact hname (List.length_eq_zero.1 h)
  rw [class_display_name_length]
  constructor
  · split <;> omega
  · split <;> omega

/-- The type name part of the resolver when the type name leaves room in the buffer: it
yields the length of the type name, not 0, and the buffer then starts with the type name
and a terminator. -/
theorem icall_type_name_into_fits (f : Frame) (klass : MonoMethodClass)
    (hname : klass.name ≠ [])
    (houter : ∀ outer, klass.nested_in = some outer → outer.name ≠ [])
    (hfit : (icall_type_name klass).length + 6 ≤ MNAME_SIZE) :
    (icall_type_name_into f klass).2 = (icall_type_name klass).length
    ∧ (icall_type_name klass).length ≠ 0
    ∧ (icall_type_name klass ++ [0]) <+: (icall_type_name_into f klass).1.mname
    ∧ control_events (icall_type_name_into f klass).1.events = control_events f.events := by
  have hin := class_display_name_bounds klass.name_space klass.name hname
  cases hn : klass.nested_in with
  | none =>
    simp only [icall_type_name, hn] at hfit
    have hc := concat_class_name_fits f [] 0 MNAME_SIZE klass.name_space klass.name
      (List.nil_prefix) rfl (by omega)
    simp only [icall_type_name_into, icall_type_name, hn]
    refine ⟨hc.1, hin.1, ?_, hc.2.2⟩
    simpa using hc.2.1
  | some outer =>
    have hout := class_display_name_bounds outer.name_space outer.name (houter outer hn)
    simp only [icall_type_name, hn, List.length_append, List.length_singleton] at hfit
    simp only [MNAME_SIZE] at hfit
    have hc1 := concat_class_name_fits f [] 0 (MNAME_SIZE - 2) outer.name_space outer.name
      (List.nil_prefix) rfl (by simp only [MNAME_SIZE]; omega)
    obtain ⟨hpos, hpre1, hev1⟩ := hc1
    simp only [List.nil_append] at hpre1
    generalize hr1 : concat_class_name f 0 (MNAME_SIZE - 2) outer.name_space outer.name = r1
      at hpos hpre1 hev1
    have hpos0 : r1.2 ≠ 0 := by rw [hpos]; exact hout.1
    -- the slash and the terminator
    have hs1 := prefix_store r1.1 (class_display_name outer.name_space outer.name ++ [0]) [47]
      r1.2 hpre1 (by rw [hpos]; simp)
    rw [hpos, List.take_append_of_le_length (le_refl _), List.take_length] at hs1
    rw [← hpos] at hs1
    have hs2 := prefix_store_end (r1.1.store r1.2 [47])
      (class_display_name outer.name_space outer.name ++ [47]) [0] (r1.2 + 1) hs1
      (by rw [hpos]; simp)
    have hQ : (class_display_name outer.name_space outer.name ++ [47])
        <+: ((r1.1.store r1.2 [47]).store (r1.2 + 1) [0]).mname :=
      List.IsPrefix.trans (List.prefix_append _ _) hs2
    have hc2 := concat_class_name_fits ((r1.1.store r1.2 [47]).store (r1.2 + 1) [0])
      (class_display_name outer.name_space outer.name ++ [47]) (r1.2 + 1)
      (MNAME_SIZE - (r1.2 + 1) - 1) klass.name_space klass.name hQ (by rw [hpos]; simp)
      (by rw [hpos]; simp only [MNAME_SIZE]; omega)
    obtain ⟨hlen2, hpre2, hev2⟩ := hc2
    generalize hr3 : concat_class_name ((r1.1.store r1.2 [47]).store (r1.2 + 1) [0]) (r1.2 + 1)
      (MNAME_SIZE - (r1.2 + 1) - 1) klass.name_space klass.name = r3 at hlen2 hpre2 hev2
    have hlen0 : r3.2 ≠ 0 := by rw [hlen2]; exact hin.1
    simp only [icall_type_name_into, icall_type_name, hn, hr1, hr3]
    have hb1 : (r1.2 == 0) = false := by simp [hpos0]
    have hb3 : (r3.2 == 0) = false := by simp [hlen0]
    simp only [hb1, hb3, Bool.false_eq_true, if_false]
    refine ⟨?_, ?_, hpre2, ?_⟩
    · simp only [List.length_append, List.length_singleton, hlen2, hpos]
      omega
    · simp only [List.length_append, List.length_singleton]
      omega
    · rw [hev2, store_control_events, store_control_events, hev1]

theorem icall_method_name_into_prefix (f : Frame) (T name : List Nat)
    (hT : (T ++ [0]) <+: f.mname) :
    (T ++ [58, 58] ++ name ++ [0]) <+: (icall_method_name_into f T.length name).mname
    ∧ control_events (icall_method_name_into f T.length name).events
        = control_events f.events := by
  have s1 := prefix_store f (T ++ [0]) [58] T.length hT (by simp)
  rw [List.take_append_of_le_length (le_refl _), List.take_length] at s1
  have s2 := prefix_store_end (f.store T.length [58]) (T ++ [58]) [58] (T.length + 1) s1
    (by simp)
  have s3 := prefix_store_end ((f.store T.length [58]).store (T.length + 1) [58])
    (T ++ [58] ++ [58]) name (T.length + 2) s2 (by simp)
  have s4 := prefix_store_end
    (((f.store T.length [58]).store (T.length + 1) [58]).store (T.length + 2) name)
    (T ++ [58] ++ [58] ++ name) [0] (T.length + 2 + name.length) s3 (by simp; omega)
  simp only [icall_method_name_into, strlen]
  refine ⟨?_, ?_⟩
  · simpa [List.append_assoc] using s4
  · simp only [store_control_events]

theorem icall_signature_into_prefix (f : Frame) (K tmpsig : List Nat)
    (hK : (K ++ [0]) <+: f.mname) :
    (K ++ [40] ++ tmpsig ++ [41] ++ [0]) <+: (icall_signature_into f K.length tmpsig).mname
    ∧ control_events (icall_signature_into f K.length tmpsig).events
        = control_events f.events := by
  have s1 := prefix_store f (K ++ [0]) [40] K.length hK (by simp)
  rw [List.take_append_of_le_length (le_refl _), List.take_length] at s1
  have s2 := prefix_store_end (f.store K.length [40]) (K ++ [40]) tmpsig (K.length + 1) s1
    (by simp)
  have s3 := prefix_store_end ((f.store K.length [40]).store (K.length + 1) tmpsig)
    (K ++ [40] ++ tmpsig) [41] (K.length + tmpsig.length + 1) s2 (by simp; omega)
  have s4 := prefix_store_end
    (((f.store K.length [40]).store (K.length + 1) tmpsig).store
      (K.length + tmpsig.length + 1) [41])
    (K ++ [40] ++ tmpsig ++ [41]) [0] (K.length + tmpsig.length + 2) s3 (by simp; omega)
  simp only [icall_signature_into, strlen]
  exact ⟨s4, by simp only [store_control_events]⟩

/-- The probes of the resolver on a buffer that holds the key `K ++ "(" ++ sig ++ ")"`: a
hit under that key answers its entry; a miss followed by a hit under `K` answers that
entry; in both cases the mutex is taken, the table probed and the mutex released, and the
secondary table is not called. -/
theorem icall_probe_registry (st : IcallState) (f : Frame) (method : MonoMethodDef)
    (classname K tmpsig : List Nat) (mlen siglen : Nat) (warn_on_missing : Bool)
    (flags : Option Nat)
    (hK : (K ++ [40] ++ tmpsig ++ [41] ++ [0]) <+: f.mname)
    (hKz : ∀ b ∈ K, b ≠ 0) (hsz : ∀ b ∈ tmpsig, b ≠ 0) :
    (∀ v, g_hash_table_lookup st.icall_hash (K ++ [40] ++ tmpsig ++ [41]) = some v →
      (icall_probe st f method classname K.length mlen siglen warn_on_missing flags).res
          = v.method
      ∧ (icall_probe st f method classname K.length mlen siglen warn_on_missing flags).flags
          = flags.map (fun _ => v.flags)
      ∧ control_events
          (icall_probe st f method classname K.length mlen siglen warn_on_missing flags).events
          = control_events f.events
            ++ [IcallEvent.lock, IcallEvent.probe (K ++ [40] ++ tmpsig ++ [41]),
                IcallEvent.unlock])
    ∧ (g_hash_table_lookup st.icall_hash (K ++ [40] ++ tmpsig ++ [41]) = none →
      ∀ v, g_hash_table_lookup st.icall_hash K = some v →
      (icall_probe st f method classname K.length mlen siglen warn_on_missing flags).res
          = v.method
      ∧ (icall_probe st f method classname K.length mlen siglen warn_on_missing flags).flags
          = flags.map (fun _ => v.flags)
      ∧ control_events
          (icall_probe st f method classname K.length mlen siglen warn_on_missing flags).events
          = control_events f.events
            ++ [IcallEvent.lock, IcallEvent.probe (K ++ [40] ++ tmpsig ++ [41]),
                IcallEvent.probe K, IcallEvent.unlock]) := by
  have hz1 : ∀ b ∈ K ++ [40] ++ tmpsig ++ [41], b ≠ 0 := by
    intro b hb
    simp only [List.mem_append, List.mem_singleton] at hb
    rcases hb with ((hb | hb) | hb) | hb
    · exact hKz b hb
    · omega
    · exact hsz b hb
    · omega
  have hkey1 : c_string_at f.mname 0 = K ++ [40] ++ tmpsig ++ [41] :=
    c_string_at_prefix f.mname _ hK hz1
  have hpre2 := prefix_store f (K ++ [40] ++ tmpsig ++ [41] ++ [0]) [0] K.length hK
    (by simp)
  have htake : (K ++ [40] ++ tmpsig ++ [41] ++ [0]).take K.length = K := by
    simp [List.append_assoc, List.take_append_of_le_length]
  rw [htake] at hpre2
  have hkey2 : c_string_at (mem_write f.mname K.length [0]) 0 = K :=
    c_string_at_prefix _ K hpre2 hKz
  constructor
  · intro v hv
    simp only [icall_probe, log_mname, hkey1, hv, icall_exit, log_events, if_true]
    simp [control_events_append, control_events]
  · intro hnone v hv
    simp only [icall_probe, log_mname, store_mname, hkey1, hnone, hkey2, hv, icall_exit,
      log_events, if_true, Frame.store]
    simp [control_events_append, control_events]

theorem class_display_name_zero_free (name_space name : List Nat)
    (h1 : ∀ b ∈ name_space, b ≠ 0) (h2 : ∀ b ∈ name, b ≠ 0) :
    ∀ b ∈ class_display_name name_space name, b ≠ 0 := by
  intro b hb
  unfold class_display_name at hb
  split at hb
  · exact h2 b hb
  · simp only [List.mem_append, List.mem_singleton] at hb
    rcases hb with (hb | hb) | hb
    · exact h1 b hb
    · omega
    · exact h2 b hb

/-- What `icall_names_wf` says: no NUL in the key without signature nor in the signature
description, and classes that have a name. -/
theorem icall_names_wf_spec (m : MonoMethodDef) (h : icall_names_wf m = true) :
    (∀ b ∈ icall_key_unqualified m, b ≠ 0)
    ∧ (∀ b ∈ m.signature_desc, b ≠ 0)
    ∧ m.klass.name ≠ []
    ∧ (∀ outer, m.klass.nested_in = some outer → outer.name ≠ []) := by
  simp only [icall_names_wf, Bool.and_eq_true, List.all_eq_true, bne_iff_ne, ne_eq] at h
  obtain ⟨⟨⟨⟨⟨hns, hcn⟩, hmn⟩, hsig⟩, hne⟩, hnest⟩ := h
  have hin := class_display_name_zero_free m.klass.name_space m.klass.name hns hcn
  refine ⟨?_, hsig, hne, ?_⟩
  · intro b hb
    simp only [icall_key_unqualified, List.mem_append] at hb
    rcases hb with (hb | hb) | hb
    · unfold icall_type_name at hb
      cases hn : m.klass.nested_in with
      | none =>
        rw [hn] at hb
        exact hin b hb
      | some outer =>
        rw [hn] at hb hnest
        simp only [Bool.and_eq_true, List.all_eq_true, bne_iff_ne, ne_eq] at hnest
        simp only [List.mem_append, List.mem_singleton] at hb
        rcases hb with (hb | hb) | hb
        · exact class_display_name_zero_free outer.name_space outer.name hnest.1.1 hnest.1.2
            b hb
        · omega
        · exact hin b hb
    · simp only [List.mem_cons, List.mem_singleton, List.mem_nil_iff, or_false] at hb
      omega
    · exact hmn b hb
  · intro outer hn
    rw [hn] at hnest
    simp only [Bool.and_eq_true, List.all_eq_true, bne_iff_ne, ne_eq] at hnest
    exact hnest.2

/-- For a method that is not the constructor of `String` and whose key fits the buffer,
the resolver reaches its probes with a buffer that holds the key with the signature, and
it has not touched the mutex nor the tables before. -/
theorem lookup_reaches_probe (st : IcallState) (mname : List Nat) (m : MonoMethodDef)
    (warn_on_missing : Bool) (flags : Option Nat)
    (hwf : icall_names_wf m = true) (hfit : icall_key_fits m = true)
    (hctor : is_string_ctor m = false) :
    ∃ (f : Frame) (classname : List Nat),
      mono_lookup_internal_call_full_with_flags st mname (MonoMethod.method m)
          warn_on_missing flags
        = icall_probe st f m classname (icall_key_unqualified m).length m.name.length
            m.signature_desc.length warn_on_missing flags
      ∧ (icall_key_unqualified m ++ [40] ++ m.signature_desc ++ [41] ++ [0]) <+: f.mname
      ∧ control_events f.events = [] := by
  obtain ⟨_, _, hname, houter⟩ := icall_names_wf_spec m hwf
  simp only [icall_key_fits, decide_eq_true_eq] at hfit
  have ht := icall_type_name_into_fits { mname := mname, events := [] } m.klass hname houter
    (by omega)
  obtain ⟨hlen, hlen0, hpre, hev⟩ := ht
  generalize hr : icall_type_name_into { mname := mname, events := [] } m.klass = r
    at hlen hpre hev
  have hm := icall_method_name_into_prefix r.1 (icall_type_name m.klass) m.name hpre
  have hK : (icall_key_unqualified m).length
      = (icall_type_name m.klass).length + 2 + m.name.length := by
    simp [icall_key_unqualified]
    omega
  have hs := icall_signature_into_prefix
    (icall_method_name_into r.1 (icall_type_name m.klass).length m.name)
    (icall_key_unqualified m) m.signature_desc (by simpa [icall_key_unqualified] using hm.1)
  refine ⟨icall_signature_into
      (icall_method_name_into r.1 (icall_type_name m.klass).length m.name)
      (icall_key_unqualified m).length m.signature_desc,
    c_string_at r.1.mname 0, ?_, hs.1, ?_⟩
  · simp only [mono_lookup_internal_call_full_with_flags, hr, hlen, strlen]
    have hb : ((icall_type_name m.klass).length == 0) = false := by simp [hlen0]
    have hc : (m.klass.is_string_class && m.name == c_str ".ctor") = false := hctor
    simp only [hb, Bool.false_eq_true, if_false, hc]
    rw [if_neg (by omega), hK]
  · rw [hs.2, hm.2, hev]
    rfl

/-! ## Lemmas on the registry -/

theorem g_hash_table_lookup_filter (t : GHashTable) (k key : List Nat) (h : key ≠ k) :
    g_hash_table_lookup (t.filter (fun e => e.1 != k)) key = g_hash_table_lookup t key := by
  induction t with
  | nil => rfl
  | cons e t ih =>
    obtain ⟨k', v⟩ := e
    by_cases hk : k' = k
    · subst hk
      have hne : ¬ k' = key := fun h' => h h'.symm
      simp [List.filter, g_hash_table_lookup, hne, ih]
    · have hb : (k' != k) = true := by simp [hk]
      simp only [List.filter, hb, g_hash_table_lookup, ih]

theorem g_hash_table_lookup_insert_same (t : GHashTable) (k : List Nat)
    (v : MonoIcallHashTableValue) :
    g_hash_table_lookup (g_hash_table_insert t k v) k = some v := by
  simp [g_hash_table_insert, g_hash_table_lookup]

theorem g_hash_table_lookup_insert_other (t : GHashTable) (k key : List Nat)
    (v : MonoIcallHashTableValue) (h : key ≠ k) :
    g_hash_table_lookup (g_hash_table_insert t k v) key = g_hash_table_lookup t key := by
  have hne : ¬ k = key := fun h' => h h'.symm
  simp only [g_hash_table_insert, g_hash_table_lookup, hne, if_false]
  exact g_hash_table_lookup_filter t k key h

theorem mem_control_events (e : IcallEvent) (events : List IcallEvent)
    (h : e ∈ events) (hw : ∀ i n, e ≠ IcallEvent.write i n) : e ∈ control_events events := by
  unfold control_events
  rw [List.mem_filter]
  refine ⟨h, ?_⟩
  cases e <;> simp_all

theorem lookup_declaring (st : IcallState) (mname : List Nat) (method : MonoMethod)
    (warn_on_missing : Bool) (flags : Option Nat) :
    mono_lookup_internal_call_full_with_flags st mname method warn_on_missing flags
      = mono_lookup_internal_call_full_with_flags st mname
          (MonoMethod.method (mono_method_declaring method)) warn_on_missing flags := by
  cases method <;> rfl

/-- A hit under the key with the signature: the resolver answers that entry, having taken
the mutex, probed the table once and released the mutex. -/
theorem lookup_qualified_hit (st : IcallState) (mname : List Nat) (method : MonoMethod)
    (warn_on_missing : Bool) (flags : Option Nat) (v : MonoIcallHashTableValue)
    (hwf : icall_names_wf (mono_method_declaring method) = true)
    (hfit : icall_key_fits (mono_method_declaring method) = true)
    (hctor : is_string_ctor (mono_method_declaring method) = false)
    (hv : g_hash_table_lookup st.icall_hash (icall_key_qualified (mono_method_declaring method))
      = some v) :
    (mono_lookup_internal_call_full_with_flags st mname method warn_on_missing flags).res
        = v.method
    ∧ (mono_lookup_internal_call_full_with_flags st mname method warn_on_missing flags).flags
        = flags.map (fun _ => v.flags)
    ∧ control_events
        (mono_lookup_internal_call_full_with_flags st mname method warn_on_missing flags).events
        = [IcallEvent.lock,
            IcallEvent.probe (icall_key_qualified (mono_method_declaring method)),
            IcallEvent.unlock] := by
  rw [lookup_declaring]
  obtain ⟨f, classname, heq, hpre, hev⟩ := lookup_reaches_probe st mname
    (mono_method_declaring method) warn_on_missing flags hwf hfit hctor
  obtain ⟨hKz, hsz, _, _⟩ := icall_names_wf_spec _ hwf
  have hp := (icall_probe_registry st f (mono_method_declaring method) classname
    (icall_key_unqualified (mono_method_declaring method))
    (mono_method_declaring method).signature_desc (mono_method_declaring method).name.length
    (mono_method_declaring method).signature_desc.length warn_on_missing flags hpre hKz hsz).1
    v hv
  rw [heq]
  refine ⟨hp.1, hp.2.1, ?_⟩
  rw [hp.2.2, hev]
  rfl

/-- A miss under the key with the signature and a hit under the key without it: the
resolver answers that entry, having taken the mutex, probed the table twice and released
the mutex. -/
theorem lookup_unqualified_hit (st : IcallState) (mname : List Nat) (method : MonoMethod)
    (warn_on_missing : Bool) (flags : Option Nat) (v : MonoIcallHashTableValue)
    (hwf : icall_names_wf (mono_method_declaring method) = true)
    (hfit : icall_key_fits (mono_method_declaring method) = true)
    (hctor : is_string_ctor (mono_method_declaring method) = false)
    (hnone : g_hash_table_lookup st.icall_hash
      (icall_key_qualified (mono_method_declaring method)) = none)
    (hv : g_hash_table_lookup st.icall_hash
      (icall_key_unqualified (mono_method_declaring method)) = some v) :
    (mono_lookup_internal_call_full_with_flags st mname method warn_on_missing flags).res
        = v.method
    ∧ (mono_lookup_internal_call_full_with_flags st mname method warn_on_missing flags).flags
        = flags.map (fun _ => v.flags)
    ∧ control_events
        (mono_lookup_internal_call_full_with_flags st mname method warn_on_missing flags).events
        = [IcallEvent.lock,
            IcallEvent.probe (icall_key_qualified (mono_method_declaring method)),
            IcallEvent.probe (icall_key_unqualified (mono_method_declaring method)),
            IcallEvent.unlock] := by
  rw [lookup_declaring]
  obtain ⟨f, classname, heq, hpre, hev⟩ := lookup_reaches_probe st mname
    (mono_method_declaring method) warn_on_missing flags hwf hfit hctor
  obtain ⟨hKz, hsz, _, _⟩ := icall_names_wf_spec _ hwf
  have hp := (icall_probe_registry st f (mono_method_declaring method) classname
    (icall_key_unqualified (mono_method_declaring method))
    (mono_method_declaring method).signature_desc (mono_method_declaring method).name.length
    (mono_method_declaring method).signature_desc.length warn_on_missing flags hpre hKz hsz).2
    hnone v hv
  rw [heq]
  refine ⟨hp.1, hp.2.1, ?_⟩
  rw [hp.2.2, hev]
  rfl

theorem icall_key_qualified_ne_unqualified (m : MonoMethodDef) :
    icall_key_qualified m ≠ icall_key_unqualified m := by
  intro h
  have h1 := congrArg List.length h
  simp [icall_key_qualified] at h1

/-- A key that does not fit the buffer, the type name fitting: the resolver answers null
and touches neither the mutex nor the tables. -/
theorem lookup_key_too_long (st : IcallState) (mname : List Nat) (method : MonoMethod)
    (warn_on_missing : Bool) (flags : Option Nat)
    (hname : (mono_method_declaring method).klass.name ≠ [])
    (houter : ∀ outer, (mono_method_declaring method).klass.nested_in = some outer →
      outer.name ≠ [])
    (htype : (icall_type_name (mono_method_declaring method).klass).length + 6 ≤ MNAME_SIZE)
    (hlong : (icall_type_name (mono_method_declaring method).klass).length
      + (mono_method_declaring method).name.length
      + (mono_method_declaring method).signature_desc.length + 6 > MNAME_SIZE) :
    (mono_lookup_internal_call_full_with_flags st mname method warn_on_missing flags).res
        = IcallPointer.NULL
    ∧ (mono_lookup_internal_call_full_with_flags st mname method warn_on_missing flags).flags
        = flags
    ∧ control_events
        (mono_lookup_internal_call_full_with_flags st mname method warn_on_missing flags).events
        = [] := by
  rw [lookup_declaring]
  generalize mono_method_declaring method = m at *
  have ht := icall_type_name_into_fits { mname := mname, events := [] } m.klass hname houter
    htype
  obtain ⟨hlen, hlen0, hpre, hev⟩ := ht
  generalize hr : icall_type_name_into { mname := mname, events := [] } m.klass = r
    at hlen hpre hev
  have hm := icall_method_name_into_prefix r.1 (icall_type_name m.klass) m.name hpre
  have hb : ((icall_type_name m.klass).length == 0) = false := by simp [hlen0]
  simp only [mono_lookup_internal_call_full_with_flags, hr, hlen, strlen, hb,
    Bool.false_eq_true, if_false]
  rw [if_pos hlong]
  refine ⟨rfl, rfl, ?_⟩
  simp only [icall_exit, Bool.false_eq_true, if_false]
  rw [hm.2, hev]
  rfl

theorem long_method_too_long :
    (icall_type_name (mono_method_declaring (MonoMethod.method long_method)).klass).length
      + (mono_method_declaring (MonoMethod.method long_method)).name.length
      + (mono_method_declaring (MonoMethod.method long_method)).signature_desc.length + 6
      > MNAME_SIZE := by
  have h1 : (mono_method_declaring (MonoMethod.method long_method)).name.length = 2040 :=
    List.length_replicate 2040 97
  have h2 : (icall_type_name (mono_method_declaring (MonoMethod.method long_method)).klass).length
      = 3 := by decide
  have h3 : (mono_method_declaring (MonoMethod.method long_method)).signature_desc.length
      = 3 := by decide
  rw [h1, h2, h3]
  simp only [MNAME_SIZE]
  omega

/-! ## Lemmas on floating point destinations -/

/-- The slot of a store that writes `bs`, of the size of an element, at the address of
slot `pos`: the slot holds `bs` and the other slots are as before. -/
theorem slot_mem_write (arr : MonoArray) (pos : Nat) (bs : List Nat)
    (hlen : arr.vector.length = arr.max_length * arr.element_size)
    (hpos : pos < arr.max_length) (hbs : bs.length = arr.element_size) :
    MonoArray.slot { arr with vector := mem_write arr.vector (arr.element_size * pos) bs } pos
        = bs
    ∧ ∀ q, q ≠ pos →
        MonoArray.slot { arr with vector := mem_write arr.vector (arr.element_size * pos) bs } q
          = arr.slot q := by
  have hw := write_slot arr.vector arr.element_size arr.max_length pos bs hlen hpos hbs
  exact ⟨hw.1, fun q hq => hw.2.1 q hq⟩

/-- A value of an integer kind converted into a slot of a floating point kind: no error,
and the conversion of the integer written into the slot. -/
theorem array_set_value_impl_integer_into_real (rt : MonoRuntime) (arr : MonoArray)
    (value : MonoObject) (pos : Nat) (strict_enums strict_signs : Bool) (S D : Nat)
    (hS : S ∈ signed_kinds ∨ S ∈ unsigned_kinds) (hD : D ∈ real_kinds)
    (hvc : is_primitive_of value.klass S = true)
    (hec : is_primitive_of arr.element_class D = true)
    (hinst : rt.isinst value arr.element_class = true → value.klass = arr.element_class)
    (hpayload : value.payload.length = mono_class_value_size value.klass) :
    array_set_value_impl rt arr (some value) pos strict_enums strict_signs
      = (MonoError.ok,
          { arr with vector := (mem_write arr.vector (arr.element_size * pos)
              (le_encode (kind_size D)
                (if S ∈ signed_kinds then
                  (if D = MONO_TYPE_R4 then
                    rt.i64_to_r4 (sign_extend (kind_size S) (le_decode value.payload))
                  else rt.i64_to_r8 (sign_extend (kind_size S) (le_decode value.payload)))
                else
                  (if D = MONO_TYPE_R4 then rt.u64_to_r4 (le_decode value.payload)
                  else rt.u64_to_r8 (le_decode value.payload))))) }) := by
  obtain ⟨_, _, _, hSs⟩ := (is_primitive_of_iff _ _).1 hvc
  have hpl : value.payload.length = kind_size S := by rw [hpayload, hSs]
  have htake : value.payload.take (kind_size S) = value.payload := by
    rw [← hpl]; exact List.take_length value.payload
  obtain ⟨hDstr, hDbool, hDval⟩ := numeric_kind_tags D (Or.inr (Or.inr hD))
  obtain ⟨_, _, hSval⟩ := numeric_kind_tags S (hS.elim Or.inl (fun h => Or.inr (Or.inl h)))
  have hne : S ≠ D := by
    intro h
    subst h
    rcases hS with hS | hS
    · exact ((kind_families_disjoint S).1 hS).2 hD
    · exact (kind_families_disjoint S).2 hS hD
  have hi := isinst_false_of_kind_ne rt arr value S D hvc hec hinst hne
  have h4 : (kind_size D == 4) = decide (D = MONO_TYPE_R4) := by
    simp only [real_kinds, List.mem_cons, List.mem_singleton, List.mem_nil_iff, or_false] at hD
    rcases hD with h | h <;> subst h <;> decide
  rw [array_set_value_impl_convert rt arr value pos strict_enums strict_signs S D hvc hec
    hDstr hDbool hDval hSval hi, assign_element_real rt D hD]
  rcases hS with hS | hS
  · obtain ⟨hsig, huns, hreal, _⟩ := kind_classes_signed S hS
    rw [load_value_signed rt S hS]
    simp [is_ok, ASSIGN_REAL, hsig, huns, hreal, htake, hS, h4]
  · obtain ⟨hsig, huns, hreal, _⟩ := kind_classes_unsigned S hS
    have hns : S ∉ signed_kinds := fun h => ((kind_families_disjoint S).1 h).1 hS
    rw [load_value_unsigned rt S hS]
    simp [is_ok, ASSIGN_REAL, hsig, huns, hreal, htake, hns, h4]

/-- A value of a floating point kind converted into a slot of a floating point kind, the
assignability check having refused the direct copy: the error of the size check, and the
value, read as a double and converted to the type of the element, written into the
slot. -/
theorem array_set_value_impl_real_into_real (rt : MonoRuntime) (arr : MonoArray)
    (value : MonoObject) (pos : Nat) (strict_enums strict_signs : Bool) (S D : Nat)
    (hS : S ∈ real_kinds) (hD : D ∈ real_kinds)
    (hvc : is_primitive_of value.klass S = true)
    (hec : is_primitive_of arr.element_class D = true)
    (hi : rt.isinst value arr.element_class = false)
    (hesize : arr.element_size = mono_class_value_size arr.element_class)
    (hpayload : value.payload.length = mono_class_value_size value.klass) :
    array_set_value_impl rt arr (some value) pos strict_enums strict_signs
      = (CHECK_WIDENING_CONVERSION (kind_size D) (kind_size S) 0,
          { arr with vector := (mem_write arr.vector (arr.element_size * pos)
              (le_encode (kind_size D)
                (if D = MONO_TYPE_R4 then
                  rt.r8_to_r4 (if S = MONO_TYPE_R4 then rt.r4_to_r8 (le_decode value.payload)
                    else le_decode value.payload)
                else (if S = MONO_TYPE_R4 then rt.r4_to_r8 (le_decode value.payload)
                  else le_decode value.payload)))) }) := by
  obtain ⟨_, _, _, hSs⟩ := (is_primitive_of_iff _ _).1 hvc
  obtain ⟨_, _, _, hDs⟩ := (is_primitive_of_iff _ _).1 hec
  have hes : arr.element_size = kind_size D := by rw [hesize, hDs]
  have hpl : value.payload.length = kind_size S := by rw [hpayload, hSs]
  have htake : value.payload.take (kind_size S) = value.payload := by
    rw [← hpl]; exact List.take_length value.payload
  obtain ⟨hDstr, hDbool, hDval⟩ := numeric_kind_tags D (Or.inr (Or.inr hD))
  obtain ⟨_, _, hSval⟩ := numeric_kind_tags S (Or.inr (Or.inr hS))
  rw [array_set_value_impl_convert rt arr value pos strict_enums strict_signs S D hvc hec
    hDstr hDbool hDval hSval hi, assign_element_real rt D hD]
  have h4 : kind_size MONO_TYPE_R4 = 4 := by decide
  have h8 : kind_size MONO_TYPE_R8 = 8 := by decide
  simp only [real_kinds, List.mem_cons, List.mem_singleton, List.mem_nil_iff, or_false] at hS hD
  rcases hS with h | h <;> subst h <;> rcases hD with h | h <;> subst h <;>
    simp only [h4, h8] at htake <;>
    simp [fold_native, load_value, is_ok, ASSIGN_REAL, is_real_kind, hes, kind_size, htake]

/-! ## Lemmas on every path of the resolver -/

theorem concat_class_name_control (f : Frame) (buf bufsize : Nat) (name_space name : List Nat) :
    control_events (concat_class_name f buf bufsize name_space name).1.events
      = control_events f.events := by
  unfold concat_class_name
  simp only [strlen]
  split
  · rfl
  · split <;> simp only [store_control_events]

theorem concat_class_name_too_long (f : Frame) (buf bufsize : Nat) (name_space name : List Nat)
    (h : name_space.length + name.length + 2 > bufsize) :
    concat_class_name f buf bufsize name_space name = (f, 0) := by
  unfold concat_class_name
  simp only [strlen]
  rw [if_pos h]

theorem concat_class_name_len (f : Frame) (buf bufsize : Nat) (name_space name : List Nat)
    (h : name_space.length + name.length + 2 ≤ bufsize) :
    (concat_class_name f buf bufsize name_space name).2
      = (class_display_name name_space name).length := by
  unfold concat_class_name
  simp only [strlen]
  rw [if_neg (by omega), class_display_name_length]

/-- The value of `concat_class_name` is 0 or the length of the class name. -/
theorem concat_class_name_len_cases (f : Frame) (buf bufsize : Nat)
    (name_space name : List Nat) :
    (concat_class_name f buf bufsize name_space name).2 = 0
    ∨ (concat_class_name f buf bufsize name_space name).2
        = (class_display_name name_space name).length := by
  by_cases h : name_space.length + name.length + 2 > bufsize
  · left; rw [concat_class_name_too_long f buf bufsize name_space name h]
  · right; exact concat_class_name_len f buf bufsize name_space name (by omega)

theorem icall_type_name_into_control (f : Frame) (klass : MonoMethodClass) :
    control_events (icall_type_name_into f klass).1.events = control_events f.events := by
  unfold icall_type_name_into
  cases klass.nested_in with
  | none => exact concat_class_name_control f 0 MNAME_SIZE klass.name_space klass.name
  | some outer =>
    simp only []
    split
    · exact concat_class_name_control f 0 (MNAME_SIZE - 2) outer.name_space outer.name
    · split
      · rw [concat_class_name_control, store_control_events, store_control_events,
          concat_class_name_control]
      · rw [concat_class_name_control, store_control_events, store_control_events,
          concat_class_name_control]

/-- The length `typelen` that the resolver computes is 0 or the length of the name of the
declaring type. -/
theorem icall_type_name_into_len (f : Frame) (klass : MonoMethodClass) :
    (icall_type_name_into f klass).2 = 0
    ∨ (icall_type_name_into f klass).2 = (icall_type_name klass).length := by
  unfold icall_type_name_into icall_type_name
  cases klass.nested_in with
  | none => exact concat_class_name_len_cases f 0 MNAME_SIZE klass.name_space klass.name
  | some outer =>
    simp only []
    split
    · left; rfl
    · rename_i hpos
      split
      · left; rfl
      · rename_i hlen
        right
        rcases concat_class_name_len_cases f 0 (MNAME_SIZE - 2) outer.name_space outer.name
          with h1 | h1
        · exfalso; apply hpos; simp [h1]
        · generalize concat_class_name f 0 (MNAME_SIZE - 2) outer.name_space outer.name = r1
            at *
          rcases concat_class_name_len_cases ((r1.1.store r1.2 [47]).store (r1.2 + 1) [0])
            (r1.2 + 1) (MNAME_SIZE - (r1.2 + 1) - 1) klass.name_space klass.name with h2 | h2
          · exfalso; apply hlen; simp [h2]
          · rw [h2, h1]
            simp only [List.length_append, List.length_singleton]
            omega

theorem icall_method_name_into_control (f : Frame) (typelen : Nat) (name : List Nat) :
    control_events (icall_method_name_into f typelen name).events = control_events f.events := by
  simp only [icall_method_name_into, store_control_events]

theorem icall_signature_into_control (f : Frame) (sigstart : Nat) (tmpsig : List Nat) :
    control_events (icall_signature_into f sigstart tmpsig).events
      = control_events f.events := by
  simp only [icall_signature_into, store_control_events]

/-- A key that the resolver finds too long for its buffer: the resolver answers null and
touches neither the mutex nor the tables, whatever the names. -/
theorem lookup_not_fits (st : IcallState) (mname : List Nat) (m : MonoMethodDef)
    (warn_on_missing : Bool) (flags : Option Nat) (h : icall_key_fits m = false) :
    (mono_lookup_internal_call_full_with_flags st mname (MonoMethod.method m) warn_on_missing
        flags).res = IcallPointer.NULL
    ∧ (mono_lookup_internal_call_full_with_flags st mname (MonoMethod.method m) warn_on_missing
        flags).flags = flags
    ∧ control_events (mono_lookup_internal_call_full_with_flags st mname (MonoMethod.method m)
        warn_on_missing flags).events = [] := by
  simp only [icall_key_fits, decide_eq_false_iff_not, not_le] at h
  have hc := icall_type_name_into_control { mname := mname, events := [] } m.klass
  have hl := icall_type_name_into_len { mname := mname, events := [] } m.klass
  generalize hr' : icall_type_name_into { mname := mname, events := [] } m.klass = r at hc hl
  simp only [mono_lookup_internal_call_full_with_flags, strlen, hr']
  by_cases h0 : r.2 = 0
  · simp only [h0, beq_self_eq_true, if_true, icall_exit, Bool.false_eq_true, if_false]
    exact ⟨trivial, trivial, by rw [hc]; rfl⟩
  · have hr : r.2 = (icall_type_name m.klass).length := by
      rcases hl with hl | hl
      · exact absurd hl h0
      · exact hl
    have hb : (r.2 == 0) = false := by simp [h0]
    simp only [hb, Bool.false_eq_true, if_false]
    rw [if_pos (by rw [hr]; exact h)]
    simp only [icall_exit, Bool.false_eq_true, if_false]
    exact ⟨trivial, trivial, by rw [icall_method_name_into_control, hc]; rfl⟩

/-- For a method whose key fits the buffer, the resolver reaches the test for the
constructor of `String` with a buffer that holds the key with the signature, and it has
not touched the mutex nor the tables before. -/
theorem lookup_reaches_signature (st : IcallState) (mname : List Nat) (m : MonoMethodDef)
    (warn_on_missing : Bool) (flags : Option Nat)
    (hwf : icall_names_wf m = true) (hfit : icall_key_fits m = true) :
    ∃ (f : Frame) (classname : List Nat),
      mono_lookup_internal_call_full_with_flags st mname (MonoMethod.method m)
          warn_on_missing flags
        = (if is_string_ctor m then
            icall_exit f false IcallPointer.ves_icall_System_String_ctor_RedirectToCreateString
              flags
          else icall_probe st f m classname (icall_key_unqualified m).length m.name.length
            m.signature_desc.length warn_on_missing flags)
      ∧ (icall_key_unqualified m ++ [40] ++ m.signature_desc ++ [41] ++ [0]) <+: f.mname
      ∧ control_events f.events = [] := by
  obtain ⟨_, _, hname, houter⟩ := icall_names_wf_spec m hwf
  simp only [icall_key_fits, decide_eq_true_eq] at hfit
  have ht := icall_type_name_into_fits { mname := mname, events := [] } m.klass hname houter
    (by omega)
  obtain ⟨hlen, hlen0, hpre, hev⟩ := ht
  generalize hr : icall_type_name_into { mname := mname, events := [] } m.klass = r
    at hlen hpre hev
  have hm := icall_method_name_into_prefix r.1 (icall_type_name m.klass) m.name hpre
  have hK : (icall_key_unqualified m).length
      = (icall_type_name m.klass).length + 2 + m.name.length := by
    simp [icall_key_unqualified]
    omega
  have hs := icall_signature_into_prefix
    (icall_method_name_into r.1 (icall_type_name m.klass).length m.name)
    (icall_key_unqualified m) m.signature_desc (by simpa [icall_key_unqualified] using hm.1)
  refine ⟨icall_signature_into
      (icall_method_name_into r.1 (icall_type_name m.klass).length m.name)
      (icall_key_unqualified m).length m.signature_desc,
    c_string_at r.1.mname 0, ?_, hs.1, ?_⟩
  · simp only [mono_lookup_internal_call_full_with_flags, hr, hlen, strlen]
    have hb : ((icall_type_name m.klass).length == 0) = false := by simp [hlen0]
    simp only [hb, Bool.false_eq_true, if_false, is_string_ctor]
    rw [if_neg (by omega), hK]
  · rw [hs.2, hm.2, hev]
    rfl

/-- The probes of the resolver on a buffer that holds the key `K ++ "(" ++ sig ++ ")"`,
when the hash table has an entry under neither key: without a secondary table the answer
is `no_icall_table`; with one, the answer is that of its `lookup`, and null when that is
null, the warning being printed when asked for. -/
theorem icall_probe_miss (st : IcallState) (f : Frame) (method : MonoMethodDef)
    (classname K tmpsig : List Nat) (mlen siglen : Nat) (warn_on_missing : Bool)
    (flags : Option Nat)
    (hK : (K ++ [40] ++ tmpsig ++ [41] ++ [0]) <+: f.mname)
    (hKz : ∀ b ∈ K, b ≠ 0) (hsz : ∀ b ∈ tmpsig, b ≠ 0)
    (h1 : g_hash_table_lookup st.icall_hash (K ++ [40] ++ tmpsig ++ [41]) = none)
    (h2 : g_hash_table_lookup st.icall_hash K = none) :
    (st.icall_table = none →
      (icall_probe st f method classname K.length mlen siglen warn_on_missing flags).res
          = IcallPointer.no_icall_table
      ∧ (icall_probe st f method classname K.length mlen siglen warn_on_missing flags).flags
          = flags
      ∧ control_events
          (icall_probe st f method classname K.length mlen siglen warn_on_missing flags).events
          = control_events f.events
            ++ [IcallEvent.lock, IcallEvent.probe (K ++ [40] ++ tmpsig ++ [41]),
                IcallEvent.probe K, IcallEvent.unlock])
    ∧ (∀ table, st.icall_table = some table →
      (icall_probe st f method classname K.length mlen siglen warn_on_missing flags).res
          = (table.lookup method classname
              (c_string_at (mem_write f.mname K.length [0]) (K.length - mlen))
              (mem_read (mem_write f.mname K.length [0]) K.length (siglen + 3))).1
      ∧ control_events
          (icall_probe st f method classname K.length mlen siglen warn_on_missing flags).events
          = control_events f.events
            ++ [IcallEvent.lock, IcallEvent.probe (K ++ [40] ++ tmpsig ++ [41]),
                IcallEvent.probe K, IcallEvent.table_lookup, IcallEvent.unlock]
            ++ (if (table.lookup method classname
                  (c_string_at (mem_write f.mname K.length [0]) (K.length - mlen))
                  (mem_read (mem_write f.mname K.length [0]) K.length (siglen + 3))).1
                  = IcallPointer.NULL ∧ warn_on_missing = true
                then [IcallEvent.warning] else [])) := by
  have hz1 : ∀ b ∈ K ++ [40] ++ tmpsig ++ [41], b ≠ 0 := by
    intro b hb
    simp only [List.mem_append, List.mem_singleton] at hb
    rcases hb with ((hb | hb) | hb) | hb
    · exact hKz b hb
    · omega
    · exact hsz b hb
    · omega
  have hkey1 : c_string_at f.mname 0 = K ++ [40] ++ tmpsig ++ [41] :=
    c_string_at_prefix f.mname _ hK hz1
  have hpre2 := prefix_store f (K ++ [40] ++ tmpsig ++ [41] ++ [0]) [0] K.length hK
    (by simp)
  have htake : (K ++ [40] ++ tmpsig ++ [41] ++ [0]).take K.length = K := by
    simp [List.append_assoc, List.take_append_of_le_length]
  rw [htake] at hpre2
  have hkey2 : c_string_at (mem_write f.mname K.length [0]) 0 = K :=
    c_string_at_prefix _ K hpre2 hKz
  constructor
  · intro ht
    simp only [icall_probe, log_mname, store_mname, hkey1, h1, hkey2, h2, ht, icall_exit,
      log_events, if_true, Frame.store]
    simp [control_events_append, control_events]
  · intro table ht
    simp only [icall_probe, log_mname, store_mname, hkey1, h1, hkey2, h2, ht]
    generalize table.lookup method classname
      (c_string_at (mem_write f.mname K.length [0]) (K.length - mlen))
      (mem_read (mem_write f.mname K.length [0]) K.length (siglen + 3)) = found
    by_cases hn : found.1 = IcallPointer.NULL
    · cases warn_on_missing <;>
        simp [hn, icall_exit, log_events, Frame.store, control_events_append, control_events]
    · cases warn_on_missing <;>
        simp [hn, icall_exit, log_events, Frame.store, control_events_append, control_events]

/-! ## Lemmas on the discipline of the mutex -/

theorem lock_run_append (held : Bool) (xs ys : List IcallEvent) :
    lock_run held (xs ++ ys) = (lock_run held xs).bind (fun h => lock_run h ys) := by
  induction xs generalizing held with
  | nil => rfl
  | cons e es ih =>
    simp only [List.cons_append, lock_run]
    cases lock_step held e with
    | none => rfl
    | some h => exact ih h

/-- The writes into the buffer do not touch the mutex. -/
theorem lock_run_control (held : Bool) (es : List IcallEvent) :
    lock_run held es = lock_run held (control_events es) := by
  induction es generalizing held with
  | nil => rfl
  | cons e es ih =>
    have ihf := ih false
    have iht := ih true
    simp only [control_events] at ihf iht ⊢
    cases e <;> cases held <;> simp [lock_run, lock_step, List.filter, ← ihf, ← iht]

/-- A run that keeps the discipline takes the mutex as many times as it releases it, up
to the state of the mutex before and after. -/
theorem lock_run_balance (held held' : Bool) (es : List IcallEvent)
    (h : lock_run held es = some held') :
    es.count IcallEvent.lock + (if held then 1 else 0)
      = es.count IcallEvent.unlock + (if held' then 1 else 0) := by
  induction es generalizing held with
  | nil =>
    simp only [lock_run, Option.some.injEq] at h
    subst h
    simp
  | cons e es ih =>
    simp only [lock_run] at h
    cases e <;> cases held <;> simp [lock_step] at h <;>
      have hb := ih _ h <;> simp [List.count_cons] at hb ⊢ <;> omega

theorem probe_keys_append (xs ys : List IcallEvent) :
    probe_keys (xs ++ ys) = probe_keys xs ++ probe_keys ys := by
  induction xs with
  | nil => rfl
  | cons e es ih => cases e <;> simp [probe_keys, ih]

/-- The writes into the buffer are no probes. -/
theorem probe_keys_control (es : List IcallEvent) :
    probe_keys es = probe_keys (control_events es) := by
  induction es with
  | nil => rfl
  | cons e es ih =>
    simp only [control_events] at ih ⊢
    cases e <;> simp [probe_keys, List.filter, ← ih]

/-- The last part of the resolver keeps the discipline of the mutex on each of its
paths, and leaves the mutex released. -/
theorem icall_probe_lock (st : IcallState) (f : Frame) (method : MonoMethodDef)
    (classname : List Nat) (sigstart mlen siglen : Nat) (warn_on_missing : Bool)
    (flags : Option Nat) (hf : control_events f.events = []) :
    lock_run false
      (icall_probe st f method classname sigstart mlen siglen warn_on_missing flags).events
      = some false := by
  rw [lock_run_control]
  have hf := hf
  simp only [control_events] at hf
  unfold icall_probe
  simp only [log_mname, store_mname]
  split
  · simp [icall_exit, log_events, control_events_append, hf, control_events, lock_run,
      lock_step]
  · split
    · simp [icall_exit, log_events, Frame.store, control_events_append, hf, control_events,
        lock_run, lock_step]
    · split
      · simp [icall_exit, log_events, Frame.store, control_events_append, hf, control_events,
          lock_run, lock_step]
      · rename_i table _
        generalize table.lookup method classname
          (c_string_at (mem_write f.mname sigstart [0]) (sigstart - mlen))
          (mem_read (mem_write f.mname sigstart [0]) sigstart (siglen + 3)) = found
        by_cases hn : found.1 = IcallPointer.NULL
        · cases warn_on_missing <;>
            simp [hn, icall_exit, log_events, Frame.store, control_events_append, hf,
              control_events, lock_run, lock_step]
        · cases warn_on_missing <;>
            simp [hn, icall_exit, log_events, Frame.store, control_events_append, hf,
              control_events, lock_run, lock_step]

/-- The resolver keeps the discipline of the mutex on each of its paths, and leaves the
mutex released. -/
theorem lookup_lock (st : IcallState) (mname : List Nat) (method : MonoMethod)
    (warn_on_missing : Bool) (flags : Option Nat) :
    lock_run false
      (mono_lookup_internal_call_full_with_flags st mname method warn_on_missing flags).events
      = some false := by
  rw [lookup_declaring]
  generalize mono_method_declaring method = m
  have hc := icall_type_name_into_control { mname := mname, events := [] } m.klass
  generalize hr : icall_type_name_into { mname := mname, events := [] } m.klass = r at hc
  have hc0 : control_events r.1.events = [] := by rw [hc]; rfl
  simp only [mono_lookup_internal_call_full_with_flags, strlen, hr]
  split
  · rw [lock_run_control]
    simp [icall_exit, hc0, lock_run]
  · split
    · rw [lock_run_control]
      simp [icall_exit, icall_method_name_into_control, hc0, lock_run]
    · split
      · rw [lock_run_control]
        simp [icall_exit, icall_signature_into_control, icall_method_name_into_control, hc0,
          lock_run]
      · apply icall_probe_lock
        rw [icall_signature_into_control, icall_method_name_into_control, hc0]

/-- The keys that the last part of the resolver probes, on a buffer that holds the key
`K ++ "(" ++ sig ++ ")"`: that key and, when the hash table has no entry under it, the
key `K`. -/
theorem icall_probe_keys (st : IcallState) (f : Frame) (method : MonoMethodDef)
    (classname K tmpsig : List Nat) (mlen siglen : Nat) (warn_on_missing : Bool)
    (flags : Option Nat)
    (hK : (K ++ [40] ++ tmpsig ++ [41] ++ [0]) <+: f.mname)
    (hKz : ∀ b ∈ K, b ≠ 0) (hsz : ∀ b ∈ tmpsig, b ≠ 0)
    (hf : control_events f.events = []) :
    probe_keys
        (icall_probe st f method classname K.length mlen siglen warn_on_missing flags).events
      = if (g_hash_table_lookup st.icall_hash (K ++ [40] ++ tmpsig ++ [41])).isSome then
          [K ++ [40] ++ tmpsig ++ [41]]
        else [K ++ [40] ++ tmpsig ++ [41], K] := by
  rw [probe_keys_control]
  have hreg := icall_probe_registry st f method classname K tmpsig mlen siglen
    warn_on_missing flags hK hKz hsz
  cases h1 : g_hash_table_lookup st.icall_hash (K ++ [40] ++ tmpsig ++ [41]) with
  | some v =>
    rw [(hreg.1 v h1).2.2, hf]
    simp [probe_keys]
  | none =>
    cases h2 : g_hash_table_lookup st.icall_hash K with
    | some v =>
      rw [(hreg.2 h1 v h2).2.2, hf]
      simp [probe_keys]
    | none =>
      have hmiss := icall_probe_miss st f method classname K tmpsig mlen siglen
        warn_on_missing flags hK hKz hsz h1 h2
      cases ht : st.icall_table with
      | none =>
        rw [(hmiss.1 ht).2.2, hf]
        simp [probe_keys]
      | some table =>
        rw [(hmiss.2 table ht).2, hf]
        split <;> simp [probe_keys]

/-- The keys that the resolver probes: none for the constructor of `String` and for a key
that does not fit the buffer; otherwise the key with the signature and, when the hash
table has no entry under it, the key without the signature. -/
theorem lookup_probe_keys (st : IcallState) (mname : List Nat) (m : MonoMethodDef)
    (warn_on_missing : Bool) (flags : Option Nat) (hwf : icall_names_wf m = true) :
    probe_keys (mono_lookup_internal_call_full_with_flags st mname (MonoMethod.method m)
        warn_on_missing flags).events
      = if is_string_ctor m || !icall_key_fits m then []
        else if (g_hash_table_lookup st.icall_hash (icall_key_qualified m)).isSome then
          [icall_key_qualified m]
        else [icall_key_qualified m, icall_key_unqualified m] := by
  cases hfit : icall_key_fits m with
  | false =>
    rw [probe_keys_control, (lookup_not_fits st mname m warn_on_missing flags hfit).2.2]
    simp [probe_keys]
  | true =>
    obtain ⟨f, classname, heq, hpre, hev⟩ := lookup_reaches_signature st mname m
      warn_on_missing flags hwf hfit
    obtain ⟨hKz, hsz, _, _⟩ := icall_names_wf_spec m hwf
    rw [heq]
    cases hctor : is_string_ctor m with
    | true =>
      rw [probe_keys_control]
      simp [icall_exit, hev, probe_keys]
    | false =>
      simp only [Bool.false_eq_true, if_false, Bool.not_true, Bool.or_false]
      exact icall_probe_keys st f m classname (icall_key_unqualified m) m.signature_desc
        m.name.length m.signature_desc.length warn_on_missing flags hpre hKz hsz hev

/-- A method without entry in the hash table nor in the secondary table: the resolver
answers `no_icall_table` when no secondary table is installed and the key fits the
buffer, and null otherwise. -/
theorem lookup_missing (st : IcallState) (mname : List Nat) (m : MonoMethodDef)
    (warn_on_missing : Bool) (flags : Option Nat)
    (hwf : icall_names_wf m = true) (hctor : is_string_ctor m = false)
    (h1 : g_hash_table_lookup st.icall_hash (icall_key_qualified m) = none)
    (h2 : g_hash_table_lookup st.icall_hash (icall_key_unqualified m) = none)
    (htable : ∀ table, st.icall_table = some table →
      ∀ cn mn sg, (table.lookup m cn mn sg).1 = IcallPointer.NULL) :
    (mono_lookup_internal_call_full_with_flags st mname (MonoMethod.method m) warn_on_missing
        flags).res
      = if st.icall_table.isNone && icall_key_fits m then IcallPointer.no_icall_table
        else IcallPointer.NULL := by
  cases hfit : icall_key_fits m with
  | false =>
    rw [(lookup_not_fits st mname m warn_on_missing flags hfit).1]
    simp
  | true =>
    obtain ⟨f, classname, heq, hpre, hev⟩ := lookup_reaches_signature st mname m
      warn_on_missing flags hwf hfit
    obtain ⟨hKz, hsz, _, _⟩ := icall_names_wf_spec m hwf
    rw [heq]
    simp only [hctor, Bool.false_eq_true, if_false]
    have hmiss := icall_probe_miss st f m classname (icall_key_unqualified m) m.signature_desc
      m.name.length m.signature_desc.length warn_on_missing flags hpre hKz hsz h1 h2
    cases ht : st.icall_table with
    | none =>
      rw [(hmiss.1 ht).1]
      simp
    | some table =>
      rw [(hmiss.2 table ht).1, htable table ht]
      simp

theorem writes_in_bounds_false_of_mem (es : List IcallEvent) (index len : Nat)
    (h : IcallEvent.write index len ∈ es) (hlen : len ≠ 0) (hout : MNAME_SIZE < index + len) :
    writes_in_bounds es = false := by
  unfold writes_in_bounds
  rw [List.all_eq_false]
  refine ⟨IcallEvent.write index len, h, ?_⟩
  simp only [MNAME_SIZE] at hout
  simp only [MNAME_SIZE, Bool.or_eq_true, beq_iff_eq, decide_eq_true_eq, not_or, not_le]
  exact ⟨hlen, hout⟩

/-- A key that does not fit the buffer, the type name having been written: the resolver
has by then written the two colons, the method name and a terminator after the type
name, and it answers null. -/
theorem lookup_too_long_events (st : IcallState) (mname : List Nat) (m : MonoMethodDef)
    (warn_on_missing : Bool) (flags : Option Nat)
    (hlen : (icall_type_name_into { mname := mname, events := [] } m.klass).2
      = (icall_type_name m.klass).length)
    (h0 : (icall_type_name m.klass).length ≠ 0)
    (hlong : (icall_type_name m.klass).length + m.name.length + m.signature_desc.length + 6
      > MNAME_SIZE) :
    (mono_lookup_internal_call_full_with_flags st mname (MonoMethod.method m) warn_on_missing
        flags).res = IcallPointer.NULL
    ∧ (mono_lookup_internal_call_full_with_flags st mname (MonoMethod.method m) warn_on_missing
        flags).events
      = (icall_type_name_into { mname := mname, events := [] } m.klass).1.events
        ++ [IcallEvent.write (icall_type_name m.klass).length 1,
            IcallEvent.write ((icall_type_name m.klass).length + 1) 1,
            IcallEvent.write ((icall_type_name m.klass).length + 2) m.name.length,
            IcallEvent.write ((icall_type_name m.klass).length + 2 + m.name.length) 1] := by
  generalize hr : icall_type_name_into { mname := mname, events := [] } m.klass = r at hlen
  have hb : ((icall_type_name m.klass).length == 0) = false := by simp [h0]
  simp only [mono_lookup_internal_call_full_with_flags, strlen, hr, hlen, hb,
    Bool.false_eq_true, if_false]
  rw [if_pos hlong]
  simp [icall_exit, icall_method_name_into, Frame.store, strlen]

theorem mem_read_of_prefix (mem Q D : List Nat) (h : (Q ++ D) <+: mem) :
    mem_read mem Q.length D.length = D ∧ mem.take Q.length = Q := by
  obtain ⟨R, hR⟩ := h
  rw [← hR]
  unfold mem_read
  constructor
  · rw [List.append_assoc, List.drop_left, List.take_left]
  · rw [List.append_assoc, List.take_left]

/-- What `mono_lookup_internal_call_full` hands out, from what
`mono_lookup_internal_call_full_with_flags` answers when called with a word that holds
`MONO_ICALL_FLAGS_NONE`. -/
theorem lookup_full_eq (K : MonoInternalCallFlags) (st : IcallState) (mname : List Nat)
    (method : MonoMethod) (warn_on_missing : Bool) (uses_handles foreign : Option Bool)
    (w : Nat)
    (hw : (mono_lookup_internal_call_full_with_flags st mname method warn_on_missing
      (some K.MONO_ICALL_FLAGS_NONE)).flags = some w) :
    (mono_lookup_internal_call_full K st mname method warn_on_missing uses_handles
        foreign).addr
      = (mono_lookup_internal_call_full_with_flags st mname method warn_on_missing
          (some K.MONO_ICALL_FLAGS_NONE)).res
    ∧ (mono_lookup_internal_call_full K st mname method warn_on_missing uses_handles
        foreign).foreign
      = foreign.map (fun _ => flags_contain w K.MONO_ICALL_FLAGS_FOREIGN)
    ∧ (mono_lookup_internal_call_full K st mname method warn_on_missing uses_handles
        foreign).uses_handles
      = uses_handles.map (fun _ => flags_contain w K.MONO_ICALL_FLAGS_USES_HANDLES) := by
  simp only [mono_lookup_internal_call_full, hw, flags_contain]
  refine ⟨trivial, ?_, ?_⟩
  · cases foreign <;> split <;> simp_all
  · cases uses_handles <;> split <;> simp_all

/-! ## The error of the conversion path -/

/-- The error that `load_value` leaves depends on the two kinds only. -/
theorem load_value_error_indep (rt rt' : MonoRuntime) (vt et : Nat) (va va' : List Nat) :
    (load_value rt vt et va).2 = (load_value rt' vt et va').2 := by
  simp only [load_value, apply_ite Prod.snd]

/-- The error that `assign_element` leaves depends on the kinds, the sizes and the
strictness only. -/
theorem assign_element_error_indep (rt rt' : MonoRuntime) (et vt esize vsize : Nat)
    (strict_signs : Bool) (acc acc' : Accumulators) (mem mem' : List Nat) (ea ea' : Nat) :
    (assign_element rt et vt esize vsize strict_signs acc mem ea).1
      = (assign_element rt' et vt esize vsize strict_signs acc' mem' ea').1 := by
  simp only [assign_element, ASSIGN_UNSIGNED, ASSIGN_SIGNED, ASSIGN_REAL, apply_ite Prod.fst]

/-- The error of the conversion path for kinds `S` and `D`, computed on a fixed input. -/
theorem convert_error_eq (rt : MonoRuntime) (S D esize : Nat) (strict_signs : Bool)
    (va mem : List Nat) (ea : Nat) :
    (if is_ok (load_value rt (fold_native S) (fold_native D) va).2 then
        (assign_element rt (fold_native D) (fold_native S) esize (kind_size S) strict_signs
          (load_value rt (fold_native S) (fold_native D) va).1 mem ea).1
      else (load_value rt (fold_native S) (fold_native D) va).2)
    = (if is_ok (load_value exact_runtime (fold_native S) (fold_native D) []).2 then
        (assign_element exact_runtime (fold_native D) (fold_native S) esize (kind_size S)
          strict_signs (load_value exact_runtime (fold_native S) (fold_native D) []).1 [] 0).1
      else (load_value exact_runtime (fold_native S) (fold_native D) []).2) := by
  rw [load_value_error_indep rt exact_runtime (fold_native S) (fold_native D) va [],
    assign_element_error_indep rt exact_runtime (fold_native D) (fold_native S) esize
      (kind_size S) strict_signs (load_value rt (fold_native S) (fold_native D) va).1
      (load_value exact_runtime (fold_native S) (fold_native D) []).1 mem [] ea 0]

/-- On the kinds Boolean to R8, the strict conversion path between two distinct kinds, the
destination not being Boolean, leaves no error exactly on the pairs of the widening
table. -/
theorem strict_convert_error_table :
    ∀ a ∈ table_kinds, ∀ b ∈ table_kinds, a ≠ b → b ≠ MONO_TYPE_BOOLEAN →
      ((if is_ok (load_value exact_runtime (fold_native a) (fold_native b) []).2 then
          (assign_element exact_runtime (fold_native b) (fold_native a) (kind_size b)
            (kind_size a) true
            (load_value exact_runtime (fold_native a) (fold_native b) []).1 [] 0).1
        else (load_value exact_runtime (fold_native a) (fold_native b) []).2) = MonoError.ok
      ↔ can_primitive_widen a b = true) := by
  decide

/-- On the kinds Boolean to R8, the widening table accepts every kind into itself and
only Boolean into Boolean, and the first check of the store refuses every other kind
for a Boolean destination. -/
theorem table_diagonal_and_boolean :
    (∀ a ∈ table_kinds, can_primitive_widen a a = true)
    ∧ (∀ a ∈ table_kinds, a ≠ MONO_TYPE_BOOLEAN →
        can_primitive_widen a MONO_TYPE_BOOLEAN = false
        ∧ check_element_type MONO_TYPE_BOOLEAN a = MonoError.argument)
    ∧ (∀ a ∈ table_kinds, a ≠ MONO_TYPE_STRING ∧ a ≠ MONO_TYPE_VALUETYPE) := by
  decide

/-! ## Primitive widening classification -/

/-- Claim C1: for primitive kinds `A` and `B`, `CanChangePrimitive (A, B, reliable = true)`
answers true exactly when the normalized kinds are equal, which is exactly when `A = B`
or `A`, `B` are the signed/unsigned integer kinds of one width; it answers false for
Boolean against I1/U1 and for Char against I2/U2. -/
theorem can_change_primitive_reliable_iff (A B : Nat)
    (hA : mono_type_is_primitive A = true) (hB : mono_type_is_primitive B = true) :
    (ves_icall_System_Array_CanChangePrimitive A B true = some true ↔
        get_normalized_integral_array_element_type A
          = get_normalized_integral_array_element_type B)
    ∧ (ves_icall_System_Array_CanChangePrimitive A B true = some false ↔
        get_normalized_integral_array_element_type A
          ≠ get_normalized_integral_array_element_type B)
    ∧ (get_normalized_integral_array_element_type A
          = get_normalized_integral_array_element_type B ↔
        (A = B ∨ same_width_pair A B = true))
    ∧ ves_icall_System_Array_CanChangePrimitive MONO_TYPE_BOOLEAN MONO_TYPE_I1 true = some false
    ∧ ves_icall_System_Array_CanChangePrimitive MONO_TYPE_BOOLEAN MONO_TYPE_U1 true = some false
    ∧ ves_icall_System_Array_CanChangePrimitive MONO_TYPE_I1 MONO_TYPE_BOOLEAN true = some false
    ∧ ves_icall_System_Array_CanChangePrimitive MONO_TYPE_U1 MONO_TYPE_BOOLEAN true = some false
    ∧ ves_icall_System_Array_CanChangePrimitive MONO_TYPE_CHAR MONO_TYPE_I2 true = some false
    ∧ ves_icall_System_Array_CanChangePrimitive MONO_TYPE_CHAR MONO_TYPE_U2 true = some false
    ∧ ves_icall_System_Array_CanChangePrimitive MONO_TYPE_I2 MONO_TYPE_CHAR true = some false
    ∧ ves_icall_System_Array_CanChangePrimitive MONO_TYPE_U2 MONO_TYPE_CHAR true = some false := by
  have key : ∀ a ∈ primitive_kinds, ∀ b ∈ primitive_kinds,
      (ves_icall_System_Array_CanChangePrimitive a b true = some true ↔
          get_normalized_integral_array_element_type a
            = get_normalized_integral_array_element_type b)
      ∧ (ves_icall_System_Array_CanChangePrimitive a b true = some false ↔
          get_normalized_integral_array_element_type a
            ≠ get_normalized_integral_array_element_type b)
      ∧ (get_normalized_integral_array_element_type a
            = get_normalized_integral_array_element_type b ↔
          (a = b ∨ same_width_pair a b = true)) := by decide
  obtain ⟨h1, h2, h3⟩ := key A (mem_primitive_kinds A hA) B (mem_primitive_kinds B hB)
  exact ⟨h1, h2, h3, by decide, by decide, by decide, by decide, by decide, by decide,
    by decide, by decide⟩

theorem can_change_primitive_reliable_iff_witness :
    (ves_icall_System_Array_CanChangePrimitive MONO_TYPE_I4 MONO_TYPE_U4 true = some true ↔
        get_normalized_integral_array_element_type MONO_TYPE_I4
          = get_normalized_integral_array_element_type MONO_TYPE_U4)
    ∧ ves_icall_System_Array_CanChangePrimitive MONO_TYPE_I4 MONO_TYPE_U4 true = some true :=
  ⟨(can_change_primitive_reliable_iff MONO_TYPE_I4 MONO_TYPE_U4 (by decide) (by decide)).1,
    by decide⟩

/-- Claim C2: for primitive kinds `A` and `B`, `CanChangePrimitive (A, B, reliable = false)`
answers true exactly when the normalized kinds are equal or `can_primitive_widen`
accepts the unnormalized pair; so whatever the reliable relation accepts, the relaxed
one accepts too. -/
theorem can_change_primitive_relaxed_iff (A B : Nat)
    (hA : mono_type_is_primitive A = true) (hB : mono_type_is_primitive B = true) :
    ves_icall_System_Array_CanChangePrimitive A B false
        = some (get_normalized_integral_array_element_type A
                  == get_normalized_integral_array_element_type B
                || can_primitive_widen A B)
    ∧ (ves_icall_System_Array_CanChangePrimitive A B false = some true ↔
        (get_normalized_integral_array_element_type A
            = get_normalized_integral_array_element_type B
          ∨ can_primitive_widen A B = true))
    ∧ (ves_icall_System_Array_CanChangePrimitive A B true = some true →
        ves_icall_System_Array_CanChangePrimitive A B false = some true) := by
  have key : ∀ a ∈ primitive_kinds, ∀ b ∈ primitive_kinds,
      ves_icall_System_Array_CanChangePrimitive a b false
          = some (get_normalized_integral_array_element_type a
                    == get_normalized_integral_array_element_type b
                  || can_primitive_widen a b)
      ∧ (ves_icall_System_Array_CanChangePrimitive a b false = some true ↔
          (get_normalized_integral_array_element_type a
              = get_normalized_integral_array_element_type b
            ∨ can_primitive_widen a b = true))
      ∧ (ves_icall_System_Array_CanChangePrimitive a b true = some true →
          ves_icall_System_Array_CanChangePrimitive a b false = some true) := by decide
  exact key A (mem_primitive_kinds A hA) B (mem_primitive_kinds B hB)

theorem can_change_primitive_relaxed_iff_witness :
    ves_icall_System_Array_CanChangePrimitive MONO_TYPE_U2 MONO_TYPE_I4 false = some true
    ∧ ves_icall_System_Array_CanChangePrimitive MONO_TYPE_U2 MONO_TYPE_I4 true = some false :=
  ⟨((can_change_primitive_relaxed_iff MONO_TYPE_U2 MONO_TYPE_I4 (by decide) (by decide)).2.1).2
      (Or.inr (by decide)),
    by decide⟩

/-- Claim C3: with `reliable = false`, `CanChangePrimitive (Int32, UInt64)` is false and
`CanChangePrimitive (Int32, Int64)` is true: the widening table is asked about the
unnormalized kinds, it rejects `int -> ulong`, and it would accept the normalized
pair. -/
theorem can_change_primitive_int_ulong_asymmetry :
    ves_icall_System_Array_CanChangePrimitive MONO_TYPE_I4 MONO_TYPE_U8 false = some false
    ∧ ves_icall_System_Array_CanChangePrimitive MONO_TYPE_I4 MONO_TYPE_I8 false = some true
    ∧ can_primitive_widen MONO_TYPE_I4 MONO_TYPE_U8 = false
    ∧ can_primitive_widen MONO_TYPE_I4 MONO_TYPE_I8 = true
    ∧ can_primitive_widen (get_normalized_integral_array_element_type MONO_TYPE_I4)
        (get_normalized_integral_array_element_type MONO_TYPE_U8) = true := by
  decide

/-! ## Null stores -/

/-- Claim C5: storing null into an array whose element type is a reference type or
`Nullable<T>` leaves no error under every strictness setting; afterwards the addressed
slot is all zero bytes and every other slot is as before. -/
theorem array_set_null_zeroes_slot (rt : MonoRuntime) (arr : MonoArray) (pos : Nat)
    (strict_enums strict_signs : Bool)
    (_hkind : mono_class_is_nullable arr.element_class = true
      ∨ m_class_is_valuetype arr.element_class = false)
    (hnv : mono_class_is_nullable arr.element_class = true →
      m_class_is_valuetype arr.element_class = true)
    (hlen : arr.vector.length = arr.max_length * arr.element_size)
    (hesize : arr.element_size
      = if m_class_is_valuetype arr.element_class then mono_class_value_size arr.element_class
        else SIZEOF_VOID_P)
    (hpos : pos < arr.max_length) :
    (array_set_value_impl rt arr none pos strict_enums strict_signs).1 = MonoError.ok
    ∧ (array_set_value_impl rt arr none pos strict_enums strict_signs).2.slot pos
        = List.replicate arr.element_size 0
    ∧ (∀ q, q ≠ pos →
        (array_set_value_impl rt arr none pos strict_enums strict_signs).2.slot q = arr.slot q)
    ∧ (array_set_value_impl rt arr none pos strict_enums strict_signs).2.vector.length
        = arr.vector.length := by
  have hw := write_slot arr.vector arr.element_size arr.max_length pos
    (List.replicate arr.element_size 0) hlen hpos (List.length_replicate _ _)
  by_cases hn : mono_class_is_nullable arr.element_class = true
  · have hv := hnv hn
    rw [hv] at hesize
    simp only [if_true] at hesize
    simp only [array_set_value_impl, hn, if_true, MonoArray.slot, mono_nullable_init_unboxed,
      mono_gc_bzero_atomic, ← hesize]
    exact ⟨trivial, hw.1, hw.2.1, hw.2.2⟩
  · simp only [array_set_value_impl, hn, MonoArray.slot, mono_gc_bzero_atomic]
    exact ⟨rfl, hw.1, hw.2.1, hw.2.2⟩

theorem array_set_null_zeroes_slot_witness :
    (array_set_value_impl exact_runtime nullable_int32_array none 0 true true).1 = MonoError.ok
    ∧ (array_set_value_impl exact_runtime nullable_int32_array none 0 true true).2.slot 0
        = List.replicate 8 0
    ∧ (array_set_value_impl exact_runtime nullable_int32_array none 0 true true).2.slot 1
        = [1, 0, 0, 0, 9, 0, 0, 0] :=
  have h := array_set_null_zeroes_slot exact_runtime nullable_int32_array 0 true true
    (Or.inl (by decide)) (by decide) (by decide) (by decide) (by decide)
  ⟨h.1, h.2.1, (h.2.2.1 1 (by decide)).trans (by decide)⟩

/-- Claim C6, as the code has it: storing null into an array whose element type is a
value type that is not nullable leaves no error, under every strictness setting; the
addressed slot becomes all zero bytes and every other slot is as before. -/
theorem array_set_null_value_type_zeroes_slot (rt : MonoRuntime) (arr : MonoArray) (pos : Nat)
    (strict_enums strict_signs : Bool)
    (hnn : mono_class_is_nullable arr.element_class = false)
    (_hvt : m_class_is_valuetype arr.element_class = true)
    (hlen : arr.vector.length = arr.max_length * arr.element_size)
    (hpos : pos < arr.max_length) :
    (array_set_value_impl rt arr none pos strict_enums strict_signs).1 = MonoError.ok
    ∧ (array_set_value_impl rt arr none pos strict_enums strict_signs).2.slot pos
        = List.replicate arr.element_size 0
    ∧ (∀ q, q ≠ pos →
        (array_set_value_impl rt arr none pos strict_enums strict_signs).2.slot q = arr.slot q)
    ∧ (array_set_value_impl rt arr none pos strict_enums strict_signs).2.vector.length
        = arr.vector.length := by
  have hw := write_slot arr.vector arr.element_size arr.max_length pos
    (List.replicate arr.element_size 0) hlen hpos (List.length_replicate _ _)
  simp only [array_set_value_impl, hnn, MonoArray.slot, mono_gc_bzero_atomic]
  exact ⟨rfl, hw.1, hw.2.1, hw.2.2⟩

theorem array_set_null_value_type_zeroes_slot_witness :
    (array_set_value_impl exact_runtime int32_array none 0 false false).1 = MonoError.ok
    ∧ (array_set_value_impl exact_runtime int32_array none 0 false false).2.slot 0
        = [0, 0, 0, 0]
    ∧ (array_set_value_impl exact_runtime int32_array none 0 false false).2.slot 1
        = [5, 6, 7, 8] :=
  have h := array_set_null_value_type_zeroes_slot exact_runtime int32_array 0 false false
    (by decide) (by decide) (by decide) (by decide)
  ⟨h.1, h.2.1, (h.2.2.1 1 (by decide)).trans (by decide)⟩

/-- Claim C6 fails as stated: null stored into slot 0 of an `int[]` through the strict
store leaves no error, and the slot, which held `0x04030201`, is zeroed. -/
theorem array_set_null_value_type_no_argument_error :
    (array_set_value_impl exact_runtime int32_array none 0 true true).1 = MonoError.ok
    ∧ (array_set_value_impl exact_runtime int32_array none 0 true true).1 ≠ MonoError.argument
    ∧ int32_array.slot 0 = [1, 2, 3, 4]
    ∧ (array_set_value_impl exact_runtime int32_array none 0 true true).2.slot 0
        = [0, 0, 0, 0]
    ∧ (array_set_value_impl exact_runtime int32_array none 0 true true).2 ≠ int32_array := by
  decide

/-! ## Stores of a value of the element type -/

/-- Claim C4: round trip. For an array whose element type is a reference type or a value
type that is not nullable, a valid index and a value whose class is exactly the element
class (which the assignability check accepts), the store leaves no error under every
strictness setting, and reading the element back yields the same reference, for a value
type a box of the element class with the payload bytes of the stored value. -/
theorem array_set_get_round_trip (rt : MonoRuntime) (arr : MonoArray) (value : MonoObject)
    (pos : Nat) (strict_enums strict_signs : Bool)
    (hnn : mono_class_is_nullable arr.element_class = false)
    (hkind : m_class_is_valuetype arr.element_class = true
      ∨ (m_class_is_valuetype arr.element_class = false
          ∧ mono_class_is_pointer arr.element_class = false))
    (hlen : arr.vector.length = arr.max_length * arr.element_size)
    (hesize : arr.element_size
      = if m_class_is_valuetype arr.element_class then mono_class_value_size arr.element_class
        else SIZEOF_VOID_P)
    (hpos : pos < arr.max_length)
    (hclass : value.klass = arr.element_class)
    (hinst : rt.isinst value arr.element_class = true)
    (hpayload : m_class_is_valuetype arr.element_class = true →
      value.payload.length = mono_class_value_size value.klass)
    (haddr : value.addr < 2 ^ (8 * SIZEOF_VOID_P)) :
    (array_set_value_impl rt arr (some value) pos strict_enums strict_signs).1 = MonoError.ok
    ∧ ves_icall_System_Array_GetValueImpl
        (array_set_value_impl rt arr (some value) pos strict_enums strict_signs).2 pos
        = (if m_class_is_valuetype arr.element_class then
            ObjectHandle.box arr.element_class value.payload
          else ObjectHandle.ref value.addr) := by
  have hcheck : check_element_type arr.element_class.d.byval_type value.klass.d.byval_type
      = MonoError.ok := by
    rw [hclass]; exact check_element_type_self _
  rcases hkind with hv | ⟨hv, hp⟩
  · -- a value type: the payload is copied into the slot and boxed again
    rw [hv] at hesize
    simp only [if_true] at hesize
    have hpl : value.payload.length = arr.element_size := by
      rw [hpayload hv, hclass, hesize]
    have htake : value.payload.take arr.element_size = value.payload := by
      rw [← hpl]; exact List.take_length value.payload
    have hw := write_slot arr.vector arr.element_size arr.max_length pos value.payload
      hlen hpos hpl
    have hstore : array_set_value_impl rt arr (some value) pos strict_enums strict_signs
        = (MonoError.ok,
            { arr with vector := mem_write arr.vector (arr.element_size * pos) value.payload }) := by
      simp only [array_set_value_impl, hnn, hcheck, hinst, hv, is_ok, mono_value_copy_internal,
        mono_gc_memmove_atomic, ← hesize, htake]
      simp
    rw [hstore]
    refine ⟨rfl, ?_⟩
    simp only [ves_icall_System_Array_GetValueImpl, hv, mono_value_box_checked, hnn,
      Bool.true_or, if_true, ← hesize]
    simp [hw.1]
  · -- a reference type: the reference is stored and read back
    rw [hv] at hesize
    simp only [Bool.false_eq_true, if_false] at hesize
    rw [hesize] at hlen
    have hstore : array_set_value_impl rt arr (some value) pos strict_enums strict_signs
        = (MonoError.ok, mono_array_setref_fast arr pos value.addr) := by
      simp only [array_set_value_impl, hnn, hcheck, hinst, hv, is_ok]
      simp
    rw [hstore]
    refine ⟨rfl, ?_⟩
    simp only [ves_icall_System_Array_GetValueImpl, mono_array_setref_fast, hv, hp,
      Bool.or_self, Bool.false_eq_true, if_false]
    rw [le_decode_store_pointer arr.vector arr.max_length pos value.addr hlen hpos haddr]

theorem array_set_get_round_trip_witness :
    (array_set_value_impl exact_runtime int32_array (some boxed_int32) 1 true true).1
        = MonoError.ok
    ∧ ves_icall_System_Array_GetValueImpl
        (array_set_value_impl exact_runtime int32_array (some boxed_int32) 1 true true).2 1
        = ObjectHandle.box int32_class [0x0a, 0x0b, 0x0c, 0x0d] :=
  array_set_get_round_trip exact_runtime int32_array boxed_int32 1 true true
    (by decide) (Or.inl (by decide)) (by decide) (by decide) (by decide) (by decide)
    (by decide) (by decide) (by decide)

/-! ## Nullable destinations -/

/-- The check of a nullable destination, as far as the code makes it: a value of a
primitive class other than the parameter class is an invalid cast, and the array is
left as it was. -/
theorem array_set_nullable_primitive_mismatch (rt : MonoRuntime) (arr : MonoArray)
    (value : MonoObject) (pos : Nat) (strict_enums strict_signs : Bool)
    (hn : mono_class_is_nullable arr.element_class = true)
    (hprim : m_class_is_primitive value.klass = true)
    (hne : value.klass ≠ m_class_get_nullable_elem_class arr.element_class) :
    array_set_value_impl rt arr (some value) pos strict_enums strict_signs
      = (MonoError.invalid_cast, arr) := by
  simp [array_set_value_impl, hn, hprim, hne]

/-- Claim C7 does not hold on the code: a boxed `Color`, an enum and so not a primitive
class, stored into slot 1 of an `int?[]` leaves no error although `Color` is not the
parameter class `int`, and the slot is overwritten with the payload of the enum. -/
theorem array_set_nullable_accepts_enum :
    boxed_color.klass ≠ m_class_get_nullable_elem_class nullable_int32_array.element_class
    ∧ m_class_is_primitive boxed_color.klass = false
    ∧ (array_set_value_impl exact_runtime nullable_int32_array (some boxed_color) 1 true true).1
        = MonoError.ok
    ∧ (array_set_value_impl exact_runtime nullable_int32_array (some boxed_color) 1
          false false).1 = MonoError.ok
    ∧ nullable_int32_array.slot 1 = [1, 0, 0, 0, 9, 0, 0, 0]
    ∧ (array_set_value_impl exact_runtime nullable_int32_array (some boxed_color) 1
          true true).2.slot 1 = [1, 0, 0, 0, 0x0a, 0x0b, 0x0c, 0x0d] := by
  decide

/-! ## Reference destinations -/

/-- Claim C8: for an array whose element type is a reference type and a value that is not
null, the store leaves no error, with the reference written to the slot and the other
slots kept, exactly when the assignability check of the value against the element class
passes; otherwise the error is the invalid cast and the array is as before. A value whose
type is not `String` stored into an array of `String` is an invalid cast. The check is
taken to accept only strings for the sealed class `String`. -/
theorem array_set_reference_iff_isinst (rt : MonoRuntime) (arr : MonoArray) (value : MonoObject)
    (pos : Nat) (strict_enums strict_signs : Bool)
    (hnn : mono_class_is_nullable arr.element_class = false)
    (hv : m_class_is_valuetype arr.element_class = false)
    (hp : mono_class_is_pointer arr.element_class = false)
    (hbool : arr.element_class.d.byval_type ≠ MONO_TYPE_BOOLEAN)
    (hsealed : arr.element_class.d.byval_type = MONO_TYPE_STRING →
      rt.isinst value arr.element_class = true →
      value.klass.d.byval_type = MONO_TYPE_STRING)
    (hlen : arr.vector.length = arr.max_length * arr.element_size)
    (hesize : arr.element_size = SIZEOF_VOID_P)
    (hpos : pos < arr.max_length)
    (haddr : value.addr < 2 ^ (8 * SIZEOF_VOID_P)) :
    ((array_set_value_impl rt arr (some value) pos strict_enums strict_signs).1 = MonoError.ok
      ↔ rt.isinst value arr.element_class = true)
    ∧ (rt.isinst value arr.element_class = true →
        ves_icall_System_Array_GetValueImpl
            (array_set_value_impl rt arr (some value) pos strict_enums strict_signs).2 pos
          = ObjectHandle.ref value.addr
        ∧ (array_set_value_impl rt arr (some value) pos strict_enums strict_signs).2.slot pos
          = le_encode SIZEOF_VOID_P value.addr
        ∧ ∀ q, q ≠ pos →
          (array_set_value_impl rt arr (some value) pos strict_enums strict_signs).2.slot q
            = arr.slot q)
    ∧ (rt.isinst value arr.element_class = false →
        array_set_value_impl rt arr (some value) pos strict_enums strict_signs
          = (MonoError.invalid_cast, arr))
    ∧ (arr.element_class.d.byval_type = MONO_TYPE_STRING →
        value.klass.d.byval_type ≠ MONO_TYPE_STRING →
        array_set_value_impl rt arr (some value) pos strict_enums strict_signs
          = (MonoError.invalid_cast, arr)) := by
  have hstring : arr.element_class.d.byval_type = MONO_TYPE_STRING →
      value.klass.d.byval_type ≠ MONO_TYPE_STRING →
      array_set_value_impl rt arr (some value) pos strict_enums strict_signs
        = (MonoError.invalid_cast, arr) := by
    intro h1 h2
    simp [array_set_value_impl, hnn, check_element_type, h1, h2, is_ok]
  have hfalse : rt.isinst value arr.element_class = false →
      array_set_value_impl rt arr (some value) pos strict_enums strict_signs
        = (MonoError.invalid_cast, arr) := by
    intro hi
    by_cases h1 : arr.element_class.d.byval_type = MONO_TYPE_STRING
    · by_cases h2 : value.klass.d.byval_type = MONO_TYPE_STRING
      · simp [array_set_value_impl, hnn, check_element_type, h1, h2, is_ok, hv, hi]
      · exact hstring h1 h2
    · simp [array_set_value_impl, hnn, check_element_type, h1, hbool, is_ok, hv, hi]
  have htrue : rt.isinst value arr.element_class = true →
      array_set_value_impl rt arr (some value) pos strict_enums strict_signs
        = (MonoError.ok, mono_array_setref_fast arr pos value.addr) := by
    intro hi
    by_cases h1 : arr.element_class.d.byval_type = MONO_TYPE_STRING
    · have h2 := hsealed h1 hi
      simp [array_set_value_impl, hnn, check_element_type, h1, h2, is_ok, hv, hi]
    · simp [array_set_value_impl, hnn, check_element_type, h1, hbool, is_ok, hv, hi]
  refine ⟨?_, ?_, hfalse, hstring⟩
  · cases hi : rt.isinst value arr.element_class
    · rw [hfalse hi]; simp
    · rw [htrue hi]; simp
  · intro hi
    rw [htrue hi]
    have hlen8 : arr.vector.length = arr.max_length * SIZEOF_VOID_P := by rw [hlen, hesize]
    have hw := write_slot arr.vector SIZEOF_VOID_P arr.max_length pos
      (le_encode SIZEOF_VOID_P ((value.addr : Int) % 2 ^ (8 * SIZEOF_VOID_P)).toNat) hlen8 hpos
      (le_encode_length _ _)
    have h1 : ((value.addr : Int) % 2 ^ (8 * SIZEOF_VOID_P)).toNat = value.addr := by
      have h2 : ((value.addr : Int) % 2 ^ (8 * SIZEOF_VOID_P))
          = ((value.addr % 2 ^ (8 * SIZEOF_VOID_P) : Nat) : Int) := by
        push_cast; rfl
      rw [h2, Int.toNat_ofNat, Nat.mod_eq_of_lt haddr]
    rw [h1] at hw
    refine ⟨?_, ?_, ?_⟩
    · simp only [ves_icall_System_Array_GetValueImpl, mono_array_setref_fast, hv, hp,
        Bool.or_self, Bool.false_eq_true, if_false]
      rw [le_decode_store_pointer arr.vector arr.max_length pos value.addr hlen8 hpos haddr]
    · simp only [MonoArray.slot, mono_array_setref_fast, store_scalar, hesize, h1]
      exact hw.1
    · intro q hq
      simp only [MonoArray.slot, mono_array_setref_fast, store_scalar, hesize, h1]
      exact hw.2.1 q hq

theorem array_set_reference_iff_isinst_witness :
    array_set_value_impl exact_runtime string_array (some a_uri) 1 true true
        = (MonoError.invalid_cast, string_array)
    ∧ ((array_set_value_impl exact_runtime string_array (some a_uri) 1 true true).1
          = MonoError.ok
        ↔ exact_runtime.isinst a_uri string_array.element_class = true) :=
  have h := array_set_reference_iff_isinst exact_runtime string_array a_uri 1 true true
    (by decide) (by decide) (by decide) (by decide) (by decide) (by decide) (by decide)
    (by decide) (by decide)
  ⟨h.2.2.2 (by decide) (by decide), h.1⟩

/-! ## Boolean destinations -/

/-- A value of a fixed width numeric kind other than Boolean, stored into an array of
Boolean: the argument error of a refused widening, the array left as it was. -/
theorem array_set_boolean_fixed_width (rt : MonoRuntime) (arr : MonoArray) (value : MonoObject)
    (pos : Nat) (strict_enums strict_signs : Bool)
    (hnn : mono_class_is_nullable arr.element_class = false)
    (het : arr.element_class.d.byval_type = MONO_TYPE_BOOLEAN)
    (hvt : value.klass.d.byval_type ∈
      [MONO_TYPE_CHAR, MONO_TYPE_I1, MONO_TYPE_U1, MONO_TYPE_I2, MONO_TYPE_U2, MONO_TYPE_I4,
       MONO_TYPE_U4, MONO_TYPE_I8, MONO_TYPE_U8, MONO_TYPE_R4, MONO_TYPE_R8]) :
    array_set_value_impl rt arr (some value) pos strict_enums strict_signs
      = (MonoError.argument, arr) := by
  simp only [List.mem_cons, List.mem_singleton, List.mem_nil_iff, or_false] at hvt
  rcases hvt with h | h | h | h | h | h | h | h | h | h | h <;>
    simp [array_set_value_impl, hnn, het, h, check_element_type, is_ok]

/-- Claim C9 does not hold on the code for the native width kinds: a boxed `IntPtr`
stored into a `bool[]` is an invalid cast under both strictness settings, not the
argument error of a refused widening, because the first check of the destination type
runs before the native kinds are folded into the fixed width ones. The opposite
direction, a boxed `bool` into an `IntPtr[]`, is the argument error. -/
theorem array_set_boolean_native_int_invalid_cast :
    array_set_value_impl exact_runtime boolean_array (some boxed_intptr) 1 true true
        = (MonoError.invalid_cast, boolean_array)
    ∧ array_set_value_impl exact_runtime boolean_array (some boxed_intptr) 1 false false
        = (MonoError.invalid_cast, boolean_array)
    ∧ check_element_type MONO_TYPE_BOOLEAN MONO_TYPE_I = MonoError.invalid_cast
    ∧ check_element_type MONO_TYPE_BOOLEAN MONO_TYPE_U = MonoError.invalid_cast
    ∧ (array_set_value_impl exact_runtime intptr_array (some boxed_boolean) 0 true true).1
        = MonoError.argument := by
  decide

/-! ## Enum destinations -/

/-- Claim C10: for two distinct enum types `E` and `F` over the same integral kind `U`,
the relaxed store of a boxed `E` into an `F[]` leaves no error, the addressed slot then
holds the payload bytes of the value, and the other slots are as before. -/
theorem array_set_enum_relaxed_raw_copy (rt : MonoRuntime) (arr : MonoArray)
    (value : MonoObject) (pos : Nat) (U : Nat)
    (hU : U ∈ integral_kinds)
    (hE : is_enum_over value.klass U = true)
    (hF : is_enum_over arr.element_class U = true)
    (_hne : value.klass ≠ arr.element_class)
    (hlen : arr.vector.length = arr.max_length * arr.element_size)
    (hesize : arr.element_size = mono_class_value_size arr.element_class)
    (hpos : pos < arr.max_length)
    (hpayload : value.payload.length = mono_class_value_size value.klass)
    (hbytes : ∀ b ∈ value.payload, b < 256) :
    (ves_icall_System_Array_SetValueRelaxedImpl rt arr (some value) pos).1 = MonoError.ok
    ∧ (ves_icall_System_Array_SetValueRelaxedImpl rt arr (some value) pos).2.slot pos
        = value.payload
    ∧ ∀ q, q ≠ pos →
        (ves_icall_System_Array_SetValueRelaxedImpl rt arr (some value) pos).2.slot q
          = arr.slot q := by
  simp only [is_enum_over, Bool.and_eq_true, Bool.not_eq_true', beq_iff_eq] at hE hF
  obtain ⟨⟨⟨⟨⟨hEn, hEt⟩, hEv⟩, hEe⟩, hEb⟩, hEs⟩ := hE
  obtain ⟨⟨⟨⟨⟨hFn, hFt⟩, hFv⟩, hFe⟩, hFb⟩, hFs⟩ := hF
  have hvsize : mono_class_value_size value.klass = kind_size U := hEs
  have hes : arr.element_size = kind_size U := by rw [hesize, hFs]
  have hpl : value.payload.length = arr.element_size := by rw [hpayload, hEs, hes]
  have hw := write_slot arr.vector arr.element_size arr.max_length pos value.payload
    hlen hpos hpl
  have hstore : ves_icall_System_Array_SetValueRelaxedImpl rt arr (some value) pos
      = (MonoError.ok,
          { arr with vector := mem_write arr.vector (arr.element_size * pos) value.payload }) := by
    have hcheck : check_element_type MONO_TYPE_VALUETYPE MONO_TYPE_VALUETYPE = MonoError.ok :=
      check_element_type_self _
    have htake : value.payload.take arr.element_size = value.payload := by
      rw [← hpl]; exact List.take_length value.payload
    cases hi : rt.isinst value arr.element_class
    · have hk := assign_same_kind rt U hU false value.payload (by rw [hpayload, hEs]) hbytes
        arr.vector (arr.element_size * pos)
      simp only [ves_icall_System_Array_SetValueRelaxedImpl, array_set_value_impl, hFn, hFt,
        hEt, hcheck, hi, hFv, hEv, hFe, hEe, hFb, hEb, is_ok, hvsize, hes]
      rw [hes] at hk
      simp [hk.1, hk.2]
    · simp only [ves_icall_System_Array_SetValueRelaxedImpl, array_set_value_impl, hFn, hFt,
        hEt, hcheck, hi, hFv, is_ok, mono_value_copy_internal, mono_gc_memmove_atomic,
        ← hesize, htake]
      simp
  rw [hstore]
  exact ⟨rfl, hw.1, hw.2.1⟩

theorem array_set_enum_relaxed_raw_copy_witness :
    (ves_icall_System_Array_SetValueRelaxedImpl exact_runtime shape_array
        (some boxed_color) 1).1 = MonoError.ok
    ∧ (ves_icall_System_Array_SetValueRelaxedImpl exact_runtime shape_array
        (some boxed_color) 1).2.slot 1 = [0x0a, 0x0b, 0x0c, 0x0d]
    ∧ (ves_icall_System_Array_SetValueRelaxedImpl exact_runtime shape_array
        (some boxed_color) 1).2.slot 0 = [1, 0, 0, 0] :=
  have h := array_set_enum_relaxed_raw_copy exact_runtime shape_array boxed_color 1
    MONO_TYPE_I4 (by decide) (by decide) (by decide) (by decide) (by decide) (by decide)
    (by decide) (by decide) (by decide)
  ⟨h.1, h.2.1, (h.2.2 0 (by decide)).trans (by decide)⟩

/-- An enum value stored into an array of an enum type over the same integral kind, when
the assignability check does not take the direct copy or does: under every strictness
setting the store leaves no error and writes the payload bytes into the slot. -/
theorem array_set_value_impl_enum_same_base (rt : MonoRuntime) (arr : MonoArray)
    (value : MonoObject) (pos : Nat) (U : Nat) (strict_enums strict_signs : Bool)
    (hU : U ∈ integral_kinds)
    (hE : is_enum_over value.klass U = true)
    (hF : is_enum_over arr.element_class U = true)
    (hesize : arr.element_size = mono_class_value_size arr.element_class)
    (hpayload : value.payload.length = mono_class_value_size value.klass)
    (hbytes : ∀ b ∈ value.payload, b < 256) :
    array_set_value_impl rt arr (some value) pos strict_enums strict_signs
      = (MonoError.ok,
          { arr with vector := mem_write arr.vector (arr.element_size * pos) value.payload }) := by
  simp only [is_enum_over, Bool.and_eq_true, Bool.not_eq_true', beq_iff_eq] at hE hF
  obtain ⟨⟨⟨⟨⟨hEn, hEt⟩, hEv⟩, hEe⟩, hEb⟩, hEs⟩ := hE
  obtain ⟨⟨⟨⟨⟨hFn, hFt⟩, hFv⟩, hFe⟩, hFb⟩, hFs⟩ := hF
  have hvsize : mono_class_value_size value.klass = kind_size U := hEs
  have hes : arr.element_size = kind_size U := by rw [hesize, hFs]
  have hpl : value.payload.length = arr.element_size := by rw [hpayload, hEs, hes]
  have hcheck : check_element_type MONO_TYPE_VALUETYPE MONO_TYPE_VALUETYPE = MonoError.ok :=
    check_element_type_self _
  have htake : value.payload.take arr.element_size = value.payload := by
    rw [← hpl]; exact List.take_length value.payload
  cases hi : rt.isinst value arr.element_class
  · have hk := assign_same_kind rt U hU strict_signs value.payload (by rw [hpayload, hEs])
      hbytes arr.vector (arr.element_size * pos)
    simp only [array_set_value_impl, hFn, hFt, hEt, hcheck, hi, hFv, hEv, hFe, hEe, hFb, hEb,
      is_ok, hvsize, hes]
    rw [hes] at hk
    simp [hk.1, hk.2]
  · simp only [array_set_value_impl, hFn, hFt, hEt, hcheck, hi, hFv, is_ok,
      mono_value_copy_internal, mono_gc_memmove_atomic, ← hesize, htake]
    simp

/-- Claim C11, as the code has it: for two enum types `E` and `F` over the same integral
kind, the strict store of a boxed `E` into an `F[]` leaves no error whether or not
`E = F`, the slot then holds the payload bytes of the value and the other slots are as
before. -/
theorem array_set_enum_strict_raw_copy (rt : MonoRuntime) (arr : MonoArray)
    (value : MonoObject) (pos : Nat) (U : Nat)
    (hU : U ∈ integral_kinds)
    (hE : is_enum_over value.klass U = true)
    (hF : is_enum_over arr.element_class U = true)
    (hlen : arr.vector.length = arr.max_length * arr.element_size)
    (hesize : arr.element_size = mono_class_value_size arr.element_class)
    (hpos : pos < arr.max_length)
    (hpayload : value.payload.length = mono_class_value_size value.klass)
    (hbytes : ∀ b ∈ value.payload, b < 256) :
    (ves_icall_System_Array_SetValueImpl rt arr (some value) pos).1 = MonoError.ok
    ∧ (ves_icall_System_Array_SetValueImpl rt arr (some value) pos).2.slot pos = value.payload
    ∧ ∀ q, q ≠ pos →
        (ves_icall_System_Array_SetValueImpl rt arr (some value) pos).2.slot q = arr.slot q := by
  have hpl : value.payload.length = arr.element_size := by
    simp only [is_enum_over, Bool.and_eq_true, beq_iff_eq] at hE hF
    rw [hpayload, hE.2, hesize, hF.2]
  have hw := write_slot arr.vector arr.element_size arr.max_length pos value.payload
    hlen hpos hpl
  unfold ves_icall_System_Array_SetValueImpl
  rw [array_set_value_impl_enum_same_base rt arr value pos U true true hU hE hF hesize
    hpayload hbytes]
  exact ⟨rfl, hw.1, hw.2.1⟩

theorem array_set_enum_strict_raw_copy_witness :
    (ves_icall_System_Array_SetValueImpl exact_runtime shape_array (some boxed_color) 0).1
        = MonoError.ok
    ∧ (ves_icall_System_Array_SetValueImpl exact_runtime shape_array
        (some boxed_color) 0).2.slot 0 = [0x0a, 0x0b, 0x0c, 0x0d]
    ∧ (ves_icall_System_Array_SetValueImpl exact_runtime shape_array
        (some boxed_color) 0).2.slot 1 = [2, 0, 0, 0] :=
  have h := array_set_enum_strict_raw_copy exact_runtime shape_array boxed_color 0
    MONO_TYPE_I4 (by decide) (by decide) (by decide) (by decide) (by decide) (by decide)
    (by decide) (by decide)
  ⟨h.1, h.2.1, (h.2.2 1 (by decide)).trans (by decide)⟩

/-- Claim C11 fails as stated: `Color` and `Shape` are distinct enum types over `int`, and
the strict store of a boxed `Color` into slot 1 of a `Shape[]` leaves no error and writes
the payload into the slot. -/
theorem array_set_enum_strict_distinct_succeeds :
    boxed_color.klass ≠ shape_array.element_class
    ∧ is_enum_over boxed_color.klass MONO_TYPE_I4 = true
    ∧ is_enum_over shape_array.element_class MONO_TYPE_I4 = true
    ∧ exact_runtime.isinst boxed_color shape_array.element_class = false
    ∧ (ves_icall_System_Array_SetValueImpl exact_runtime shape_array (some boxed_color) 1).1
        = MonoError.ok
    ∧ (array_set_value_impl exact_runtime shape_array (some boxed_color) 1 true false).1
        = MonoError.ok
    ∧ (ves_icall_System_Array_SetValueImpl exact_runtime shape_array
        (some boxed_color) 1).2.slot 1 = [0x0a, 0x0b, 0x0c, 0x0d] := by
  decide

/-- Claim C12, as the code has it: with `strict_enums` set, a value that is not of an
enum type, stored into an array of an enum type that the assignability check does not
accept it for, is an invalid cast, and the array is left as it was. -/
theorem array_set_strict_enums_non_enum_into_enum (rt : MonoRuntime) (arr : MonoArray)
    (value : MonoObject) (pos : Nat) (strict_signs : Bool)
    (hnn : mono_class_is_nullable arr.element_class = false)
    (hFt : arr.element_class.d.byval_type = MONO_TYPE_VALUETYPE)
    (hFv : m_class_is_valuetype arr.element_class = true)
    (hFe : m_class_is_enumtype arr.element_class = true)
    (hE : (value.klass.d.byval_type == MONO_TYPE_VALUETYPE
      && m_class_is_enumtype value.klass) = false)
    (hi : rt.isinst value arr.element_class = false) :
    array_set_value_impl rt arr (some value) pos true strict_signs
      = (MonoError.invalid_cast, arr) := by
  have hcheck : check_element_type MONO_TYPE_VALUETYPE value.klass.d.byval_type
      = MonoError.ok := by
    simp [check_element_type]
  cases hv : m_class_is_valuetype value.klass
  · simp [array_set_value_impl, hnn, hFt, hcheck, is_ok, hi, hFv, hv]
  · simp [array_set_value_impl, hnn, hFt, hcheck, is_ok, hi, hFv, hv, hFe, hE]

theorem array_set_strict_enums_non_enum_into_enum_witness :
    array_set_value_impl exact_runtime shape_array (some boxed_int32) 1 true true
      = (MonoError.invalid_cast, shape_array) :=
  array_set_strict_enums_non_enum_into_enum exact_runtime shape_array boxed_int32 1 true
    (by decide) (by decide) (by decide) (by decide) (by decide) (by decide)

/-- Claim C12 fails as stated in one of its two directions: with `strict_enums` set, a
boxed `Color`, an enum over `int`, stored into slot 1 of an `int[]` (exactly one side is
an enum and the types differ) leaves no error; the value is converted as an `int`. -/
theorem array_set_strict_enums_enum_into_non_enum_succeeds :
    boxed_color.klass ≠ int32_array.element_class
    ∧ m_class_is_enumtype boxed_color.klass = true
    ∧ m_class_is_enumtype int32_array.element_class = false
    ∧ exact_runtime.isinst boxed_color int32_array.element_class = false
    ∧ (array_set_value_impl exact_runtime int32_array (some boxed_color) 1 true true).1
        = MonoError.ok
    ∧ (array_set_value_impl exact_runtime int32_array (some boxed_color) 1 true false).1
        = MonoError.ok
    ∧ (array_set_value_impl exact_runtime int32_array (some boxed_color) 1 true true).2.slot 1
        = [0x0a, 0x0b, 0x0c, 0x0d] := by
  decide

/-! ## Integer conversions -/

/-- Claim C13: a value of a signed integer kind `S` stored into an array of a signed
integer kind `D`. When `D` is at least as wide as `S` the store leaves no error under
every strictness setting, the slot then holds the same integer, sign extended, and the
other slots are as before; when `D` is narrower the error is the argument error of a
refused widening. -/
theorem array_set_signed_into_signed (rt : MonoRuntime) (arr : MonoArray) (value : MonoObject)
    (pos : Nat) (strict_enums strict_signs : Bool) (S D : Nat)
    (hS : S ∈ signed_kinds) (hD : D ∈ signed_kinds)
    (hvc : is_primitive_of value.klass S = true)
    (hec : is_primitive_of arr.element_class D = true)
    (hinst : rt.isinst value arr.element_class = true → value.klass = arr.element_class)
    (hlen : arr.vector.length = arr.max_length * arr.element_size)
    (hesize : arr.element_size = mono_class_value_size arr.element_class)
    (hpos : pos < arr.max_length)
    (hpayload : value.payload.length = mono_class_value_size value.klass)
    (hbytes : ∀ b ∈ value.payload, b < 256) :
    (kind_size S ≤ kind_size D →
      (array_set_value_impl rt arr (some value) pos strict_enums strict_signs).1 = MonoError.ok
      ∧ sign_extend (kind_size D) (le_decode
          ((array_set_value_impl rt arr (some value) pos strict_enums strict_signs).2.slot pos))
        = sign_extend (kind_size S) (le_decode value.payload)
      ∧ ∀ q, q ≠ pos →
          (array_set_value_impl rt arr (some value) pos strict_enums strict_signs).2.slot q
            = arr.slot q)
    ∧ (kind_size D < kind_size S →
      (array_set_value_impl rt arr (some value) pos strict_enums strict_signs).1
        = MonoError.argument) := by
  obtain ⟨_, _, _, hSs⟩ := (is_primitive_of_iff _ _).1 hvc
  obtain ⟨_, _, _, hDs⟩ := (is_primitive_of_iff _ _).1 hec
  have hes : arr.element_size = kind_size D := by rw [hesize, hDs]
  have hpl : value.payload.length = kind_size S := by rw [hpayload, hSs]
  cases hi : rt.isinst value arr.element_class
  · -- the conversion
    obtain ⟨hDstr, hDbool, hDval⟩ := numeric_kind_tags D (Or.inl hD)
    obtain ⟨_, _, hSval⟩ := numeric_kind_tags S (Or.inl hS)
    obtain ⟨hsig, _, _, hSpos⟩ := kind_classes_signed S hS
    obtain ⟨_, _, _, hDpos⟩ := kind_classes_signed D hD
    have htake : value.payload.take (kind_size S) = value.payload := by
      rw [← hpl]; exact List.take_length value.payload
    have hstore : array_set_value_impl rt arr (some value) pos strict_enums strict_signs
        = (CHECK_WIDENING_CONVERSION (kind_size D) (kind_size S) 0,
            { arr with vector := (store_scalar arr.vector (kind_size D * pos) (kind_size D)
                (sign_extend (kind_size S) (le_decode value.payload))) }) := by
      rw [array_set_value_impl_convert rt arr value pos strict_enums strict_signs S D hvc hec
        hDstr hDbool hDval hSval hi, load_value_signed rt S hS, assign_element_signed rt D hD]
      simp [is_ok, ASSIGN_SIGNED, hsig, hes, htake]
    rw [hstore]
    rw [hes] at hlen
    have hslot := slot_store_scalar arr.vector (kind_size D) arr.max_length pos
      (sign_extend (kind_size S) (le_decode value.payload)) hlen hpos
    refine ⟨fun hle => ⟨?_, ?_, ?_⟩, fun hlt => ?_⟩
    · simp only [CHECK_WIDENING_CONVERSION]
      rw [if_neg (by omega)]
    · simp only [MonoArray.slot, hes]
      rw [hslot.1]
      have hlt : le_decode value.payload < 2 ^ (8 * kind_size S) := by
        rw [← hpl]; exact le_decode_lt value.payload hbytes
      have hr := sign_extend_range (kind_size S) (le_decode value.payload) hSpos hlt
      have hm := two_pow_bytes_mono (kind_size S) (kind_size D) hle
      apply sign_extend_emod (kind_size D) _ hDpos <;> omega
    · intro q hq
      simp only [MonoArray.slot, hes]
      exact hslot.2.1 q hq
    · simp only [CHECK_WIDENING_CONVERSION]
      rw [if_pos (by omega)]
  · -- the direct copy of a value of the element class itself
    obtain ⟨hSD, hstore⟩ := array_set_value_impl_same_class rt arr value pos strict_enums
      strict_signs S D hvc hec (hinst hi) hi hesize hpayload
    subst hSD
    rw [hstore]
    have hw := write_slot arr.vector arr.element_size arr.max_length pos value.payload hlen
      hpos (by rw [hpl, hes])
    refine ⟨fun _ => ⟨rfl, ?_, ?_⟩, fun hlt => absurd hlt (lt_irrefl _)⟩
    · simp only [MonoArray.slot]
      rw [hw.1]
    · intro q hq
      simp only [MonoArray.slot]
      exact hw.2.1 q hq

theorem array_set_signed_into_signed_witness :
    (array_set_value_impl exact_runtime int32_array (some boxed_int16) 1 false false).1
        = MonoError.ok
    ∧ sign_extend 4 (le_decode
        ((array_set_value_impl exact_runtime int32_array (some boxed_int16) 1
          false false).2.slot 1)) = -5
    ∧ (array_set_value_impl exact_runtime int32_array (some boxed_int16) 1 false false).2.slot 1
        = [0xfb, 0xff, 0xff, 0xff] :=
  have h := (array_set_signed_into_signed exact_runtime int32_array boxed_int16 1 false false
    MONO_TYPE_I2 MONO_TYPE_I4 (by decide) (by decide) (by decide) (by decide) (by decide)
    (by decide) (by decide) (by decide) (by decide) (by decide)).1 (by decide)
  ⟨h.1, h.2.1.trans (by decide), by decide⟩

/-- Claim C14: with `strict_signs` set, a value of an unsigned integer kind or `Char`, of
`v` bytes, stored into an array of a signed integer kind of `e` bytes leaves no error
exactly when `e >= v + 1`, the slot then holding the value; otherwise the error is the
argument error of a refused widening. A value of a signed kind stored into an array of an
unsigned kind or `Char` is always that argument error, and the array is left as it was. -/
theorem array_set_strict_signs_cross_sign (rt : MonoRuntime) (arr : MonoArray)
    (value : MonoObject) (pos : Nat) (strict_enums : Bool) (S D : Nat)
    (hvc : is_primitive_of value.klass S = true)
    (hec : is_primitive_of arr.element_class D = true)
    (hinst : rt.isinst value arr.element_class = true → value.klass = arr.element_class)
    (hlen : arr.vector.length = arr.max_length * arr.element_size)
    (hesize : arr.element_size = mono_class_value_size arr.element_class)
    (hpos : pos < arr.max_length)
    (hpayload : value.payload.length = mono_class_value_size value.klass)
    (hbytes : ∀ b ∈ value.payload, b < 256) :
    (S ∈ unsigned_kinds → D ∈ signed_kinds →
      ((array_set_value_impl rt arr (some value) pos strict_enums true).1 = MonoError.ok
          ↔ kind_size S + 1 ≤ kind_size D)
      ∧ (¬ kind_size S + 1 ≤ kind_size D →
          (array_set_value_impl rt arr (some value) pos strict_enums true).1
            = MonoError.argument)
      ∧ (kind_size S + 1 ≤ kind_size D →
          le_decode ((array_set_value_impl rt arr (some value) pos strict_enums true).2.slot pos)
            = le_decode value.payload
          ∧ ∀ q, q ≠ pos →
              (array_set_value_impl rt arr (some value) pos strict_enums true).2.slot q
                = arr.slot q))
    ∧ (S ∈ signed_kinds → D ∈ unsigned_kinds →
        array_set_value_impl rt arr (some value) pos strict_enums true
          = (MonoError.argument, arr)) := by
  obtain ⟨_, _, _, hSs⟩ := (is_primitive_of_iff _ _).1 hvc
  obtain ⟨_, _, _, hDs⟩ := (is_primitive_of_iff _ _).1 hec
  have hes : arr.element_size = kind_size D := by rw [hesize, hDs]
  have hpl : value.payload.length = kind_size S := by rw [hpayload, hSs]
  constructor
  · intro hS hD
    rw [array_set_value_impl_unsigned_into_signed rt arr value pos strict_enums true S D hS hD
      hvc hec hinst hesize hpayload]
    rw [hes] at hlen
    have hslot := slot_store_scalar arr.vector (kind_size D) arr.max_length pos
      ((le_decode value.payload : Nat) : Int) hlen hpos
    simp only [CHECK_WIDENING_CONVERSION, if_true]
    refine ⟨?_, ?_, ?_⟩
    · by_cases h : kind_size D < kind_size S + 1
      · rw [if_pos h]; constructor
        · intro h'; cases h'
        · intro h'; omega
      · rw [if_neg h]; constructor
        · intro _; omega
        · intro _; rfl
    · intro h
      rw [if_pos (by omega)]
    · intro h
      have hlt : le_decode value.payload < 2 ^ (8 * kind_size S) := by
        rw [← hpl]; exact le_decode_lt value.payload hbytes
      have hle := two_pow_bytes_le (kind_size S) (kind_size D) (by omega)
      refine ⟨?_, ?_⟩
      · simp only [MonoArray.slot, hes]
        rw [hslot.1, int_cast_emod_toNat _ _ (by omega)]
      · intro q hq
        simp only [MonoArray.slot, hes]
        exact hslot.2.1 q hq
  · intro hS hD
    rw [array_set_value_impl_signed_into_unsigned rt arr value pos strict_enums true S D hS hD
      hvc hec hinst hesize hpayload]
    simp

theorem array_set_strict_signs_cross_sign_witness :
    (array_set_value_impl exact_runtime int16_array (some boxed_uint16) 1 true true).1
        = MonoError.argument
    ∧ ¬ (kind_size MONO_TYPE_U2 + 1 ≤ kind_size MONO_TYPE_I2) :=
  ⟨((array_set_strict_signs_cross_sign exact_runtime int16_array boxed_uint16 1 true
      MONO_TYPE_U2 MONO_TYPE_I2 (by decide) (by decide) (by decide) (by decide) (by decide)
      (by decide) (by decide) (by decide)).1 (by decide) (by decide)).2.1 (by decide),
    by decide⟩

/-- Claim C15: with `strict_signs` clear, a value of an integer kind of `v` bytes stored
into an array of an integer kind of the opposite signedness and `e` bytes leaves no error
exactly when `e >= v`, otherwise the argument error of a refused widening; when it leaves
no error the slot holds the value, sign extended if the source is signed and zero extended
if it is unsigned, modulo `2 ^ (8 * e)`, and the other slots are as before. -/
theorem array_set_relaxed_signs_cross_sign (rt : MonoRuntime) (arr : MonoArray)
    (value : MonoObject) (pos : Nat) (strict_enums : Bool) (S D : Nat)
    (hvc : is_primitive_of value.klass S = true)
    (hec : is_primitive_of arr.element_class D = true)
    (hinst : rt.isinst value arr.element_class = true → value.klass = arr.element_class)
    (hlen : arr.vector.length = arr.max_length * arr.element_size)
    (hesize : arr.element_size = mono_class_value_size arr.element_class)
    (hpos : pos < arr.max_length)
    (hpayload : value.payload.length = mono_class_value_size value.klass) :
    (S ∈ signed_kinds → D ∈ unsigned_kinds →
      ((array_set_value_impl rt arr (some value) pos strict_enums false).1 = MonoError.ok
          ↔ kind_size S ≤ kind_size D)
      ∧ (kind_size D < kind_size S →
          (array_set_value_impl rt arr (some value) pos strict_enums false).1
            = MonoError.argument)
      ∧ (kind_size S ≤ kind_size D →
          le_decode ((array_set_value_impl rt arr (some value) pos strict_enums false).2.slot pos)
            = (sign_extend (kind_size S) (le_decode value.payload)
                % 2 ^ (8 * kind_size D)).toNat
          ∧ ∀ q, q ≠ pos →
              (array_set_value_impl rt arr (some value) pos strict_enums false).2.slot q
                = arr.slot q))
    ∧ (S ∈ unsigned_kinds → D ∈ signed_kinds →
      ((array_set_value_impl rt arr (some value) pos strict_enums false).1 = MonoError.ok
          ↔ kind_size S ≤ kind_size D)
      ∧ (kind_size D < kind_size S →
          (array_set_value_impl rt arr (some value) pos strict_enums false).1
            = MonoError.argument)
      ∧ (kind_size S ≤ kind_size D →
          le_decode ((array_set_value_impl rt arr (some value) pos strict_enums false).2.slot pos)
            = (((le_decode value.payload : Nat) : Int) % 2 ^ (8 * kind_size D)).toNat
          ∧ ∀ q, q ≠ pos →
              (array_set_value_impl rt arr (some value) pos strict_enums false).2.slot q
                = arr.slot q)) := by
  obtain ⟨_, _, _, hDs⟩ := (is_primitive_of_iff _ _).1 hec
  have hes : arr.element_size = kind_size D := by rw [hesize, hDs]
  rw [hes] at hlen
  have hcheck : (CHECK_WIDENING_CONVERSION (kind_size D) (kind_size S) 0 = MonoError.ok
        ↔ kind_size S ≤ kind_size D)
      ∧ (kind_size D < kind_size S →
        CHECK_WIDENING_CONVERSION (kind_size D) (kind_size S) 0 = MonoError.argument) := by
    simp only [CHECK_WIDENING_CONVERSION]
    by_cases h : kind_size D < kind_size S + 0
    · rw [if_pos h]
      exact ⟨⟨fun h' => (by cases h'), fun h' => (by omega)⟩, fun _ => rfl⟩
    · rw [if_neg h]
      exact ⟨⟨fun _ => (by omega), fun _ => rfl⟩, fun h' => (by omega)⟩
  constructor
  · intro hS hD
    rw [array_set_value_impl_signed_into_unsigned rt arr value pos strict_enums false S D hS hD
      hvc hec hinst hesize hpayload]
    have hslot := slot_store_scalar arr.vector (kind_size D) arr.max_length pos
      (sign_extend (kind_size S) (le_decode value.payload)) hlen hpos
    simp only [Bool.false_eq_true, if_false]
    refine ⟨hcheck.1, hcheck.2, fun _ => ⟨?_, ?_⟩⟩
    · simp only [MonoArray.slot, hes]
      exact hslot.1
    · intro q hq
      simp only [MonoArray.slot, hes]
      exact hslot.2.1 q hq
  · intro hS hD
    rw [array_set_value_impl_unsigned_into_signed rt arr value pos strict_enums false S D hS hD
      hvc hec hinst hesize hpayload]
    have hslot := slot_store_scalar arr.vector (kind_size D) arr.max_length pos
      ((le_decode value.payload : Nat) : Int) hlen hpos
    simp only [Bool.false_eq_true, if_false]
    refine ⟨hcheck.1, hcheck.2, fun _ => ⟨?_, ?_⟩⟩
    · simp only [MonoArray.slot, hes]
      exact hslot.1
    · intro q hq
      simp only [MonoArray.slot, hes]
      exact hslot.2.1 q hq

theorem array_set_relaxed_signs_cross_sign_witness :
    (array_set_value_impl exact_runtime uint32_array (some boxed_int16) 1 false false).1
        = MonoError.ok
    ∧ le_decode
        ((array_set_value_impl exact_runtime uint32_array (some boxed_int16) 1
          false false).2.slot 1) = 4294967291 :=
  have h := (array_set_relaxed_signs_cross_sign exact_runtime uint32_array boxed_int16 1 false
    MONO_TYPE_I2 MONO_TYPE_U4 (by decide) (by decide) (by decide) (by decide) (by decide)
    (by decide) (by decide)).1 (by decide) (by decide)
  ⟨h.1.2 (by decide), (h.2.2 (by decide)).1.trans (by decide)⟩

/-! ## Floating point conversions -/

/-- Claim C16: for an array of a floating point kind (`R4` or `R8`) and every strictness
setting, a value of any integer kind (`I1` to `U8`, `Char`, the native integers) is stored
with no error whatever the sizes, the slot then holding the conversion of the integer to
the type of the element; a value of a floating point kind is stored with no error exactly
when the destination is at least as wide as the source, the argument error of a refused
widening being left otherwise: `R8` into an `R4[]` is refused, `R4` into an `R8[]` is
stored. A floating point value that is stored is in the slot as it was when it is of the
class of the element, and else read as a double and converted to the type of the
element. The other slots are as before. -/
theorem array_set_into_real (rt : MonoRuntime) (arr : MonoArray) (value : MonoObject)
    (pos : Nat) (strict_enums strict_signs : Bool) (S D : Nat)
    (hD : D ∈ real_kinds)
    (hvc : is_primitive_of value.klass S = true)
    (hec : is_primitive_of arr.element_class D = true)
    (hinst : rt.isinst value arr.element_class = true → value.klass = arr.element_class)
    (hlen : arr.vector.length = arr.max_length * arr.element_size)
    (hesize : arr.element_size = mono_class_value_size arr.element_class)
    (hpos : pos < arr.max_length)
    (hpayload : value.payload.length = mono_class_value_size value.klass) :
    (S ∈ signed_kinds ∨ S ∈ unsigned_kinds →
      (array_set_value_impl rt arr (some value) pos strict_enums strict_signs).1 = MonoError.ok)
    ∧ (S ∈ real_kinds →
      ((array_set_value_impl rt arr (some value) pos strict_enums strict_signs).1 = MonoError.ok
          ↔ kind_size S ≤ kind_size D)
      ∧ (kind_size D < kind_size S →
          (array_set_value_impl rt arr (some value) pos strict_enums strict_signs).1
            = MonoError.argument))
    ∧ kind_size MONO_TYPE_R4 < kind_size MONO_TYPE_R8
    ∧ (S ∈ signed_kinds →
      (array_set_value_impl rt arr (some value) pos strict_enums strict_signs).2.slot pos
        = le_encode (kind_size D)
            (if D = MONO_TYPE_R4 then
              rt.i64_to_r4 (sign_extend (kind_size S) (le_decode value.payload))
            else rt.i64_to_r8 (sign_extend (kind_size S) (le_decode value.payload))))
    ∧ (S ∈ unsigned_kinds →
      (array_set_value_impl rt arr (some value) pos strict_enums strict_signs).2.slot pos
        = le_encode (kind_size D)
            (if D = MONO_TYPE_R4 then rt.u64_to_r4 (le_decode value.payload)
            else rt.u64_to_r8 (le_decode value.payload)))
    ∧ (S ∈ real_kinds → kind_size S ≤ kind_size D →
      (array_set_value_impl rt arr (some value) pos strict_enums strict_signs).2.slot pos
        = if rt.isinst value arr.element_class = true then value.payload
          else le_encode (kind_size D)
            (if D = MONO_TYPE_R4 then
              rt.r8_to_r4 (if S = MONO_TYPE_R4 then rt.r4_to_r8 (le_decode value.payload)
                else le_decode value.payload)
            else (if S = MONO_TYPE_R4 then rt.r4_to_r8 (le_decode value.payload)
              else le_decode value.payload)))
    ∧ (S ∈ signed_kinds ∨ S ∈ unsigned_kinds ∨ S ∈ real_kinds →
      ∀ q, q ≠ pos →
        (array_set_value_impl rt arr (some value) pos strict_enums strict_signs).2.slot q
          = arr.slot q) := by
  obtain ⟨_, _, _, hSs⟩ := (is_primitive_of_iff _ _).1 hvc
  obtain ⟨_, _, _, hDs⟩ := (is_primitive_of_iff _ _).1 hec
  have hes : arr.element_size = kind_size D := by rw [hesize, hDs]
  have hpl : value.payload.length = kind_size S := by rw [hpayload, hSs]
  obtain ⟨hDstr, hDbool, hDval⟩ := numeric_kind_tags D (Or.inr (Or.inr hD))
  have hint := fun h => array_set_value_impl_integer_into_real rt arr value pos strict_enums
    strict_signs S D h hD hvc hec hinst hpayload
  have hreal := fun h hi => array_set_value_impl_real_into_real rt arr value pos strict_enums
    strict_signs S D h hD hvc hec hi hesize hpayload
  have hslot := fun bs hbs => slot_mem_write arr pos bs hlen hpos hbs
  have hencode : ∀ v, (le_encode (kind_size D) v).length = arr.element_size := by
    intro v
    rw [le_encode_length, hes]
  refine ⟨?_, ?_, by decide, ?_, ?_, ?_, ?_⟩
  · intro hS
    rw [hint hS]
  · intro hS
    cases hi : rt.isinst value arr.element_class
    · rw [hreal hS hi]
      simp only [CHECK_WIDENING_CONVERSION]
      by_cases h : kind_size D < kind_size S + 0
      · rw [if_pos h]
        exact ⟨⟨fun h' => (by cases h'), fun h' => (by omega)⟩, fun _ => rfl⟩
      · rw [if_neg h]
        exact ⟨⟨fun _ => (by omega), fun _ => rfl⟩, fun h' => (by omega)⟩
    · obtain ⟨hSD, hstore⟩ := array_set_value_impl_same_class rt arr value pos strict_enums
        strict_signs S D hvc hec (hinst hi) hi hesize hpayload
      subst hSD
      rw [hstore]
      exact ⟨⟨fun _ => le_refl _, fun _ => rfl⟩, fun h => absurd h (lt_irrefl _)⟩
  · intro hS
    rw [hint (Or.inl hS), if_pos hS]
    exact (hslot _ (hencode _)).1
  · intro hS
    have hns : S ∉ signed_kinds := fun h => ((kind_families_disjoint S).1 h).1 hS
    rw [hint (Or.inr hS), if_neg hns]
    exact (hslot _ (hencode _)).1
  · intro hS _
    cases hi : rt.isinst value arr.element_class
    · rw [hreal hS hi]
      simp only [Bool.false_eq_true, if_false]
      exact (hslot _ (hencode _)).1
    · obtain ⟨hSD, hstore⟩ := array_set_value_impl_same_class rt arr value pos strict_enums
        strict_signs S D hvc hec (hinst hi) hi hesize hpayload
      rw [hstore]
      simp only [if_true]
      exact (hslot _ (by rw [hpl, hes, hSD])).1
  · intro hS q hq
    rcases hS with hS | hS | hS
    · rw [hint (Or.inl hS)]
      exact (hslot _ (hencode _)).2 q hq
    · rw [hint (Or.inr hS)]
      exact (hslot _ (hencode _)).2 q hq
    · cases hi : rt.isinst value arr.element_class
      · rw [hreal hS hi]
        exact (hslot _ (hencode _)).2 q hq
      · obtain ⟨hSD, hstore⟩ := array_set_value_impl_same_class rt arr value pos strict_enums
          strict_signs S D hvc hec (hinst hi) hi hesize hpayload
        rw [hstore]
        exact (hslot _ (by rw [hpl, hes, hSD])).2 q hq

theorem array_set_into_real_witness :
    (array_set_value_impl exact_runtime single_array (some boxed_double) 1 true true).1
        = MonoError.argument
    ∧ (array_set_value_impl exact_runtime single_array (some boxed_double) 1 false false).1
        = MonoError.argument
    ∧ (array_set_value_impl exact_runtime double_array (some boxed_single) 0 true true).1
        = MonoError.ok
    ∧ (array_set_value_impl exact_runtime single_array (some boxed_int64) 1 true true).1
        = MonoError.ok
    ∧ (array_set_value_impl exact_runtime double_array (some boxed_single) 0 true true).2.slot 0
        = le_encode 8 (exact_runtime.r4_to_r8 0x3f800000)
    ∧ (array_set_value_impl exact_runtime single_array (some boxed_int64) 1 true true).2.slot 1
        = le_encode 4 (exact_runtime.i64_to_r4 0x0807060504030201)
    ∧ (array_set_value_impl exact_runtime single_array (some boxed_int64) 1 true true).2.slot 0
        = single_array.slot 0
    ∧ (array_set_value_impl exact_runtime single_array (some boxed_single) 1 true true).2.slot 1
        = boxed_single.payload :=
  have h1 := array_set_into_real exact_runtime single_array boxed_double 1 true true
    MONO_TYPE_R8 MONO_TYPE_R4 (by decide) (by decide) (by decide) (by decide) (by decide)
    (by decide) (by decide) (by decide)
  have h2 := array_set_into_real exact_runtime double_array boxed_single 0 true true
    MONO_TYPE_R4 MONO_TYPE_R8 (by decide) (by decide) (by decide) (by decide) (by decide)
    (by decide) (by decide) (by decide)
  have h3 := array_set_into_real exact_runtime single_array boxed_int64 1 true true
    MONO_TYPE_I8 MONO_TYPE_R4 (by decide) (by decide) (by decide) (by decide) (by decide)
    (by decide) (by decide) (by decide)
  have h4 := array_set_into_real exact_runtime single_array boxed_single 1 true true
    MONO_TYPE_R4 MONO_TYPE_R4 (by decide) (by decide) (by decide) (by decide) (by decide)
    (by decide) (by decide) (by decide)
  ⟨(h1.2.1 (by decide)).2 (by decide),
    by decide,
    (h2.2.1 (by decide)).1.2 (by decide),
    h3.1 (Or.inl (by decide)),
    (h2.2.2.2.2.2.1 (by decide) (by decide)).trans (by decide),
    (h3.2.2.2.1 (by decide)).trans (by decide),
    h3.2.2.2.2.2.2 (Or.inl (by decide)) 0 (by decide),
    (h4.2.2.2.2.2.1 (by decide) (by decide)).trans (by decide)⟩

/-- Claim C17: a value of a floating point kind (`R4`, `R8`) stored into an array of any
integer kind or of `Char`, under every strictness setting, is the argument error of a
refused widening, never the invalid cast and never a store: the array is left as it
was. -/
theorem array_set_real_into_integer (rt : MonoRuntime) (arr : MonoArray) (value : MonoObject)
    (pos : Nat) (strict_enums strict_signs : Bool) (S D : Nat)
    (hS : S ∈ real_kinds) (hD : D ∈ signed_kinds ∨ D ∈ unsigned_kinds)
    (hvc : is_primitive_of value.klass S = true)
    (hec : is_primitive_of arr.element_class D = true)
    (hinst : rt.isinst value arr.element_class = true → value.klass = arr.element_class) :
    array_set_value_impl rt arr (some value) pos strict_enums strict_signs
        = (MonoError.argument, arr)
    ∧ (array_set_value_impl rt arr (some value) pos strict_enums strict_signs).1
        ≠ MonoError.invalid_cast
    ∧ (array_set_value_impl rt arr (some value) pos strict_enums strict_signs).1
        ≠ MonoError.ok := by
  have hne : S ≠ D := by
    intro h
    subst h
    rcases hD with hD | hD
    · exact ((kind_families_disjoint S).1 hD).2 hS
    · exact (kind_families_disjoint S).2 hD hS
  have hi := isinst_false_of_kind_ne rt arr value S D hvc hec hinst hne
  obtain ⟨hDstr, hDbool, hDval⟩ := numeric_kind_tags D
    (hD.elim Or.inl (fun h => Or.inr (Or.inl h)))
  obtain ⟨_, _, hSval⟩ := numeric_kind_tags S (Or.inr (Or.inr hS))
  obtain ⟨hsig, huns, hreal, _⟩ := kind_classes_real S hS
  have hload := load_value_real rt S hS (fold_native D) value.payload
  have hstore : array_set_value_impl rt arr (some value) pos strict_enums strict_signs
      = (MonoError.argument, arr) := by
    rw [array_set_value_impl_convert rt arr value pos strict_enums strict_signs S D hvc hec
      hDstr hDbool hDval hSval hi]
    rcases hD with hD | hD
    · rw [assign_element_signed rt D hD]
      simp [hload, is_ok, ASSIGN_SIGNED, hsig, huns, hreal]
    · rw [assign_element_unsigned rt D hD]
      simp [hload, is_ok, ASSIGN_UNSIGNED, hsig, huns, hreal]
  rw [hstore]
  exact ⟨rfl, fun h => MonoError.noConfusion h, fun h => MonoError.noConfusion h⟩

theorem array_set_real_into_integer_witness :
    array_set_value_impl exact_runtime int32_array (some boxed_double) 1 false false
      = (MonoError.argument, int32_array) :=
  (array_set_real_into_integer exact_runtime int32_array boxed_double 1 false false
    MONO_TYPE_R8 MONO_TYPE_I4 (by decide) (Or.inl (by decide)) (by decide) (by decide)
    (by decide)).1

/-! ## The icall registry and the resolver -/

/-- Claim C18, as the code has it: registration is last write wins. After a name `k` is
registered with `(f1, flags1)` and then with `(f2, flags2)`, resolving a method that is
not the constructor of `String` and whose key fits the buffer answers `f2` with `flags2`
when its key with the signature is `k`, and also when its key without the signature is
`k` and nothing is registered under its key with the signature. -/
theorem register_last_write_wins (st : IcallState) (k : List Nat) (f1 f2 : IcallPointer)
    (flags1 flags2 : Nat) (mname : List Nat) (method : MonoMethod) (warn_on_missing : Bool)
    (flags : Option Nat)
    (hwf : icall_names_wf (mono_method_declaring method) = true)
    (hfit : icall_key_fits (mono_method_declaring method) = true)
    (hctor : is_string_ctor (mono_method_declaring method) = false) :
    (icall_key_qualified (mono_method_declaring method) = k →
      (mono_lookup_internal_call_full_with_flags
          (add_internal_call_with_flags (add_internal_call_with_flags st k f1 flags1).1
            k f2 flags2).1 mname method warn_on_missing flags).res = f2
      ∧ (mono_lookup_internal_call_full_with_flags
          (add_internal_call_with_flags (add_internal_call_with_flags st k f1 flags1).1
            k f2 flags2).1 mname method warn_on_missing flags).flags
          = flags.map (fun _ => flags2))
    ∧ (icall_key_unqualified (mono_method_declaring method) = k →
      g_hash_table_lookup st.icall_hash (icall_key_qualified (mono_method_declaring method))
        = none →
      (mono_lookup_internal_call_full_with_flags
          (add_internal_call_with_flags (add_internal_call_with_flags st k f1 flags1).1
            k f2 flags2).1 mname method warn_on_missing flags).res = f2
      ∧ (mono_lookup_internal_call_full_with_flags
          (add_internal_call_with_flags (add_internal_call_with_flags st k f1 flags1).1
            k f2 flags2).1 mname method warn_on_missing flags).flags
          = flags.map (fun _ => flags2)) := by
  have hk : g_hash_table_lookup
      (add_internal_call_with_flags (add_internal_call_with_flags st k f1 flags1).1
        k f2 flags2).1.icall_hash k = some { method := f2, flags := flags2 } :=
    g_hash_table_lookup_insert_same _ _ _
  constructor
  · intro hq
    have h := lookup_qualified_hit
      (add_internal_call_with_flags (add_internal_call_with_flags st k f1 flags1).1
        k f2 flags2).1 mname method warn_on_missing flags _ hwf hfit hctor (by rw [hq]; exact hk)
    exact ⟨h.1, h.2.1⟩
  · intro hu hnone
    have hne : icall_key_qualified (mono_method_declaring method) ≠ k := by
      rw [← hu]; exact icall_key_qualified_ne_unqualified _
    have hq : g_hash_table_lookup
        (add_internal_call_with_flags (add_internal_call_with_flags st k f1 flags1).1
          k f2 flags2).1.icall_hash (icall_key_qualified (mono_method_declaring method))
        = none := by
      simp only [add_internal_call_with_flags]
      rw [g_hash_table_lookup_insert_other _ _ _ _ hne,
        g_hash_table_lookup_insert_other _ _ _ _ hne]
      exact hnone
    have h := lookup_unqualified_hit
      (add_internal_call_with_flags (add_internal_call_with_flags st k f1 flags1).1
        k f2 flags2).1 mname method warn_on_missing flags _ hwf hfit hctor hq
      (by rw [hu]; exact hk)
    exact ⟨h.1, h.2.1⟩

theorem register_last_write_wins_witness :
    (mono_lookup_internal_call_full_with_flags
        (add_internal_call_with_flags
          (add_internal_call_with_flags empty_icall_state (c_str "System.Math::Sqrt")
            (IcallPointer.code 1) 2).1
          (c_str "System.Math::Sqrt") (IcallPointer.code 2) 8).1
        stack_garbage (MonoMethod.method sqrt_method) true (some 0)).res = IcallPointer.code 2
    ∧ (mono_lookup_internal_call_full_with_flags
        (add_internal_call_with_flags
          (add_internal_call_with_flags empty_icall_state (c_str "System.Math::Sqrt")
            (IcallPointer.code 1) 2).1
          (c_str "System.Math::Sqrt") (IcallPointer.code 2) 8).1
        stack_garbage (MonoMethod.method sqrt_method) true (some 0)).flags = some 8 :=
  (register_last_write_wins empty_icall_state (c_str "System.Math::Sqrt") (IcallPointer.code 1)
    (IcallPointer.code 2) 2 8 stack_garbage (MonoMethod.method sqrt_method) true (some 0)
    (by decide) (by decide) (by decide)).2 (by decide) (by decide)

/-- Claim C18 fails as stated: with `N.T::M(int)` registered, `N.T::M` is registered with
one function and then with another; the key without signature of the method `M (int)` of
`N.T` is `N.T::M`, yet resolving it answers the entry of `N.T::M(int)`, not the function
registered last under `N.T::M`. And the constructor of `String` is answered without a look
at the registry, whatever was registered last under its key. -/
theorem register_last_write_shadowed_by_qualified :
    icall_key_unqualified m_int_method = c_str "N.T::M"
    ∧ g_hash_table_lookup m_overloads_registered.icall_hash (c_str "N.T::M")
        = some { method := IcallPointer.code 0x2222, flags := 8 }
    ∧ (mono_lookup_internal_call_full_with_flags m_overloads_registered stack_garbage
        (MonoMethod.method m_int_method) true (some 0)).res = IcallPointer.code 0x3333
    ∧ (mono_lookup_internal_call_full_with_flags m_overloads_registered stack_garbage
        (MonoMethod.method m_int_method) true (some 0)).flags = some 2
    ∧ icall_key_unqualified string_ctor_char_int_method = c_str "System.String::.ctor"
    ∧ g_hash_table_lookup string_ctor_twice_registered.icall_hash (c_str "System.String::.ctor")
        = some { method := IcallPointer.code 0x6666, flags := 8 }
    ∧ (mono_lookup_internal_call_full_with_flags string_ctor_twice_registered stack_garbage
        (MonoMethod.method string_ctor_char_int_method) true (some 0)).res
        = IcallPointer.ves_icall_System_String_ctor_RedirectToCreateString := by
  decide

/-- Claim C19, as the code has it: for a method that is not the constructor of `String`
and whose key fits the buffer, an entry of the registry under its key with the signature
is what the resolver answers, function and flags, whatever else is registered and
whatever the secondary table holds: the table is probed once and the secondary table is
not called. So registering the key with the signature alone makes the method resolve. -/
theorem resolve_qualified_entry_first (st : IcallState) (mname : List Nat)
    (method : MonoMethod) (warn_on_missing : Bool) (flags : Option Nat)
    (hwf : icall_names_wf (mono_method_declaring method) = true)
    (hfit : icall_key_fits (mono_method_declaring method) = true)
    (hctor : is_string_ctor (mono_method_declaring method) = false) :
    (∀ v, g_hash_table_lookup st.icall_hash
        (icall_key_qualified (mono_method_declaring method)) = some v →
      (mono_lookup_internal_call_full_with_flags st mname method warn_on_missing flags).res
          = v.method
      ∧ (mono_lookup_internal_call_full_with_flags st mname method warn_on_missing flags).flags
          = flags.map (fun _ => v.flags)
      ∧ IcallEvent.table_lookup ∉
          (mono_lookup_internal_call_full_with_flags st mname method warn_on_missing
            flags).events
      ∧ IcallEvent.probe (icall_key_unqualified (mono_method_declaring method)) ∉
          (mono_lookup_internal_call_full_with_flags st mname method warn_on_missing
            flags).events)
    ∧ (∀ fn fl,
      (mono_lookup_internal_call_full_with_flags
          (add_internal_call_with_flags st
            (icall_key_qualified (mono_method_declaring method)) fn fl).1
          mname method warn_on_missing flags).res = fn
      ∧ (mono_lookup_internal_call_full_with_flags
          (add_internal_call_with_flags st
            (icall_key_qualified (mono_method_declaring method)) fn fl).1
          mname method warn_on_missing flags).flags = flags.map (fun _ => fl)) := by
  constructor
  · intro v hv
    have h := lookup_qualified_hit st mname method warn_on_missing flags v hwf hfit hctor hv
    refine ⟨h.1, h.2.1, ?_, ?_⟩
    · intro hmem
      have hc := mem_control_events _ _ hmem (by intro i n h'; cases h')
      rw [h.2.2] at hc
      simp at hc
    · intro hmem
      have hc := mem_control_events _ _ hmem (by intro i n h'; cases h')
      rw [h.2.2] at hc
      simp only [List.mem_cons, List.mem_singleton, List.mem_nil_iff, or_false] at hc
      rcases hc with hc | hc | hc
      · cases hc
      · injection hc with hc
        exact icall_key_qualified_ne_unqualified _ hc.symm
      · cases hc
  · intro fn fl
    have h := lookup_qualified_hit
      (add_internal_call_with_flags st
        (icall_key_qualified (mono_method_declaring method)) fn fl).1
      mname method warn_on_missing flags { method := fn, flags := fl } hwf hfit hctor
      (g_hash_table_lookup_insert_same _ _ _)
    exact ⟨h.1, h.2.1⟩

theorem resolve_qualified_entry_first_witness :
    (mono_lookup_internal_call_full_with_flags m_int_registered stack_garbage
        (MonoMethod.method m_int_method) true (some 0)).res = IcallPointer.code 0x1111
    ∧ (mono_lookup_internal_call_full_with_flags m_int_registered stack_garbage
        (MonoMethod.method m_int_method) true (some 0)).flags = some 2
    ∧ icall_key_qualified m_int_method = c_str "N.T::M(int)" :=
  have h := (resolve_qualified_entry_first m_int_registered stack_garbage
    (MonoMethod.method m_int_method) true (some 0) (by decide) (by decide) (by decide)).1
    { method := IcallPointer.code 0x1111, flags := 2 } (by decide)
  ⟨h.1, h.2.1, by decide⟩

/-- Claim C19 fails as stated: the registry holds an entry under the key with signature of
the constructor `String..ctor (char[])`, and the resolver answers
`ves_icall_System_String_ctor_RedirectToCreateString` and leaves the flags alone; and it
holds an entry under the key of a method whose key does not fit the buffer, and the
resolver answers null. -/
theorem resolve_qualified_entry_not_returned :
    g_hash_table_lookup string_ctor_registered.icall_hash
        (icall_key_qualified string_ctor_method)
        = some { method := IcallPointer.code 0x9999, flags := 2 }
    ∧ (mono_lookup_internal_call_full_with_flags string_ctor_registered stack_garbage
        (MonoMethod.method string_ctor_method) true (some 0)).res
        = IcallPointer.ves_icall_System_String_ctor_RedirectToCreateString
    ∧ (mono_lookup_internal_call_full_with_flags string_ctor_registered stack_garbage
        (MonoMethod.method string_ctor_method) true (some 0)).flags = some 0
    ∧ g_hash_table_lookup long_registered.icall_hash (icall_key_qualified long_method)
        = some { method := IcallPointer.code 0x5555, flags := 2 }
    ∧ (mono_lookup_internal_call_full_with_flags long_registered stack_garbage
        (MonoMethod.method long_method) true (some 0)).res = IcallPointer.NULL := by
  refine ⟨by decide, by decide, by decide, g_hash_table_lookup_insert_same _ _ _, ?_⟩
  exact (lookup_key_too_long long_registered stack_garbage (MonoMethod.method long_method)
    true (some 0) (by decide) (by decide) (by decide)
    long_method_too_long).1

/-- Claim C20, as the code has it: for a method that is not the constructor of `String`
and whose key fits the buffer, when the registry has no entry under the key with the
signature and has one under the key without it, the resolver answers that entry, function
and flags, and does not call the secondary table. -/
theorem resolve_unqualified_fallback (st : IcallState) (mname : List Nat)
    (method : MonoMethod) (warn_on_missing : Bool) (flags : Option Nat)
    (v : MonoIcallHashTableValue)
    (hwf : icall_names_wf (mono_method_declaring method) = true)
    (hfit : icall_key_fits (mono_method_declaring method) = true)
    (hctor : is_string_ctor (mono_method_declaring method) = false)
    (hnone : g_hash_table_lookup st.icall_hash
      (icall_key_qualified (mono_method_declaring method)) = none)
    (hv : g_hash_table_lookup st.icall_hash
      (icall_key_unqualified (mono_method_declaring method)) = some v) :
    (mono_lookup_internal_call_full_with_flags st mname method warn_on_missing flags).res
        = v.method
    ∧ (mono_lookup_internal_call_full_with_flags st mname method warn_on_missing flags).flags
        = flags.map (fun _ => v.flags)
    ∧ IcallEvent.table_lookup ∉
        (mono_lookup_internal_call_full_with_flags st mname method warn_on_missing
          flags).events
    ∧ icall_key_qualified (mono_method_declaring method)
        = icall_key_unqualified (mono_method_declaring method) ++ [40]
            ++ (mono_method_declaring method).signature_desc ++ [41] := by
  have h := lookup_unqualified_hit st mname method warn_on_missing flags v hwf hfit hctor
    hnone hv
  refine ⟨h.1, h.2.1, ?_, rfl⟩
  intro hmem
  have hc := mem_control_events _ _ hmem (by intro i n h'; cases h')
  rw [h.2.2] at hc
  simp at hc

theorem resolve_unqualified_fallback_witness :
    (mono_lookup_internal_call_full_with_flags sqrt_unqualified_registered stack_garbage
        (MonoMethod.method sqrt_method) true (some 0)).res = IcallPointer.code 0x5a17
    ∧ (mono_lookup_internal_call_full_with_flags sqrt_unqualified_registered stack_garbage
        (MonoMethod.method sqrt_method) true (some 0)).flags = some 2
    ∧ icall_key_qualified sqrt_method = c_str "System.Math::Sqrt(double)"
    ∧ icall_key_unqualified sqrt_method = c_str "System.Math::Sqrt" :=
  have h := resolve_unqualified_fallback sqrt_unqualified_registered stack_garbage
    (MonoMethod.method sqrt_method) true (some 0)
    { method := IcallPointer.code 0x5a17, flags := 2 } (by decide) (by decide) (by decide)
    (by decide) (by decide)
  ⟨h.1, h.2.1, by decide, by decide⟩

/-- Claim C20 fails as stated: the registry holds no entry under the key with signature
of the constructor `String..ctor (char[])` and one under its key without signature, and
the resolver answers `ves_icall_System_String_ctor_RedirectToCreateString`, not that
entry; and for a method whose key does not fit the buffer it answers null. -/
theorem resolve_unqualified_entry_not_returned :
    g_hash_table_lookup string_ctor_unqualified_registered.icall_hash
        (icall_key_qualified string_ctor_method) = none
    ∧ g_hash_table_lookup string_ctor_unqualified_registered.icall_hash
        (icall_key_unqualified string_ctor_method)
        = some { method := IcallPointer.code 0x8888, flags := 2 }
    ∧ (mono_lookup_internal_call_full_with_flags string_ctor_unqualified_registered
        stack_garbage (MonoMethod.method string_ctor_method) true (some 0)).res
        = IcallPointer.ves_icall_System_String_ctor_RedirectToCreateString
    ∧ g_hash_table_lookup long_unqualified_registered.icall_hash
        (icall_key_unqualified long_method)
        = some { method := IcallPointer.code 0x4444, flags := 2 }
    ∧ g_hash_table_lookup long_unqualified_registered.icall_hash
        (icall_key_qualified long_method) = none
    ∧ (mono_lookup_internal_call_full_with_flags long_unqualified_registered stack_garbage
        (MonoMethod.method long_method) true (some 0)).res = IcallPointer.NULL := by
  refine ⟨by decide, by decide, by decide, g_hash_table_lookup_insert_same _ _ _, ?_, ?_⟩
  · have hne := icall_key_qualified_ne_unqualified long_method
    simp only [long_unqualified_registered, add_internal_call_with_flags]
    rw [g_hash_table_lookup_insert_other _ _ _ _ hne]
    rfl
  · exact (lookup_key_too_long long_unqualified_registered stack_garbage
      (MonoMethod.method long_method) true (some 0) (by decide) (by decide) (by decide)
      long_method_too_long).1

/-! ## The widening table -/

/-- The integers the store engine loads for a value of an integer kind lie between
`kind_min` and `kind_max` of the kind. -/
theorem loaded_value_in_kind_range (t : Nat) (va : List Nat) (hbytes : ∀ b ∈ va, b < 256)
    (hlen : va.length = kind_size t) :
    (t ∈ signed_kinds →
      kind_min (fold_native t) ≤ sign_extend (kind_size t) (le_decode va)
      ∧ sign_extend (kind_size t) (le_decode va) ≤ kind_max (fold_native t))
    ∧ (t ∈ unsigned_kinds →
      kind_min (fold_native t) ≤ ((le_decode va : Nat) : Int)
      ∧ ((le_decode va : Nat) : Int) ≤ kind_max (fold_native t)) := by
  have hlt : le_decode va < 2 ^ (8 * kind_size t) := by
    rw [← hlen]; exact le_decode_lt va hbytes
  constructor
  · intro ht
    obtain ⟨hsig, _, _, hpos⟩ := kind_classes_signed t ht
    have hr := sign_extend_range (kind_size t) (le_decode va) hpos hlt
    have hk : kind_size (fold_native t) = kind_size t := by
      simp only [signed_kinds, List.mem_cons, List.mem_singleton, List.mem_nil_iff,
        or_false] at ht
      rcases ht with h | h | h | h | h <;> subst h <;> decide
    simp only [kind_min, kind_max, hsig, if_true, hk]
    push_cast at hr
    omega
  · intro ht
    obtain ⟨hsig, _, _, _⟩ := kind_classes_unsigned t ht
    have hk : kind_size (fold_native t) = kind_size t := by
      simp only [unsigned_kinds, List.mem_cons, List.mem_singleton, List.mem_nil_iff,
        or_false] at ht
      rcases ht with h | h | h | h | h | h <;> subst h <;> decide
    simp only [kind_min, kind_max, hsig, Bool.false_eq_true, if_false, hk]
    have h2 : ((le_decode va : Nat) : Int) < ((2 ^ (8 * kind_size t) : Nat) : Int) := by
      exact_mod_cast hlt
    push_cast at h2
    omega

/-- Claim C26: every pair of integer kinds that the widening table accepts is lossless.
For source and destination kinds among `Char`, `I1`, `U1`, `I2`, `U2`, `I4`, `U4`, `I8`,
`U8`, when `can_primitive_widen` answers true the range of the destination contains the
range of the source. -/
theorem can_primitive_widen_lossless (src dst : Nat)
    (hsrc : src ∈ table_integer_kinds) (hdst : dst ∈ table_integer_kinds)
    (hw : can_primitive_widen src dst = true) :
    kind_min dst ≤ kind_min src ∧ kind_max src ≤ kind_max dst := by
  have key : ∀ a ∈ table_integer_kinds, ∀ b ∈ table_integer_kinds,
      can_primitive_widen a b = true → kind_min b ≤ kind_min a ∧ kind_max a ≤ kind_max b := by
    decide
  exact key src hsrc dst hdst hw

theorem can_primitive_widen_lossless_witness :
    kind_min MONO_TYPE_I8 ≤ kind_min MONO_TYPE_U4
    ∧ kind_max MONO_TYPE_U4 ≤ kind_max MONO_TYPE_I8 :=
  can_primitive_widen_lossless MONO_TYPE_U4 MONO_TYPE_I8 (by decide) (by decide) (by decide)

/-- The rows of `primitive_conversions` against their comments: for every source kind
from Boolean to R8, the destination kinds in that range that `can_primitive_widen` accepts
are those of the comment `W = ...` on the row of the source kind, but for the pair of `U4`
and `U8`. -/
theorem can_primitive_widen_matches_comments (src dst : Nat)
    (hsrc : src ∈ table_kinds) (hdst : dst ∈ table_kinds) :
    (can_primitive_widen src dst = true ↔
      (dst ∈ primitive_conversions_comment src
        ∨ (src = MONO_TYPE_U4 ∧ dst = MONO_TYPE_U8)))
    ∧ widening_targets MONO_TYPE_U4
        = [MONO_TYPE_U4, MONO_TYPE_I8, MONO_TYPE_U8, MONO_TYPE_R4, MONO_TYPE_R8]
    ∧ widening_targets MONO_TYPE_BOOLEAN = [MONO_TYPE_BOOLEAN] := by
  have key : ∀ a ∈ table_kinds, ∀ b ∈ table_kinds,
      (can_primitive_widen a b = true ↔
        (b ∈ primitive_conversions_comment a ∨ (a = MONO_TYPE_U4 ∧ b = MONO_TYPE_U8))) := by
    decide
  exact ⟨key src hsrc dst hdst, by decide, by decide⟩

theorem can_primitive_widen_matches_comments_witness :
    (can_primitive_widen MONO_TYPE_I4 MONO_TYPE_I8 = true ↔
      (MONO_TYPE_I8 ∈ primitive_conversions_comment MONO_TYPE_I4
        ∨ (MONO_TYPE_I4 = MONO_TYPE_U4 ∧ MONO_TYPE_I8 = MONO_TYPE_U8)))
    ∧ can_primitive_widen MONO_TYPE_I4 MONO_TYPE_I8 = true :=
  ⟨(can_primitive_widen_matches_comments MONO_TYPE_I4 MONO_TYPE_I8 (by decide)
      (by decide)).1, by decide⟩

/-- Claim C27 on a failing input: the comment on the row of `U4` reads
`W = U4, I8, R4, R8`, and the mask of that row, `0x3E00`, has the bit of `U8` as well, so
`can_primitive_widen (U4, U8)` is true and the kinds that `U4` widens into are `U4`, `I8`,
`U8`, `R4` and `R8`. -/
theorem can_primitive_widen_u4_u8_not_in_comment :
    can_primitive_widen MONO_TYPE_U4 MONO_TYPE_U8 = true
    ∧ MONO_TYPE_U8 ∉ primitive_conversions_comment MONO_TYPE_U4
    ∧ primitive_conversions_comment MONO_TYPE_U4
        = [MONO_TYPE_U4, MONO_TYPE_I8, MONO_TYPE_R4, MONO_TYPE_R8]
    ∧ widening_targets MONO_TYPE_U4
        = [MONO_TYPE_U4, MONO_TYPE_I8, MONO_TYPE_U8, MONO_TYPE_R4, MONO_TYPE_R8]
    ∧ widening_targets MONO_TYPE_U4 ≠ primitive_conversions_comment MONO_TYPE_U4
    ∧ primitive_conversions.getD MONO_TYPE_U4 0 = (PT_Primitive ||| 0x3E00) := by
  decide

/-! ## The strict store and the widening table -/

/-- Claim C28: the strict array store and the widening table agree on primitives. For
source and destination kinds among Boolean, Char, I1, U1, I2, U2, I4, U4, I8, U8, R4 and
R8, a boxed value of the source kind stored into an array of the destination kind through
`ves_icall_System_Array_SetValueImpl` leaves no error if and only if
`can_primitive_widen` accepts the pair. The assignability check is that of primitive
classes: it accepts a value exactly when its class is the element class, and there is one
class for each kind. -/
theorem strict_store_agrees_with_widening_table (rt : MonoRuntime) (arr : MonoArray)
    (value : MonoObject) (pos : Nat) (S D : Nat)
    (hS : S ∈ table_kinds) (hD : D ∈ table_kinds)
    (hvc : is_primitive_of value.klass S = true)
    (hec : is_primitive_of arr.element_class D = true)
    (hinst : rt.isinst value arr.element_class = true → value.klass = arr.element_class)
    (hsame : S = D → rt.isinst value arr.element_class = true)
    (hesize : arr.element_size = mono_class_value_size arr.element_class)
    (hpayload : value.payload.length = mono_class_value_size value.klass) :
    (ves_icall_System_Array_SetValueImpl rt arr (some value) pos).1 = MonoError.ok
      ↔ can_primitive_widen S D = true := by
  unfold ves_icall_System_Array_SetValueImpl
  obtain ⟨hdiag, hbool, htags⟩ := table_diagonal_and_boolean
  by_cases hSD : S = D
  · have hi := hsame hSD
    have hr := (array_set_value_impl_same_class rt arr value pos true true S D hvc hec
      (hinst hi) hi hesize hpayload).2
    rw [hr]
    subst hSD
    simp [hdiag S hS]
  · have hi := isinst_false_of_kind_ne rt arr value S D hvc hec hinst hSD
    obtain ⟨hSn, hSt, hSvt, hSs⟩ := (is_primitive_of_iff _ _).1 hvc
    obtain ⟨hDn, hDt, hDvt, hDs⟩ := (is_primitive_of_iff _ _).1 hec
    by_cases hDb : D = MONO_TYPE_BOOLEAN
    · subst hDb
      have hSb : S ≠ MONO_TYPE_BOOLEAN := hSD
      obtain ⟨hw, hc⟩ := hbool S hS hSb
      simp [array_set_value_impl, hDn, hDt, hSt, hc, is_ok, hw]
    · have hes : arr.element_size = kind_size D := by rw [hesize, hDs]
      rw [array_set_value_impl_convert rt arr value pos true true S D hvc hec (htags D hD).1
        hDb (htags D hD).2 (htags S hS).2 hi]
      have hfst : ∀ (c : Prop) [Decidable c] (a d : MonoError) (b e : MonoArray),
          (if c then (a, b) else (d, e)).1 = if c then a else d := by
        intro c _ a d b e
        split <;> rfl
      rw [hfst, hes, convert_error_eq rt S D (kind_size D) true value.payload arr.vector
        (kind_size D * pos)]
      exact strict_convert_error_table S hS D hD hSD hDb

theorem strict_store_agrees_with_widening_table_witness :
    ((ves_icall_System_Array_SetValueImpl exact_runtime int32_array (some boxed_int16) 1).1
        = MonoError.ok
      ↔ can_primitive_widen MONO_TYPE_I2 MONO_TYPE_I4 = true)
    ∧ can_primitive_widen MONO_TYPE_I2 MONO_TYPE_I4 = true
    ∧ ((ves_icall_System_Array_SetValueImpl exact_runtime int32_array (some boxed_int64) 1).1
        = MonoError.ok
      ↔ can_primitive_widen MONO_TYPE_I8 MONO_TYPE_I4 = true)
    ∧ can_primitive_widen MONO_TYPE_I8 MONO_TYPE_I4 = false :=
  ⟨strict_store_agrees_with_widening_table exact_runtime int32_array boxed_int16 1
      MONO_TYPE_I2 MONO_TYPE_I4 (by decide) (by decide) (by decide) (by decide) (by decide)
      (by decide) (by decide) (by decide),
    by decide,
    strict_store_agrees_with_widening_table exact_runtime int32_array boxed_int64 1
      MONO_TYPE_I8 MONO_TYPE_I4 (by decide) (by decide) (by decide) (by decide) (by decide)
      (by decide) (by decide) (by decide),
    by decide⟩

/-- Claim C29 on a failing input: the strict store of a boxed `long` into slot 1 of an
`int[2]` reports the argument error of a refused widening, and yet the slot, which held
the bytes 5, 6, 7, 8, holds the low four bytes of the value afterwards. The `break` of
`CHECK_WIDENING_CONVERSION` ends the macro's own `do ... while (0)`, so the assignment
that follows it in `ASSIGN_SIGNED` runs after the error has been set. The relaxed store
does the same. -/
theorem array_set_failed_store_writes_slot :
    (array_set_value_impl exact_runtime int32_array (some boxed_int64) 1 true true).1
        = MonoError.argument
    ∧ int32_array.slot 1 = [5, 6, 7, 8]
    ∧ (array_set_value_impl exact_runtime int32_array (some boxed_int64) 1 true true).2.slot 1
        = [1, 2, 3, 4]
    ∧ (array_set_value_impl exact_runtime int32_array (some boxed_int64) 1 true true).2.vector
        ≠ int32_array.vector
    ∧ (array_set_value_impl exact_runtime int32_array (some boxed_int64) 1 false false).1
        = MonoError.argument
    ∧ (array_set_value_impl exact_runtime int32_array (some boxed_int64) 1 false false).2.vector
        ≠ int32_array.vector := by
  decide

/-! ## The keys and the paths of the resolver -/

/-- Claim C21: the first key that the resolver probes is the name of the declaring type
(name space, a dot and the name, the name alone when the name space is empty; for a nested
type the name of the enclosing type, a slash and the name of the nested type), two colons,
the method name and the signature description in parentheses; the second key probed is
that string cut off before the opening parenthesis, and it is probed when the hash table
has no entry under the first. The resolver probes no key for the constructor of `String`
nor for a key that does not fit its buffer. The function `concat_class_name` returns the
number of chars of the class name, which it has written at `buf` with a terminator, or 0
without writing when name space length + name length + 2 exceeds the buffer size. -/
theorem resolve_probe_keys_and_concat_class_name (st : IcallState) (mname : List Nat)
    (method : MonoMethod) (warn_on_missing : Bool) (flags : Option Nat)
    (f : Frame) (buf bufsize : Nat) (name_space name : List Nat)
    (hwf : icall_names_wf (mono_method_declaring method) = true)
    (hbuf : buf ≤ f.mname.length) :
    icall_key_qualified (mono_method_declaring method)
        = icall_type_name (mono_method_declaring method).klass ++ c_str "::"
            ++ (mono_method_declaring method).name ++ c_str "("
            ++ (mono_method_declaring method).signature_desc ++ c_str ")"
    ∧ icall_key_unqualified (mono_method_declaring method)
        = (icall_key_qualified (mono_method_declaring method)).take
            ((icall_type_name (mono_method_declaring method).klass).length + 2
              + (mono_method_declaring method).name.length)
    ∧ probe_keys
        (mono_lookup_internal_call_full_with_flags st mname method warn_on_missing flags).events
      = (if is_string_ctor (mono_method_declaring method)
            || !icall_key_fits (mono_method_declaring method) then []
        else if (g_hash_table_lookup st.icall_hash
            (icall_key_qualified (mono_method_declaring method))).isSome then
          [icall_key_qualified (mono_method_declaring method)]
        else [icall_key_qualified (mono_method_declaring method),
              icall_key_unqualified (mono_method_declaring method)])
    ∧ (name_space.length + name.length + 2 > bufsize →
        concat_class_name f buf bufsize name_space name = (f, 0))
    ∧ (name_space.length + name.length + 2 ≤ bufsize →
        (concat_class_name f buf bufsize name_space name).2
          = (class_display_name name_space name).length
        ∧ mem_read (concat_class_name f buf bufsize name_space name).1.mname buf
            ((class_display_name name_space name).length + 1)
          = class_display_name name_space name ++ [0]
        ∧ (concat_class_name f buf bufsize name_space name).1.mname.take buf
          = f.mname.take buf) := by
  generalize hm : mono_method_declaring method = m at hwf
  have hkq : icall_key_qualified m
      = icall_type_name m.klass ++ c_str "::" ++ m.name ++ c_str "(" ++ m.signature_desc
          ++ c_str ")" := by
    have h1 : c_str "::" = [58, 58] := by decide
    have h2 : c_str "(" = [40] := by decide
    have h3 : c_str ")" = [41] := by decide
    rw [h1, h2, h3]
    rfl
  refine ⟨hkq, ?_, ?_, ?_, ?_⟩
  · have hl : (icall_type_name m.klass).length + 2 + m.name.length
        = (icall_key_unqualified m).length := by
      simp [icall_key_unqualified]
      omega
    rw [hl]
    unfold icall_key_qualified
    rw [List.append_assoc, List.append_assoc, List.take_left]
  · rw [lookup_declaring, hm]
    exact lookup_probe_keys st mname m warn_on_missing flags hwf
  · exact concat_class_name_too_long f buf bufsize name_space name
  · intro hfit
    have hQ : (f.mname.take buf) <+: f.mname := List.take_prefix buf f.mname
    have hQl : buf = (f.mname.take buf).length := by
      rw [List.length_take]; omega
    obtain ⟨h1, h2, _⟩ := concat_class_name_fits f (f.mname.take buf) buf bufsize name_space
      name hQ hQl hfit
    rw [List.append_assoc] at h2
    have h3 := mem_read_of_prefix _ (f.mname.take buf)
      (class_display_name name_space name ++ [0]) h2
    rw [← hQl] at h3
    refine ⟨h1, ?_, h3.2⟩
    have h4 := h3.1
    simp only [List.length_append, List.length_singleton] at h4
    exact h4

theorem resolve_probe_keys_and_concat_class_name_witness :
    probe_keys
        (mono_lookup_internal_call_full_with_flags sqrt_unqualified_registered stack_garbage
          (MonoMethod.method sqrt_method) false none).events
      = [c_str "System.Math::Sqrt(double)", c_str "System.Math::Sqrt"]
    ∧ probe_keys
        (mono_lookup_internal_call_full_with_flags m_int_registered stack_garbage
          (MonoMethod.method nested_method) false none).events
      = [c_str "N.Outer/Inner::M(int)", c_str "N.Outer/Inner::M"]
    ∧ (concat_class_name { mname := [9, 9, 9, 9, 9, 9, 9, 9], events := [] } 0 5
        (c_str "N") (c_str "T")).2 = 3
    ∧ mem_read (concat_class_name { mname := [9, 9, 9, 9, 9, 9, 9, 9], events := [] } 0 5
        (c_str "N") (c_str "T")).1.mname 0 4 = c_str "N.T" ++ [0]
    ∧ concat_class_name { mname := [9, 9, 9, 9, 9, 9, 9, 9], events := [] } 0 3
        (c_str "N") (c_str "T") = ({ mname := [9, 9, 9, 9, 9, 9, 9, 9], events := [] }, 0) :=
  have h1 := resolve_probe_keys_and_concat_class_name sqrt_unqualified_registered
    stack_garbage (MonoMethod.method sqrt_method) false none
    { mname := [9, 9, 9, 9, 9, 9, 9, 9], events := [] } 0 5 (c_str "N") (c_str "T")
    (by decide) (by decide)
  have h2 := resolve_probe_keys_and_concat_class_name m_int_registered
    stack_garbage (MonoMethod.method nested_method) false none
    { mname := [9, 9, 9, 9, 9, 9, 9, 9], events := [] } 0 3 (c_str "N") (c_str "T")
    (by decide) (by decide)
  ⟨h1.2.2.1.trans (by decide), h2.2.2.1.trans (by decide),
    ((h1.2.2.2.2 (by decide)).1).trans (by decide),
    ((h1.2.2.2.2 (by decide)).2.1).trans (by decide),
    h2.2.2.2.1 (by decide)⟩

/-- Claim C22 on a failing input: the two functions registered with
`mono_add_internal_call` under the names of its documentation,
`MyApp.Services.ScriptService:Accelerate` and
`MyApp.Services.ScriptService:Slowdown(int,bool)`, are not what the resolver answers for
the methods `Accelerate ()` and `Slowdown (int,bool)` of that type: it probes the keys
with two colons, finds nothing and answers `no_icall_table`. Registered with two colons,
the same functions are found. -/
theorem resolve_documented_single_colon_name_not_found :
    (mono_lookup_internal_call_full icall_flag_bits script_service_registered stack_garbage
        (MonoMethod.method accelerate_method) false none none).addr
      = IcallPointer.no_icall_table
    ∧ (mono_lookup_internal_call_full icall_flag_bits script_service_registered stack_garbage
        (MonoMethod.method slowdown_method) false none none).addr
      = IcallPointer.no_icall_table
    ∧ g_hash_table_lookup script_service_registered.icall_hash
        (c_str "MyApp.Services.ScriptService:Accelerate")
      = some { method := IcallPointer.code 0xacce, flags := 2 }
    ∧ g_hash_table_lookup script_service_registered.icall_hash
        (c_str "MyApp.Services.ScriptService:Slowdown(int,bool)")
      = some { method := IcallPointer.code 0x510d, flags := 2 }
    ∧ probe_keys
        (mono_lookup_internal_call_full icall_flag_bits script_service_registered
          stack_garbage (MonoMethod.method slowdown_method) false none none).events
      = [c_str "MyApp.Services.ScriptService::Slowdown(int,bool)",
          c_str "MyApp.Services.ScriptService::Slowdown"]
    ∧ (mono_lookup_internal_call_full icall_flag_bits script_service_registered_two_colons
        stack_garbage (MonoMethod.method accelerate_method) false none none).addr
      = IcallPointer.code 0xacce
    ∧ (mono_lookup_internal_call_full icall_flag_bits script_service_registered_two_colons
        stack_garbage (MonoMethod.method slowdown_method) false none none).addr
      = IcallPointer.code 0x510d := by
  decide

/-- Claim C23: each registration entry point stores the flag it documents, and the lookup
reports it back. After `mono_add_internal_call` the entry under the name holds `Foreign`;
after `mono_add_internal_call_with_flags`, `Cooperative` when `cooperative` is true and
`Foreign` otherwise; after `mono_dangerous_add_raw_internal_call`,
`mono_dangerous_add_internal_call_coop` and `mono_add_internal_call_internal`,
`Cooperative`; after `mono_dangerous_add_internal_call_no_wrapper`, `NoWrapper`. For a
method resolved from the registry, under its key with the signature or else under its key
without it, `mono_lookup_internal_call_full` answers the function of the entry, sets
`foreign` to true exactly when the flags of the entry contain `Foreign` and
`uses_handles` to true exactly when they contain `UsesHandles`, each through a pointer
that is not null. -/
theorem registration_flags_stored_and_reported (K : MonoInternalCallFlags)
    (st0 : IcallState) (name : List Nat) (fn : IcallPointer) (cooperative : Bool)
    (st : IcallState) (mname : List Nat) (method : MonoMethod) (warn_on_missing : Bool)
    (uses_handles foreign : Option Bool) (v : MonoIcallHashTableValue)
    (hwf : icall_names_wf (mono_method_declaring method) = true)
    (hfit : icall_key_fits (mono_method_declaring method) = true)
    (hctor : is_string_ctor (mono_method_declaring method) = false)
    (hv : g_hash_table_lookup st.icall_hash (icall_key_qualified (mono_method_declaring method))
        = some v
      ∨ (g_hash_table_lookup st.icall_hash
            (icall_key_qualified (mono_method_declaring method)) = none
        ∧ g_hash_table_lookup st.icall_hash
            (icall_key_unqualified (mono_method_declaring method)) = some v)) :
    g_hash_table_lookup (mono_add_internal_call K st0 name fn).1.icall_hash name
        = some { method := fn, flags := K.MONO_ICALL_FLAGS_FOREIGN }
    ∧ g_hash_table_lookup
        (mono_add_internal_call_with_flags K st0 name fn cooperative).1.icall_hash name
        = some { method := fn,
                 flags := if cooperative then K.MONO_ICALL_FLAGS_COOPERATIVE
                          else K.MONO_ICALL_FLAGS_FOREIGN }
    ∧ g_hash_table_lookup (mono_dangerous_add_raw_internal_call K st0 name fn).1.icall_hash name
        = some { method := fn, flags := K.MONO_ICALL_FLAGS_COOPERATIVE }
    ∧ g_hash_table_lookup (mono_dangerous_add_internal_call_coop K st0 name fn).1.icall_hash
          name
        = some { method := fn, flags := K.MONO_ICALL_FLAGS_COOPERATIVE }
    ∧ g_hash_table_lookup (mono_add_internal_call_internal K st0 name fn).1.icall_hash name
        = some { method := fn, flags := K.MONO_ICALL_FLAGS_COOPERATIVE }
    ∧ g_hash_table_lookup
        (mono_dangerous_add_internal_call_no_wrapper K st0 name fn).1.icall_hash name
        = some { method := fn, flags := K.MONO_ICALL_FLAGS_NO_WRAPPER }
    ∧ (mono_lookup_internal_call_full K st mname method warn_on_missing uses_handles
        foreign).addr = v.method
    ∧ (mono_lookup_internal_call_full K st mname method warn_on_missing uses_handles
        foreign).foreign
        = foreign.map (fun _ => flags_contain v.flags K.MONO_ICALL_FLAGS_FOREIGN)
    ∧ (mono_lookup_internal_call_full K st mname method warn_on_missing uses_handles
        foreign).uses_handles
        = uses_handles.map (fun _ => flags_contain v.flags K.MONO_ICALL_FLAGS_USES_HANDLES) := by
  have hr : (mono_lookup_internal_call_full_with_flags st mname method warn_on_missing
        (some K.MONO_ICALL_FLAGS_NONE)).res = v.method
      ∧ (mono_lookup_internal_call_full_with_flags st mname method warn_on_missing
        (some K.MONO_ICALL_FLAGS_NONE)).flags = some v.flags := by
    rcases hv with hv | ⟨hnone, hv⟩
    · have h := lookup_qualified_hit st mname method warn_on_missing
        (some K.MONO_ICALL_FLAGS_NONE) v hwf hfit hctor hv
      exact ⟨h.1, h.2.1⟩
    · have h := lookup_unqualified_hit st mname method warn_on_missing
        (some K.MONO_ICALL_FLAGS_NONE) v hwf hfit hctor hnone hv
      exact ⟨h.1, h.2.1⟩
  have hfull := lookup_full_eq K st mname method warn_on_missing uses_handles foreign v.flags
    hr.2
  refine ⟨?_, ?_, ?_, ?_, ?_, ?_, hfull.1.trans hr.1, hfull.2.1, hfull.2.2⟩
  · exact g_hash_table_lookup_insert_same _ _ _
  · exact g_hash_table_lookup_insert_same _ _ _
  · exact g_hash_table_lookup_insert_same _ _ _
  · exact g_hash_table_lookup_insert_same _ _ _
  · exact g_hash_table_lookup_insert_same _ _ _
  · exact g_hash_table_lookup_insert_same _ _ _

theorem registration_flags_stored_and_reported_witness :
    (mono_lookup_internal_call_full icall_flag_bits script_service_registered_two_colons
        stack_garbage (MonoMethod.method slowdown_method) false (some true) (some false)).addr
      = IcallPointer.code 0x510d
    ∧ (mono_lookup_internal_call_full icall_flag_bits script_service_registered_two_colons
        stack_garbage (MonoMethod.method slowdown_method) false (some true)
        (some false)).foreign = some true
    ∧ (mono_lookup_internal_call_full icall_flag_bits script_service_registered_two_colons
        stack_garbage (MonoMethod.method slowdown_method) false (some true)
        (some false)).uses_handles = some false
    ∧ g_hash_table_lookup
        (mono_dangerous_add_internal_call_no_wrapper icall_flag_bits empty_icall_state
          (c_str "N.T::M") (IcallPointer.code 7)).1.icall_hash (c_str "N.T::M")
      = some { method := IcallPointer.code 7, flags := 16 } :=
  have h := registration_flags_stored_and_reported icall_flag_bits empty_icall_state
    (c_str "N.T::M") (IcallPointer.code 7) true script_service_registered_two_colons
    stack_garbage (MonoMethod.method slowdown_method) false (some true) (some false)
    { method := IcallPointer.code 0x510d, flags := 2 } (by decide) (by decide) (by decide)
    (Or.inl (by decide))
  ⟨h.2.2.2.2.2.2.1, h.2.2.2.2.2.2.2.1.trans (by decide),
    h.2.2.2.2.2.2.2.2.trans (by decide), h.2.2.2.2.2.1⟩

/-- Claim C24, as the code has it: for a method other than the constructor of `String`
that has no entry in the hash table under its key with the signature nor under its key
without it, and none in the secondary table, `mono_lookup_internal_call_full` answers, for
both values of `warn_on_missing`, null when a secondary table is installed or the key does
not fit the buffer, and the address of `no_icall_table` when no secondary table is
installed; `mono_is_missing_icall_addr` holds of the answer in each case. -/
theorem resolve_missing_is_missing_addr (K : MonoInternalCallFlags) (st : IcallState)
    (mname : List Nat) (method : MonoMethod) (warn_on_missing : Bool)
    (uses_handles foreign : Option Bool)
    (hwf : icall_names_wf (mono_method_declaring method) = true)
    (hctor : is_string_ctor (mono_method_declaring method) = false)
    (h1 : g_hash_table_lookup st.icall_hash
      (icall_key_qualified (mono_method_declaring method)) = none)
    (h2 : g_hash_table_lookup st.icall_hash
      (icall_key_unqualified (mono_method_declaring method)) = none)
    (htable : ∀ table, st.icall_table = some table →
      ∀ cn mn sg, (table.lookup (mono_method_declaring method) cn mn sg).1
        = IcallPointer.NULL) :
    (mono_lookup_internal_call_full K st mname method warn_on_missing uses_handles
        foreign).addr
      = (if st.icall_table.isNone && icall_key_fits (mono_method_declaring method) then
          IcallPointer.no_icall_table
        else IcallPointer.NULL)
    ∧ mono_is_missing_icall_addr
        (mono_lookup_internal_call_full K st mname method warn_on_missing uses_handles
          foreign).addr = true := by
  have haddr : (mono_lookup_internal_call_full K st mname method warn_on_missing uses_handles
        foreign).addr
      = (mono_lookup_internal_call_full_with_flags st mname method warn_on_missing
          (some K.MONO_ICALL_FLAGS_NONE)).res := rfl
  rw [haddr, lookup_declaring,
    lookup_missing st mname (mono_method_declaring method) warn_on_missing
      (some K.MONO_ICALL_FLAGS_NONE) hwf hctor h1 h2 htable]
  refine ⟨rfl, ?_⟩
  split <;> rfl

theorem resolve_missing_is_missing_addr_witness :
    (mono_lookup_internal_call_full icall_flag_bits table_installed_state stack_garbage
        (MonoMethod.method sqrt_method) true none none).addr = IcallPointer.NULL
    ∧ mono_is_missing_icall_addr
        (mono_lookup_internal_call_full icall_flag_bits table_installed_state stack_garbage
          (MonoMethod.method sqrt_method) true none none).addr = true :=
  have h := resolve_missing_is_missing_addr icall_flag_bits table_installed_state
    stack_garbage (MonoMethod.method sqrt_method) true none none (by decide) (by decide)
    (by decide) (by decide)
    (fun table ht cn mn sg => by
      have ht' : table = empty_icall_table := (Option.some.inj ht).symm
      rw [ht']
      rfl)
  ⟨h.1.trans (by decide), h.2⟩

/-- Claim C24 fails as stated when no secondary table is installed: nothing is registered
and no table is installed, and for `System.Math.Sqrt (double)` the answer of
`mono_lookup_internal_call_full` is the address of `no_icall_table`, not null, whether
the warning is asked for or not. -/
theorem resolve_missing_without_table_not_null :
    (mono_lookup_internal_call_full icall_flag_bits empty_icall_state stack_garbage
        (MonoMethod.method sqrt_method) true none none).addr = IcallPointer.no_icall_table
    ∧ (mono_lookup_internal_call_full icall_flag_bits empty_icall_state stack_garbage
        (MonoMethod.method sqrt_method) false none none).addr = IcallPointer.no_icall_table
    ∧ IcallPointer.no_icall_table ≠ IcallPointer.NULL
    ∧ empty_icall_state.icall_hash = []
    ∧ empty_icall_state.icall_table.isNone = true
    ∧ is_string_ctor sqrt_method = false := by
  decide

/-- Claim C25: the discipline of `icall_mutex`, on the events of a call run from a
released mutex. In `mono_lookup_internal_call_full_with_flags`, whatever the method, the
registry, the secondary table and `warn_on_missing`, and in
`add_internal_call_with_flags`, the mutex is never taken while held nor released while
not held, every read or write of the hash table and the call into the secondary table
happen while it is held, it is released as many times as it is taken, and it is not held
when the call returns. -/
theorem icall_mutex_discipline (st : IcallState) (mname : List Nat) (method : MonoMethod)
    (warn_on_missing : Bool) (flags : Option Nat) (name : List Nat) (fn : IcallPointer)
    (fl : Nat) :
    lock_run false
        (mono_lookup_internal_call_full_with_flags st mname method warn_on_missing flags).events
      = some false
    ∧ (mono_lookup_internal_call_full_with_flags st mname method warn_on_missing
        flags).events.count IcallEvent.lock
      = (mono_lookup_internal_call_full_with_flags st mname method warn_on_missing
        flags).events.count IcallEvent.unlock
    ∧ lock_run false (add_internal_call_with_flags st name fn fl).2 = some false
    ∧ (add_internal_call_with_flags st name fn fl).2.count IcallEvent.lock
      = (add_internal_call_with_flags st name fn fl).2.count IcallEvent.unlock := by
  have h1 := lookup_lock st mname method warn_on_missing flags
  have h2 : lock_run false (add_internal_call_with_flags st name fn fl).2 = some false := by
    simp [add_internal_call_with_flags, lock_run, lock_step]
  have b1 := lock_run_balance false false _ h1
  have b2 := lock_run_balance false false _ h2
  simp only [Bool.false_eq_true, if_false, Nat.add_zero] at b1 b2
  exact ⟨h1, b1, h2, b2⟩

/-- Claim C30 on failing inputs: the resolver copies the method name into `mname` before
it tests whether the key fits. For a method of `N.T` whose name has 3000 chars it writes
3000 bytes from index 5 on, past the 2048 bytes of the buffer, and answers null
afterwards. For a type name of 2046 chars, which `concat_class_name` accepts, it writes
the first char of the method name at index 2048. -/
theorem resolve_writes_past_mname :
    IcallEvent.write 5 3000
        ∈ (mono_lookup_internal_call_full_with_flags empty_icall_state stack_garbage
            (MonoMethod.method huge_method) false none).events
    ∧ writes_in_bounds
        (mono_lookup_internal_call_full_with_flags empty_icall_state stack_garbage
          (MonoMethod.method huge_method) false none).events = false
    ∧ (mono_lookup_internal_call_full_with_flags empty_icall_state stack_garbage
        (MonoMethod.method huge_method) false none).res = IcallPointer.NULL
    ∧ IcallEvent.write 2048 1
        ∈ (mono_lookup_internal_call_full_with_flags empty_icall_state stack_garbage
            (MonoMethod.method wide_class_method) false none).events
    ∧ writes_in_bounds
        (mono_lookup_internal_call_full_with_flags empty_icall_state stack_garbage
          (MonoMethod.method wide_class_method) false none).events = false := by
  have hT : (icall_type_name huge_method.klass).length = 3 := by decide
  have hN : huge_method.name.length = 3000 := List.length_replicate 3000 97
  have hS : huge_method.signature_desc.length = 3 := by decide
  have hfit := icall_type_name_into_fits { mname := stack_garbage, events := [] }
    huge_method.klass (by decide) (by decide) (by rw [hT]; decide)
  have h := lookup_too_long_events empty_icall_state stack_garbage huge_method false none
    hfit.1 hfit.2.1 (by rw [hT, hN, hS]; decide)
  rw [hT, hN] at h
  have hmem : IcallEvent.write 5 3000
      ∈ (mono_lookup_internal_call_full_with_flags empty_icall_state stack_garbage
          (MonoMethod.method huge_method) false none).events := by
    rw [h.2]
    simp
  have hWn : wide_class.name.length = 2046 := List.length_replicate 2046 97
  have hWT : (icall_type_name wide_class_method.klass).length = 2046 := by
    have : icall_type_name wide_class_method.klass = wide_class.name := rfl
    rw [this, hWn]
  have hWlen : (icall_type_name_into { mname := stack_garbage, events := [] }
      wide_class_method.klass).2 = (icall_type_name wide_class_method.klass).length := by
    have : icall_type_name_into { mname := stack_garbage, events := [] }
        wide_class_method.klass
        = concat_class_name { mname := stack_garbage, events := [] } 0 MNAME_SIZE
            wide_class.name_space wide_class.name := rfl
    rw [this, concat_class_name_len _ _ _ _ _ (by
      rw [hWn]
      decide)]
    rfl
  have hW := lookup_too_long_events empty_icall_state stack_garbage wide_class_method false
    none hWlen (by rw [hWT]; decide) (by
      rw [hWT]
      decide)
  rw [hWT] at hW
  have hWmem : IcallEvent.write 2048 1
      ∈ (mono_lookup_internal_call_full_with_flags empty_icall_state stack_garbage
          (MonoMethod.method wide_class_method) false none).events := by
    rw [hW.2]
    simp [wide_class_method, c_str]
  exact ⟨hmem, writes_in_bounds_false_of_mem _ 5 3000 hmem (by decide) (by decide), h.1,
    hWmem, writes_in_bounds_false_of_mem _ 2048 1 hWmem (by decide) (by decide)⟩

end Icall
